import Mathlib

/-!
# nModules: the drawable window (`nShared/Window.cpp`)

A shallow embedding of the parts of `Window` that manage the list of states
(`AddState`, `ActivateState`, `ClearState`), the list of overlays
(`AddOverlay`, `RemoveOverlay`, `ClearOverlays`) and the geometry of the tree
of windows (`SetPosition`, `Move`, `GetDrawingRect`).

Conventions of the embedding.

* `std::list` iterators are stable: an iterator keeps designating the same node
  while other nodes are inserted.  A node therefore carries an identity (`id`),
  an iterator is the identity of the node it designates, and the past-the-end
  iterator is `none`.  Identities are handed out in increasing order, so a node
  with a smaller identity was inserted earlier.
* `int` values are never combined arithmetically by the code modelled for the
  lists, only compared, so they are integers.
* A call of `Repaint()` or of a message handler is counted, or recorded in a log,
  by the model, in the order the calls are made.
-/

namespace nModules

/-! ## The state list -/

namespace States

/-- One node of `mStates`: the fields of `State` that `Window` reads and writes.
The class `State` is not among the sources.  `priority` is the value of
`state->priority` when `AddState` inserts the node: the `defaultPriority` passed to
the constructor, unless `State::Load` replaces it from the settings. -/
structure State where
  id : Nat
  priority : Int
  active : Bool
  deriving DecidableEq, Repr

/-- The fields of `Window` that `AddState`, `ActivateState` and `ClearState`
use.  `activeState = none` is `mStates.end()`.  `repaintCalls` counts the calls
of `Repaint()` made so far. -/
structure Window where
  mStates : List State
  activeState : Option Nat
  mBaseState : Nat
  nextId : Nat
  repaintCalls : Nat
  deriving DecidableEq, Repr

/-- The common constructor: creates the base state (priority 0, active) and
makes it both the base state and the active state. -/
def Window.new : Window :=
  { mStates := [{ id := 0, priority := 0, active := true }]
    activeState := some 0
    mBaseState := 0
    nextId := 1
    repaintCalls := 0 }

/-- The insertion loop of `AddState`:
`for (iter = begin; iter != end && iter->priority > state->priority; ++iter);`
followed by `insert(iter, state)`, which puts `state` before `iter`. -/
def insertState (s : State) : List State → List State
  | [] => [s]
  | t :: ts => if t.priority > s.priority then t :: insertState s ts else s :: t :: ts

/-- `Window::AddState`, with the priority the new state has when it is inserted.
The result is the window and the iterator returned.  A new state is taken to be
inactive (the constructor of `Window` has to set `active` on the base state). -/
def Window.AddState (w : Window) (priority : Int) : Window × Nat :=
  ({ w with
      mStates := insertState { id := w.nextId, priority := priority, active := false } w.mStates
      nextId := w.nextId + 1 },
   w.nextId)

/-- The value of `it->priority`: the priority of the node the iterator designates
(0 stands for the undefined value read through an iterator that designates no
node of the list). -/
def priorityAt (l : List State) (it : Nat) : Int :=
  match l.find? (fun s => s.id == it) with
  | some s => s.priority
  | none => 0

/-- The assignment `state->active = v`. -/
def setActive (it : Nat) (v : Bool) : List State → List State
  | [] => []
  | t :: ts => if t.id = it then { t with active := v } :: ts else t :: setActive it v ts

/-- The call `Repaint()`. -/
def Window.Repaint (w : Window) : Window :=
  { w with repaintCalls := w.repaintCalls + 1 }

/-- The condition of `ActivateState`:
`this->activeState == mStates.end() || this->activeState->priority < state->priority`. -/
def Window.pointerBelow (w : Window) (state : Nat) : Bool :=
  match w.activeState with
  | none => true
  | some a => decide (priorityAt w.mStates a < priorityAt w.mStates state)

/-- `Window::ActivateState`. -/
def Window.ActivateState (w : Window) (state : Nat) (repaint : Bool) : Window :=
  let w1 := { w with mStates := setActive state true w.mStates }
  if w1.pointerBelow state then
    let w2 := { w1 with activeState := some state }
    if repaint then w2.Repaint else w2
  else w1

/-- The nodes that follow the node `it` in the list (`state++` and onwards). -/
def nodesAfter (it : Nat) : List State → List State
  | [] => []
  | t :: ts => if t.id = it then ts else nodesAfter it ts

/-- The scan `for (...; state != end && !state->active; ++state);`: the first
active node, or the end of the list. -/
def firstActive : List State → Option Nat
  | [] => none
  | t :: ts => if t.active then some t.id else firstActive ts

/-- `Window::ClearState`. -/
def Window.ClearState (w : Window) (state : Nat) (repaint : Bool) : Window :=
  let w1 := { w with mStates := setActive state false w.mStates }
  if w1.activeState = some state then
    let w2 := { w1 with activeState := firstActive (nodesAfter state w1.mStates) }
    if repaint then w2.Repaint else w2
  else w1

/-- The active-state pointer designates a node of the list, and the priority of
that node is the maximum of the priorities of the active states. -/
def Window.PointsToMaxActive (w : Window) : Prop :=
  ∃ s ∈ w.mStates, w.activeState = some s.id ∧
    (∃ t ∈ w.mStates, t.active = true ∧ t.priority = s.priority) ∧
    ∀ t ∈ w.mStates, t.active = true → t.priority ≤ s.priority

instance (w : Window) : Decidable w.PointsToMaxActive := by
  unfold Window.PointsToMaxActive; infer_instance

/-- The order the code keeps: priority descending, and among equal priorities the
node inserted later (larger identity) first. -/
def NewestFirst (l : List State) : Prop :=
  l.Pairwise (fun a b => a.priority > b.priority ∨ (a.priority = b.priority ∧ a.id > b.id))

/-- The order of the specification: priority descending, and among equal
priorities the node inserted earlier (smaller identity) first. -/
def EarliestFirst (l : List State) : Prop :=
  l.Pairwise (fun a b => a.priority > b.priority ∨ (a.priority = b.priority ∧ a.id < b.id))

/-- Sorted by priority, descending. -/
def SortedDescending (l : List State) : Prop :=
  l.Pairwise (fun a b => a.priority ≥ b.priority)

instance (l : List State) : Decidable (NewestFirst l) := by
  unfold NewestFirst; infer_instance

instance (l : List State) : Decidable (EarliestFirst l) := by
  unfold EarliestFirst; infer_instance

instance (l : List State) : Decidable (SortedDescending l) := by
  unfold SortedDescending; infer_instance

/-- An iterator that `AddState` returned: it designates a node of the list other
than the base state (the iterator of the base state is private to `Window`). -/
def Window.IsHandle (w : Window) (it : Nat) : Prop :=
  it ≠ w.mBaseState ∧ ∃ t ∈ w.mStates, t.id = it

instance (w : Window) (it : Nat) : Decidable (w.IsHandle it) := by
  unfold Window.IsHandle; infer_instance

/-- The windows reached from construction by calls of `AddState`, `ActivateState`
and `ClearState`, the last two on iterators that `AddState` returned. -/
inductive Reachable : Window → Prop
  | new : Reachable Window.new
  | addState {w : Window} (priority : Int) : Reachable w → Reachable (w.AddState priority).1
  | activateState {w : Window} (state : Nat) (repaint : Bool) :
      Reachable w → w.IsHandle state → Reachable (w.ActivateState state repaint)
  | clearState {w : Window} (state : Nat) (repaint : Bool) :
      Reachable w → w.IsHandle state → Reachable (w.ClearState state repaint)

/-- What every reachable window satisfies: the nodes have distinct identities, all
handed out already; the list is in the order the insertion loop keeps; the base
state is in the list, active, with priority 0. -/
def Window.WellFormed (w : Window) : Prop :=
  (w.mStates.map (fun t => t.id)).Nodup ∧
  (∀ t ∈ w.mStates, t.id < w.nextId) ∧
  NewestFirst w.mStates ∧
  ∃ b ∈ w.mStates, b.id = w.mBaseState ∧ b.active = true ∧ b.priority = 0

instance (w : Window) : Decidable w.WellFormed := by
  unfold Window.WellFormed; infer_instance

/-- Two states of priority 5, both activated, then the first one cleared:
`a = AddState(5); b = AddState(5); ActivateState(a); ActivateState(b); ClearState(a)`. -/
def tieRun : Window :=
  let a := Window.new.AddState 5
  let b := a.1.AddState 5
  ((b.1.ActivateState a.2 true).ActivateState b.2 true).ClearState a.2 true

/-- Scenario 3 of the specification up to the second activation:
`S = AddState(5); ActivateState(S); T = AddState(10); ActivateState(T)`. -/
def twoStates : Window :=
  let S := Window.new.AddState 5
  let T := (S.1.ActivateState S.2 true).AddState 10
  T.1.ActivateState T.2 true

end States

/-! ## Single precision and rectangles

A finite value of type `float` is an integer of at most 24 binary digits times a
power of two, and an operation returns the value of that kind nearest to the exact
result, ties to the even significand.  The range of the exponent is not modelled.

`D2D1_RECT_F` holds four `float` coordinates.  `SetPosition` fills them with
`(float)n` for an `int` `n`, and with sums `a + n` of a coordinate `a` and an `int`
`n`, computed in `float`.  Each such value is an integer, and the model keeps a
coordinate as the integer it is equal to.  That integer is the `int` or the exact sum
only while it has at most 24 binary digits: `(float)16777217` is 16777216. -/

/-- A finite value of type `float`: `m * 2 ^ e`. -/
structure Float32 where
  m : Int
  e : Int
  deriving DecidableEq, Repr

/-- The number of binary digits of `n`, counted with at most `fuel` halvings. -/
def bitsFrom : Nat → Nat → Nat
  | 0, _ => 0
  | fuel + 1, n => if n = 0 then 0 else bitsFrom fuel (n / 2) + 1

/-- The number of binary digits of `n`. -/
def bitLength (n : Nat) : Nat :=
  bitsFrom n n

/-- The `float` nearest to `m * 2 ^ e`: the significand is cut to 24 binary digits
and rounded to nearest, ties to even. -/
def Float32.round (m e : Int) : Float32 :=
  let n : Nat := m.natAbs
  let k : Nat := bitLength n - 24
  if k = 0 then ⟨m, e⟩
  else
    let q : Nat := n / 2 ^ k
    let r : Nat := n % 2 ^ k
    let half : Nat := 2 ^ (k - 1)
    let q1 : Nat := if r > half ∨ (r = half ∧ q % 2 = 1) then q + 1 else q
    ⟨if m < 0 then -(q1 : Int) else (q1 : Int), e + k⟩

/-- The conversion of an integer to `float`. -/
def Float32.ofInt (n : Int) : Float32 :=
  Float32.round n 0

/-- The product of two values of type `float`. -/
def Float32.mul (a b : Float32) : Float32 :=
  Float32.round (a.m * b.m) (a.e + b.e)

/-- The conversion `long(a)`: the fraction is dropped, toward zero. -/
def Float32.toLong (a : Float32) : Int :=
  if 0 ≤ a.e then a.m * 2 ^ a.e.toNat
  else if a.m < 0 then -((a.m.natAbs / 2 ^ (-a.e).toNat : Nat) : Int)
  else ((a.m.natAbs / 2 ^ (-a.e).toNat : Nat) : Int)

/-- The test `a >= 1.0f`. -/
def Float32.geOne (a : Float32) : Bool :=
  if 0 ≤ a.e then decide (1 ≤ a.m) else decide ((2 : Int) ^ (-a.e).toNat ≤ a.m)

/-- The sum of two values of type `float`: the exact sum, rounded. -/
def Float32.add (a b : Float32) : Float32 :=
  let e : Int := min a.e b.e
  Float32.round (a.m * 2 ^ (a.e - e).toNat + b.m * 2 ^ (b.e - e).toNat) e

/-- The structure `D2D1_RECT_F`; each coordinate is the integer that the `float`
is equal to. -/
structure RectF where
  left : Int
  top : Int
  right : Int
  bottom : Int
  deriving DecidableEq, Repr

/-- The conversion `(float)n` of an `int`, as the integer it is equal to. -/
def toFloat (n : Int) : Int :=
  (Float32.ofInt n).toLong

/-- The expression `a + n` for a `float` coordinate `a` and an `int` `n`: `n` is
converted to `float` and the two are added in `float`.  The coordinate `a` is a
value of type `float` already, and its conversion leaves it as it is. -/
def addFloat (a n : Int) : Int :=
  ((Float32.ofInt a).add (Float32.ofInt n)).toLong

/-! ## The overlay list -/

namespace Overlays

/-- One node of `overlays`: the z-order that `GetZOrder()` returns, the position
and the bitmap source the overlay was made from. -/
structure Overlay where
  id : Nat
  position : RectF
  source : Nat
  zOrder : Int
  deriving DecidableEq, Repr

/-- The iterator type `OVERLAY`, by the two members the code reads: `mValid` and
`mIter`, the iterator into the list. -/
structure OVERLAY where
  mValid : Bool
  mIter : Nat
  deriving DecidableEq, Repr

/-- The fields of `Window` that the overlay functions use. -/
structure Window where
  overlays : List Overlay
  nextId : Nat
  deriving DecidableEq, Repr

/-- A window as constructed: no overlay. -/
def Window.new : Window :=
  { overlays := [], nextId := 0 }

/-- The insertion loop of `AddOverlay`:
`for (iter = begin; iter != end && iter->GetZOrder() < overlay->GetZOrder(); ++iter);`
followed by `insert(iter, overlay)`, which puts `overlay` before `iter`. -/
def insertOverlay (o : Overlay) : List Overlay → List Overlay
  | [] => [o]
  | t :: ts => if t.zOrder < o.zOrder then t :: insertOverlay o ts else o :: t :: ts

/-- `Window::AddOverlay(position, source, zOrder)`; the result is the window and
the iterator returned, which designates the new node. -/
def Window.AddOverlay (w : Window) (position : RectF) (source : Nat) (zOrder : Int) :
    Window × OVERLAY :=
  ({ overlays :=
        insertOverlay { id := w.nextId, position := position, source := source, zOrder := zOrder }
          w.overlays
     nextId := w.nextId + 1 },
   { mValid := true, mIter := w.nextId })

/-- `Window::RemoveOverlay`: `if (overlay.mValid) { ...; overlays.erase(overlay.mIter); }`. -/
def Window.RemoveOverlay (w : Window) (overlay : OVERLAY) : Window :=
  if overlay.mValid then
    { w with overlays := w.overlays.eraseP (fun o => o.id == overlay.mIter) }
  else w

/-- `Window::ClearOverlays`. -/
def Window.ClearOverlays (w : Window) : Window :=
  { w with overlays := [] }

/-- A call of one of the three functions that change the overlay list. -/
inductive Call where
  | addOverlay (position : RectF) (source : Nat) (zOrder : Int)
  | removeOverlay (overlay : OVERLAY)
  | clearOverlays
  deriving DecidableEq, Repr

/-- The window after one call. -/
def Window.call (w : Window) : Call → Window
  | .addOverlay position source zOrder => (w.AddOverlay position source zOrder).1
  | .removeOverlay overlay => w.RemoveOverlay overlay
  | .clearOverlays => w.ClearOverlays

/-- The window after a sequence of calls, made in the order of the list. -/
def Window.calls (w : Window) : List Call → Window
  | [] => w
  | c :: cs => (w.call c).calls cs

/-- Sorted by non-decreasing z-order. -/
def SortedByZOrder (l : List Overlay) : Prop :=
  l.Pairwise (fun a b => a.zOrder ≤ b.zOrder)

instance (l : List Overlay) : Decidable (SortedByZOrder l) := by
  unfold SortedByZOrder; infer_instance

/-- The insertion as the specification words it: the new overlay goes to the first
position whose overlay has a z-order strictly greater than the new one, and to the
end when there is none. -/
def insertOverlayAfterEqual (o : Overlay) : List Overlay → List Overlay
  | [] => [o]
  | t :: ts => if t.zOrder > o.zOrder then o :: t :: ts else t :: insertOverlayAfterEqual o ts

/-- A window with one overlay of z-order 5. -/
def oneOverlay : Window :=
  (Window.new.AddOverlay ⟨0, 0, 16, 16⟩ 0 5).1

end Overlays

/-! ## The tree of windows: `SetPosition`, `Move`, `GetDrawingRect`

A window owns its children, and the parent link `mParent` of a child in the list
`children` of a window is that window.  The tree is therefore a value of an
inductive type, and a function that reads `mParent->drawingArea` takes the drawing
area of the parent as an argument: `some` of it when `mParent` is not null, `none`
when it is null (a root, or a child whose parent has not arrived or has left).

`SetPosition` also calls `SetWindowPos`, resizes the render target and forwards
the new drawing area to the states, overlays and painters, and it holds an
`UpdateLock` for its duration.  None of these reads or writes a field of the
model, and they are left out.  What `Repaint()` does is not followed either: the
call is recorded. -/

namespace Tree

/-- The four fields of `WindowSettings` that hold the position requested for the
window, relative to its parent. -/
structure WindowSettings where
  x : Int
  y : Int
  width : Int
  height : Int
  deriving DecidableEq, Repr

/-- The message `WM_SIZECHANGE`: `WM_USER + 2`, the third of `ReservedMessages`. -/
def WM_SIZECHANGE : Nat := 0x0400 + 2

/-- The macro `MAKEWPARAM(l, h)` of the Windows headers: `l` in the low 16-bit
word and `h` in the high 16-bit word. -/
def MAKEWPARAM (l h : Int) : Nat :=
  (l % 65536).toNat + 65536 * (h % 65536).toNat

/-- The macro `LOWORD(l)` of the Windows headers: the low 16-bit word. -/
def LOWORD (l : Nat) : Nat :=
  l % 65536

/-- The macro `HIWORD(l)` of the Windows headers: the high 16-bit word. -/
def HIWORD (l : Nat) : Nat :=
  (l / 65536) % 65536

/-- What a call leaves in the log: a call of `Repaint()` on a window, or a call
`handler->HandleMessage(hwnd, msg, wParam, lParam, extra)`, where `sender` is the
window passed as `extra`. -/
inductive Event where
  | repaint (window : Nat)
  | message (handler : Nat) (msg : Nat) (wParam : Nat) (lParam : Int) (sender : Nat)
  deriving DecidableEq, Repr

/-- A window with its subtree.  `self` is the identity of the object (`this`),
`msgHandler` the identity of its message handler. -/
inductive Window where
  | mk (self : Nat) (msgHandler : Nat) (mIsChild : Bool) (drawingSettings : WindowSettings)
      (drawingArea : RectF) (children : List Window)
  deriving Repr

/-- The identity of the window. -/
def Window.self : Window → Nat
  | .mk self _ _ _ _ _ => self

/-- The member `msgHandler`. -/
def Window.msgHandler : Window → Nat
  | .mk _ msgHandler _ _ _ _ => msgHandler

/-- The member `mIsChild`. -/
def Window.mIsChild : Window → Bool
  | .mk _ _ mIsChild _ _ _ => mIsChild

/-- The member `drawingSettings`. -/
def Window.drawingSettings : Window → WindowSettings
  | .mk _ _ _ drawingSettings _ _ => drawingSettings

/-- The member `drawingArea`. -/
def Window.drawingArea : Window → RectF
  | .mk _ _ _ _ drawingArea _ => drawingArea

/-- The member `children`. -/
def Window.children : Window → List Window
  | .mk _ _ _ _ _ children => children

/-- `Window::GetDrawingRect`. -/
def Window.GetDrawingRect (w : Window) : RectF :=
  w.drawingArea

/-- The test of `SetPosition`:
`isResize = width != drawingSettings->width || height != drawingSettings->height`. -/
def isResize (stored : WindowSettings) (width height : Int) : Bool :=
  decide (width ≠ stored.width) || decide (height ≠ stored.height)

/-- The drawing area that `SetPosition` leaves.  On a window that is not a child:
`RectF(0, 0, (float)width, (float)height)`.  On a child with a parent:
`RectF(p.left + x, p.top + y, p.left + x + width, p.top + y + height)` for the
drawing area `p` of the parent, where each `+` is an addition in `float`, from left
to right.  On a child with a null parent link the drawing area is not assigned. -/
def newDrawingArea (mIsChild : Bool) (parent : Option RectF) (x y width height : Int)
    (drawingArea : RectF) : RectF :=
  if !mIsChild then ⟨0, 0, toFloat width, toFloat height⟩
  else
    match parent with
    | some p =>
      ⟨addFloat p.left x, addFloat p.top y,
       addFloat (addFloat p.left x) width, addFloat (addFloat p.top y) height⟩
    | none => drawingArea

mutual
/-- `Window::SetPosition(x, y, width, height, extra)`: the window afterwards, and
the calls it made, in order. -/
def Window.SetPosition (parent : Option RectF) (x y width height : Int) (extra : Int) :
    Window → Window × List Event
  | .mk self msgHandler mIsChild drawingSettings drawingArea children =>
    let resize : Bool := isResize drawingSettings width height
    let before : List Event := if resize || mIsChild then [Event.repaint self] else []
    let settings : WindowSettings := { x := x, y := y, width := width, height := height }
    let area : RectF := newDrawingArea mIsChild parent x y width height drawingArea
    let moved : List Window × List Event :=
      if resize || mIsChild then moveChildren area children else (children, [])
    let after : List Event := if resize || mIsChild then [Event.repaint self] else []
    let notify : List Event :=
      if resize then
        [Event.message msgHandler WM_SIZECHANGE (MAKEWPARAM width height) extra self]
      else []
    (.mk self msgHandler mIsChild settings area moved.1, before ++ moved.2 ++ after ++ notify)
/-- The loop `for (Window *child : children) child->Move(child->x, child->y)` of
`SetPosition`, where `Move(x, y)` on the child is
`SetPosition(x, y, width, height)` with the width and height stored for the child. -/
def moveChildren (parentArea : RectF) : List Window → List Window × List Event
  | [] => ([], [])
  | child :: rest =>
    let first := child.SetPosition (some parentArea) child.drawingSettings.x
      child.drawingSettings.y child.drawingSettings.width child.drawingSettings.height 0
    let others := moveChildren parentArea rest
    (first.1 :: others.1, first.2 ++ others.2)
end

/-- `Window::Move(x, y)`. -/
def Window.Move (parent : Option RectF) (x y : Int) (w : Window) : Window × List Event :=
  w.SetPosition parent x y w.drawingSettings.width w.drawingSettings.height 0

/-- The drawing rectangle that a child with the stored settings `s` has when its
parent has the drawing area `parentArea`: the origin of the parent plus the stored
position, with the stored width and height. -/
def childRect (parentArea : RectF) (s : WindowSettings) : RectF :=
  ⟨parentArea.left + s.x, parentArea.top + s.y,
   parentArea.left + s.x + s.width, parentArea.top + s.y + s.height⟩

mutual
/-- Every window below `w` has the drawing rectangle that its stored settings give
it relative to its own parent. -/
def Window.Aligned : Window → Prop
  | .mk _ _ _ _ drawingArea children => alignedAll drawingArea children
/-- Every window of the list has the drawing rectangle that its stored settings
give it relative to `parentArea`, and so on below it. -/
def alignedAll (parentArea : RectF) : List Window → Prop
  | [] => True
  | child :: rest =>
    child.drawingArea = childRect parentArea child.drawingSettings ∧ child.Aligned ∧
      alignedAll parentArea rest
end

mutual
/-- Every window below `w` was constructed as a child (`mIsChild` is set by both
constructors that make a child). -/
def Window.DescendantsAreChildren : Window → Prop
  | .mk _ _ _ _ _ children => allChildren children
/-- Every window of the list is flagged as a child, and so on below it. -/
def allChildren : List Window → Prop
  | [] => True
  | child :: rest => child.mIsChild = true ∧ child.DescendantsAreChildren ∧ allChildren rest
end

mutual
/-- Every coordinate computed when the windows below `w` are moved, `w` having its
drawing origin at `(left, top)`, is below 2 ^ 24 in magnitude, as are the origin and
the stored positions and sizes it is computed from. -/
def Window.InFloatRange (left top : Int) : Window → Prop
  | .mk _ _ _ _ _ children => allInFloatRange left top children
/-- The same for the windows of a list, whose parent has its drawing origin at
`(left, top)`. -/
def allInFloatRange (left top : Int) : List Window → Prop
  | [] => True
  | child :: rest =>
    (left.natAbs < 2 ^ 24 ∧ child.drawingSettings.x.natAbs < 2 ^ 24 ∧
      (left + child.drawingSettings.x).natAbs < 2 ^ 24 ∧
      child.drawingSettings.width.natAbs < 2 ^ 24 ∧
      (left + child.drawingSettings.x + child.drawingSettings.width).natAbs < 2 ^ 24) ∧
    (top.natAbs < 2 ^ 24 ∧ child.drawingSettings.y.natAbs < 2 ^ 24 ∧
      (top + child.drawingSettings.y).natAbs < 2 ^ 24 ∧
      child.drawingSettings.height.natAbs < 2 ^ 24 ∧
      (top + child.drawingSettings.y + child.drawingSettings.height).natAbs < 2 ^ 24) ∧
    child.InFloatRange (left + child.drawingSettings.x) (top + child.drawingSettings.y) ∧
    allInFloatRange left top rest
end

/-- The event is a `WM_SIZECHANGE` message to some handler. -/
def Event.isSizeChange : Event → Bool
  | .message _ msg _ _ _ => msg == WM_SIZECHANGE
  | .repaint _ => false

/-- The constructor that `CreateChild` uses, after the common constructor: the
drawing area is zeroed, `mIsChild` is set, and `drawingSettings` is a new
`WindowSettings`.  The constructor of `WindowSettings` is not among the sources:
`defaults` stands for the position it leaves. -/
def Window.newChild (self msgHandler : Nat) (defaults : WindowSettings) : Window :=
  .mk self msgHandler true defaults ⟨0, 0, 0, 0⟩ []

/-- `Window::CreateChild`: the new child is appended to `children`. -/
def Window.CreateChild (self msgHandler : Nat) (defaults : WindowSettings) : Window → Window
  | .mk s h c settings area children =>
    .mk s h c settings area (children ++ [Window.newChild self msgHandler defaults])

/-- A root of size 200 by 100 with a child placed at (5, 5, 50, 50), on which
`CreateChild` has just been called: the new child has not been positioned yet. -/
def rootWithNewGrandchild (defaults : WindowSettings) : Window :=
  .mk 0 100 false ⟨0, 0, 200, 100⟩ ⟨0, 0, 200, 100⟩
    [(Window.mk 1 101 true ⟨5, 5, 50, 50⟩ ⟨5, 5, 55, 55⟩ []).CreateChild 2 102 defaults]

/-- The `wParam` of the `WM_SIZECHANGE` messages in a log, in order. -/
def sizeChangeParams : List Event → List Nat
  | [] => []
  | .message _ msg wParam _ _ :: rest =>
    if msg = WM_SIZECHANGE then wParam :: sizeChangeParams rest else sizeChangeParams rest
  | .repaint _ :: rest => sizeChangeParams rest

/-- Scenario 2 of the specification: a root of size 200 by 100 with one child at
(10, 10, 20, 20). -/
def rootWithChild : Window :=
  .mk 0 100 false ⟨0, 0, 200, 100⟩ ⟨0, 0, 200, 100⟩
    [.mk 1 101 true ⟨10, 10, 20, 20⟩ ⟨10, 10, 30, 30⟩ []]

/-- A root of size 200 by 100 with one child whose stored position is
(16777217, 10, 20, 20): 2 ^ 24 + 1 is not a value of type `float`. -/
def rootWithFarChild : Window :=
  .mk 0 100 false ⟨0, 0, 200, 100⟩ ⟨0, 0, 200, 100⟩
    [.mk 1 101 true ⟨16777217, 10, 20, 20⟩ ⟨0, 0, 0, 0⟩ []]

end Tree

/-! ## A window and its chain of parents: update locks, `Repaint`, mouse capture

The functions of this part act on the window they are called on or hand the call
to `mParent`, and so up to the top of the chain.  A window is modelled with its
parent link: `mParent = none` is the null pointer.  Calls to the host
(`InvalidateRect`, `UpdateWindow`, `SetCapture`) are appended to `hostCalls` of the
window that makes them. -/

/-- The structure `RECT` of the Windows headers. -/
structure RECT where
  left : Int
  top : Int
  right : Int
  bottom : Int
  deriving DecidableEq, Repr

/-- A pointer to a `MessageHandler`, not null: a `Window` (which is a
`MessageHandler`), by its identity, or another object. -/
inductive MessageHandler where
  | window (self : Nat)
  | object (id : Nat)
  deriving DecidableEq, Repr

namespace Chain

/-- A call to the host, on the window handle of the top-level window. -/
inductive HostCall where
  | invalidateRect (region : Option RECT)
  | updateWindow
  | setCapture
  deriving DecidableEq, Repr

/-- The members of `Window` that the functions of this part read or write, apart
from the parent link. -/
structure Members where
  self : Nat
  mIsChild : Bool
  initialized : Bool
  visible : Bool
  drawingArea : RectF
  mUpdateLockCount : Int
  mNeedsUpdate : Bool
  mCaptureHandler : Option MessageHandler
  hostCalls : List HostCall
  deriving DecidableEq, Repr

/-- A window with its parent link. -/
inductive Window where
  | mk (m : Members) (mParent : Option Window)
  deriving Repr

/-- The members of the window. -/
def Window.m : Window → Members
  | .mk m _ => m

/-- The member `mParent`. -/
def Window.mParent : Window → Option Window
  | .mk _ mParent => mParent

/-- The window at the top of the chain of parents. -/
def Window.top : Window → Window
  | .mk m none => .mk m none
  | .mk _ (some parent) => parent.top

/-- The window with the members `path.head` whose chain of parents is the rest of
`path` and then `top`; `top` itself when `path` is empty. -/
def below (top : Window) : List Members → Window
  | [] => top
  | m :: rest => .mk m (some (below top rest))

/-- `Window::PushUpdateLock`. -/
def Window.PushUpdateLock : Window → Window
  | .mk m mParent =>
    if !m.mIsChild then .mk { m with mUpdateLockCount := m.mUpdateLockCount + 1 } mParent
    else
      match mParent with
      | some parent => .mk m (some parent.PushUpdateLock)
      | none => .mk m none

/-- `Window::PopUpdateLock`: `if (--mUpdateLockCount == 0 && mNeedsUpdate)` the flag
is cleared and `UpdateWindow` is called. -/
def Window.PopUpdateLock : Window → Window
  | .mk m mParent =>
    if !m.mIsChild then
      if m.mUpdateLockCount - 1 = 0 ∧ m.mNeedsUpdate = true then
        .mk { m with mUpdateLockCount := m.mUpdateLockCount - 1, mNeedsUpdate := false,
                     hostCalls := m.hostCalls ++ [HostCall.updateWindow] } mParent
      else .mk { m with mUpdateLockCount := m.mUpdateLockCount - 1 } mParent
    else
      match mParent with
      | some parent => .mk m (some parent.PopUpdateLock)
      | none => .mk m none

/-- The conversion `(LONG)drawingArea` of the four coordinates. -/
def toRECT (r : RectF) : RECT :=
  ⟨r.left, r.top, r.right, r.bottom⟩

/-- `Window::Repaint(LPCRECT region)`; `region = none` is the null pointer, which
`InvalidateRect` takes for the whole window. -/
def Window.Repaint (region : Option RECT) : Window → Window
  | .mk m mParent =>
    if m.initialized && m.visible then
      if m.mIsChild then
        match mParent with
        | some parent =>
          match region with
          | some r => .mk m (some (parent.Repaint (some r)))
          | none => .mk m (some (parent.Repaint (some (toRECT m.drawingArea))))
        | none => .mk m none
      else
        if m.mUpdateLockCount = 0 then
          .mk { m with hostCalls :=
                  m.hostCalls ++ [HostCall.invalidateRect region, HostCall.updateWindow] }
            mParent
        else
          .mk { m with mNeedsUpdate := true,
                       hostCalls := m.hostCalls ++ [HostCall.invalidateRect region] } mParent
    else .mk m mParent

/-- The value of `(LONG)(k - 1.5f)` for an integer `k`: the conversion truncates
toward zero. -/
def lessOneAndHalf (k : Int) : Int :=
  if 2 ≤ k then k - 2 else k - 1

/-- The value of `(LONG)(k + 1.5f)` for an integer `k`. -/
def plusOneAndHalf (k : Int) : Int :=
  if -1 ≤ k then k + 1 else k + 2

/-- `Window::Repaint(const D2D1_RECT_F *region)`, the overload that `Repaint()`
without an argument calls: the region, the drawing area when it is null, is widened
by 1.5 on each side and handed to `Repaint(LPCRECT)`. -/
def Window.RepaintF (region : Option RectF) (w : Window) : Window :=
  if w.m.initialized && w.m.visible then
    let r : RectF := region.getD w.m.drawingArea
    w.Repaint (some ⟨lessOneAndHalf r.left, lessOneAndHalf r.top,
      plusOneAndHalf r.right, plusOneAndHalf r.bottom⟩)
  else w

/-- Modelled from the spec: the class `UpdateLock` is declared in `Window.hpp` and
its member functions are not among the sources; its constructor pushes the update
lock of the window and its destructor pops it.  This is the handling of `WM_PAINT`
by `HandleMessage` as far as the lock and the flag go: an `UpdateLock` is taken,
the tree is painted, during which the regions of `inner` are repainted (by the
animation steps), `mNeedsUpdate` is cleared, and the lock is released. -/
def Window.paintMessage (inner : List (Option RECT)) : Window → Window
  | w =>
    match inner.foldl (fun v region => v.Repaint region) w.PushUpdateLock with
    | .mk m mParent => (Window.mk { m with mNeedsUpdate := false } mParent).PopUpdateLock

/-- A call of one of the functions that touch the update lock of a window. -/
inductive Call where
  | pushUpdateLock
  | popUpdateLock
  | repaint (region : Option RECT)
  | repaintF (region : Option RectF)
  | paintMessage (inner : List (Option RECT))
  deriving DecidableEq, Repr

/-- The window after one call. -/
def Window.call (w : Window) : Call → Window
  | .pushUpdateLock => w.PushUpdateLock
  | .popUpdateLock => w.PopUpdateLock
  | .repaint region => w.Repaint region
  | .repaintF region => w.RepaintF region
  | .paintMessage inner => w.paintMessage inner

/-- The window after a sequence of calls, made in the order of the list. -/
def Window.calls (w : Window) : List Call → Window
  | [] => w
  | c :: cs => (w.call c).calls cs

/-- The update-lock count is not negative, and the needs-update flag is set only
while the count is greater than zero. -/
def Window.LockInvariant (w : Window) : Prop :=
  0 ≤ w.m.mUpdateLockCount ∧ (w.m.mNeedsUpdate = true → 0 < w.m.mUpdateLockCount)

instance (w : Window) : Decidable w.LockInvariant := by
  unfold Window.LockInvariant; infer_instance

/-- No `PopUpdateLock` of the sequence is called while the count is zero or less:
every pop releases a lock that an earlier push took. -/
def Window.popsMatched (w : Window) : List Call → Prop
  | [] => True
  | c :: cs => (c = Call.popUpdateLock → 0 < w.m.mUpdateLockCount) ∧ (w.call c).popsMatched cs

/-- A top-level window as the constructors for top-level windows and `Initialize`
leave it, shown: not a child, no lock held. -/
def newRoot : Window :=
  .mk { self := 0, mIsChild := false, initialized := true, visible := true,
        drawingArea := ⟨0, 0, 200, 100⟩, mUpdateLockCount := 0, mNeedsUpdate := false,
        mCaptureHandler := none, hostCalls := [] } none

/-- The members of a child window that is shown, initialized or not. -/
def shownChild (self : Nat) (initialized : Bool) : Members :=
  { self := self, mIsChild := true, initialized := initialized, visible := true,
    drawingArea := ⟨0, 0, 0, 0⟩, mUpdateLockCount := 0, mNeedsUpdate := false,
    mCaptureHandler := none, hostCalls := [] }

/-- `Repaint(&region)` called on the window that the members of `path` lead to
from `top`; the result is the top-level window afterwards. -/
def repaintBelow (top : Window) (call : List Members × RECT) : Window :=
  ((below top call.1).Repaint (some call.2)).top

/-- `SetMouseCapture(captureHandler)`; `captureHandler = none` is the null pointer,
the default argument. -/
def Window.SetMouseCapture (captureHandler : Option MessageHandler) : Window → Window
  | .mk m mParent =>
    if !m.mIsChild then
      .mk { m with mCaptureHandler := captureHandler,
                   hostCalls := m.hostCalls ++ [HostCall.setCapture] } mParent
    else
      match mParent with
      | some parent =>
        match captureHandler with
        | none => .mk m (some (parent.SetMouseCapture (some (MessageHandler.window m.self))))
        | some h => .mk m (some (parent.SetMouseCapture (some h)))
      | none => .mk m none

end Chain

/-! ## `HandleMessage`: the routing of a message

The handlers a message is handed to are objects outside `Window`, or child windows
through their own `HandleMessage`.  The model records each such call in a log, in
order, together with the update locks taken and released around them, and takes
the value a handler returns from `Host.answer`.  A dereference of a null
`msgHandler` has no defined behaviour: the result is then `none`. -/

namespace Dispatch

/-- The message `WM_PAINT`; this and the following are message codes of the
Windows headers. -/
def WM_PAINT : Nat := 0x000F
/-- The message `WM_ERASEBKGND`. -/
def WM_ERASEBKGND : Nat := 0x0014
/-- The message `WM_SETTINGCHANGE`. -/
def WM_SETTINGCHANGE : Nat := 0x001A
/-- The message `WM_WINDOWPOSCHANGING`. -/
def WM_WINDOWPOSCHANGING : Nat := 0x0046
/-- The message `WM_DISPLAYCHANGE`. -/
def WM_DISPLAYCHANGE : Nat := 0x007E
/-- The first keyboard message. -/
def WM_KEYFIRST : Nat := 0x0100
/-- The last keyboard message. -/
def WM_KEYLAST : Nat := 0x0109
/-- The message `WM_TIMER`. -/
def WM_TIMER : Nat := 0x0113
/-- The first mouse message. -/
def WM_MOUSEFIRST : Nat := 0x0200
/-- The message `WM_MOUSEMOVE`. -/
def WM_MOUSEMOVE : Nat := 0x0200
/-- The last mouse message. -/
def WM_MOUSELAST : Nat := 0x020E
/-- The message `WM_MOUSELEAVE`. -/
def WM_MOUSELEAVE : Nat := 0x02A3
/-- The message `WM_DWMCOLORIZATIONCOLORCHANGED`. -/
def WM_DWMCOLORIZATIONCOLORCHANGED : Nat := 0x0320
/-- The message `WM_USER`. -/
def WM_USER : Nat := 0x0400
/-- The first message available for registration: the fourth of
`ReservedMessages`, which start at `WM_USER`. -/
def WM_FIRSTREGISTERED : Nat := WM_USER + 3

/-- A 16-bit word read as a `short`. -/
def toShort (word : Int) : Int :=
  if word < 32768 then word else word - 65536

/-- The macro `GET_X_LPARAM`: the low word of `lParam` as a signed value. -/
def GET_X_LPARAM (lParam : Int) : Int :=
  toShort (lParam % 65536)

/-- The macro `GET_Y_LPARAM`: the high word of `lParam` as a signed value. -/
def GET_Y_LPARAM (lParam : Int) : Int :=
  toShort ((lParam / 65536) % 65536)

/-- What `HandleMessage` reads of a child window. -/
structure Child where
  self : Nat
  clickThrough : Bool
  drawingArea : RectF
  deriving DecidableEq, Repr

/-- One thing `HandleMessage` does that is visible outside the window: taking or
releasing an update lock, `TrackMouseEvent`, a call
`target->HandleMessage(window, msg, wParam, lParam, this)`, `DefWindowProc`, or
the work of a built-in case that hands the message to no handler (painting,
refreshing the monitor information, the colour change, the window position). -/
inductive Step where
  | pushUpdateLock
  | popUpdateLock
  | trackMouseEvent
  | handle (target : MessageHandler) (msg : Nat) (wParam : Nat) (lParam : Int)
  | defWindowProc (msg : Nat) (wParam : Nat) (lParam : Int)
  | builtIn (msg : Nat)
  deriving DecidableEq, Repr

/-- What the handlers and the host return. -/
structure Host where
  answer : MessageHandler → Nat → Nat → Int → Int
  defWindowProc : Nat → Nat → Int → Int

/-- The members of `Window` that the routing reads or writes.  `msgHandler = none`
is the null pointer; `msgHandlerInitialized` is `msgHandler->mInitialized`.  The
two maps are lists of pairs, looked up by key. -/
structure Window where
  mIsChild : Bool
  children : List Child
  activeChild : Option Nat
  mCaptureHandler : Option MessageHandler
  mDontForwardMouse : Bool
  isTrackingMouse : Bool
  msgHandler : Option MessageHandler
  msgHandlerInitialized : Bool
  timers : List (Nat × MessageHandler)
  userMessages : List (Nat × MessageHandler)
  deriving DecidableEq, Repr

/-- The test of the loop over the children: the child is not click-through and
`xPos >= pos.left && xPos <= pos.right && yPos >= pos.top && yPos <= pos.bottom`. -/
def Child.isHit (c : Child) (xPos yPos : Int) : Bool :=
  !c.clickThrough &&
    (decide (xPos ≥ c.drawingArea.left) && decide (xPos ≤ c.drawingArea.right) &&
      decide (yPos ≥ c.drawingArea.top) && decide (yPos ≤ c.drawingArea.bottom))

/-- The loop over the children, which stops at the first child that is hit. -/
def hitTest (xPos yPos : Int) : List Child → Option Nat
  | [] => none
  | c :: rest => if c.isHit xPos yPos then some c.self else hitTest xPos yPos rest

/-- `map.find(key)`: the handler stored under the key, if any. -/
def find (key : Nat) : List (Nat × MessageHandler) → Option MessageHandler
  | [] => none
  | (k, h) :: rest => if k = key then some h else find key rest

/-- The result of `HandleMessage`: the window afterwards, the log, and the value
returned. -/
structure Outcome where
  window : Window
  log : List Step
  result : Int

/-- The block of `HandleMessage` under `msg == WM_MOUSEMOVE`, when no capture
handler is set and the children list gave the target `hit`: the mouse tracking is
armed on a top-level window, and when the target differs from the active child,
the active child is told that the mouse left, or the default handler that it
moved, and the target becomes the active child. -/
def mouseMove (w : Window) (hit : Option Nat) (wParam : Nat) (lParam : Int) :
    Option (Window × List Step) :=
  let track : Bool := !w.mIsChild && !w.isTrackingMouse
  let w1 : Window := if track then { w with isTrackingMouse := true } else w
  let log1 : List Step := if track then [Step.trackMouseEvent] else []
  if hit ≠ w1.activeChild then
    match w1.activeChild with
    | some a =>
      some ({ w1 with activeChild := hit },
        log1 ++ [Step.handle (MessageHandler.window a) WM_MOUSELEAVE 0 0])
    | none =>
      match w1.msgHandler with
      | some d =>
        some ({ w1 with activeChild := hit }, log1 ++ [Step.handle d WM_MOUSEMOVE wParam lParam])
      | none => none
  else some (w1, log1)

/-- The first block of `HandleMessage`, entered for a mouse message when the
forwarding of mouse messages is not disabled. -/
def mouseMessage (host : Host) (w : Window) (msg wParam : Nat) (lParam : Int) :
    Option Outcome :=
  let xPos := GET_X_LPARAM lParam
  let yPos := GET_Y_LPARAM lParam
  let routed : Option (Window × List Step × Option MessageHandler) :=
    match w.mCaptureHandler with
    | none =>
      let hit := hitTest xPos yPos w.children
      if msg = WM_MOUSEMOVE then
        match mouseMove w hit wParam lParam with
        | some (w1, log1) => some (w1, log1, hit.map MessageHandler.window)
        | none => none
      else some (w, [], hit.map MessageHandler.window)
    | some h => some (w, [], some h)
  match routed with
  | none => none
  | some (w1, log1, handler) =>
    let target : Option MessageHandler :=
      match handler with
      | some h => some h
      | none => w1.msgHandler
    match target with
    | none => none
    | some t =>
      some { window := w1
             log := [Step.pushUpdateLock] ++ log1 ++
               [Step.handle t msg wParam lParam, Step.popUpdateLock]
             result := host.answer t msg wParam lParam }

/-- The block of `HandleMessage` for keyboard messages: the message is handed to
the active child, and the function goes on. -/
def keyboardMessage (w : Window) (msg wParam : Nat) (lParam : Int) : List Step :=
  if WM_KEYFIRST ≤ msg ∧ msg ≤ WM_KEYLAST then
    match w.activeChild with
    | some a =>
      [Step.pushUpdateLock, Step.handle (MessageHandler.window a) msg wParam lParam,
       Step.popUpdateLock]
    | none => [Step.pushUpdateLock, Step.popUpdateLock]
  else []

/-- The end of `HandleMessage`: a registered user message goes to its handler;
anything else goes to the default handler when there is one and it is
initialized, and to `DefWindowProc` otherwise. -/
def userOrDefault (host : Host) (w : Window) (log : List Step) (msg wParam : Nat)
    (lParam : Int) : Outcome :=
  let registered : Option MessageHandler :=
    if WM_FIRSTREGISTERED ≤ msg then find msg w.userMessages else none
  let log1 : List Step :=
    if WM_FIRSTREGISTERED ≤ msg then log ++ [Step.pushUpdateLock] else log
  match registered with
  | some h =>
    { window := w
      log := log1 ++ [Step.handle h msg wParam lParam, Step.popUpdateLock]
      result := host.answer h msg wParam lParam }
  | none =>
    let log2 : List Step := if WM_FIRSTREGISTERED ≤ msg then log1 ++ [Step.popUpdateLock] else log1
    match w.msgHandler with
    | some d =>
      if w.msgHandlerInitialized then
        { window := w
          log := log2 ++ [Step.handle d msg wParam lParam]
          result := host.answer d msg wParam lParam }
      else
        { window := w
          log := log2 ++ [Step.defWindowProc msg wParam lParam]
          result := host.defWindowProc msg wParam lParam }
    | none =>
      { window := w
        log := log2 ++ [Step.defWindowProc msg wParam lParam]
        result := host.defWindowProc msg wParam lParam }

/-- `Window::HandleMessage(window, msg, wParam, lParam, extra)`. -/
def Window.HandleMessage (host : Host) (w : Window) (msg wParam : Nat) (lParam : Int) :
    Option Outcome :=
  if WM_MOUSEFIRST ≤ msg ∧ msg ≤ WM_MOUSELAST ∧ w.mDontForwardMouse = false then
    mouseMessage host w msg wParam lParam
  else
    let keys := keyboardMessage w msg wParam lParam
    if msg = WM_MOUSELEAVE then
      let left : List Step :=
        match w.activeChild with
        | some a =>
          [Step.pushUpdateLock, Step.handle (MessageHandler.window a) WM_MOUSELEAVE 0 0,
           Step.popUpdateLock]
        | none => [Step.pushUpdateLock, Step.popUpdateLock]
      some (userOrDefault host { w with isTrackingMouse := false, activeChild := none }
        (keys ++ left) msg wParam lParam)
    else if msg = WM_ERASEBKGND then
      some { window := w, log := keys, result := 1 }
    else if msg = WM_PAINT then
      some { window := w
             log := keys ++ [Step.pushUpdateLock, Step.builtIn msg, Step.popUpdateLock]
             result := 0 }
    else if msg = WM_TIMER then
      match find wParam w.timers with
      | some h =>
        some { window := w
               log := keys ++ [Step.pushUpdateLock, Step.handle h msg wParam lParam,
                 Step.popUpdateLock]
               result := host.answer h msg wParam lParam }
      | none =>
        some { window := w, log := keys ++ [Step.pushUpdateLock, Step.popUpdateLock], result := 0 }
    else if msg = WM_SETTINGCHANGE ∨ msg = WM_DISPLAYCHANGE ∨ msg = WM_WINDOWPOSCHANGING then
      some { window := w, log := keys ++ [Step.builtIn msg], result := 0 }
    else if msg = WM_DWMCOLORIZATIONCOLORCHANGED then
      some { window := w
             log := keys ++ [Step.pushUpdateLock, Step.builtIn msg, Step.popUpdateLock]
             result := 0 }
    else some (userOrDefault host w keys msg wParam lParam)

/-- The calls of handlers in a log, in order, as pairs of the target and the message
code. -/
def handled : List Step → List (MessageHandler × Nat)
  | [] => []
  | .handle target msg _ _ :: rest => (target, msg) :: handled rest
  | _ :: rest => handled rest

/-- A host for examples: a window answers with its identity, another handler with
100 plus its identity, and `DefWindowProc` with -1. -/
def sampleHost : Host :=
  { answer := fun target _ _ _ =>
      match target with
      | .window self => self
      | .object id => 100 + id
    defWindowProc := fun _ _ _ => -1 }

/-- A top-level window with three children: the first is click-through, the
second and the third overlap at (10, 10).  Its default handler is the object 0; it
has one timer and one registered user message. -/
def sampleWindow : Window :=
  { mIsChild := false
    children := [⟨1, true, ⟨0, 0, 50, 50⟩⟩, ⟨2, false, ⟨0, 0, 50, 50⟩⟩,
      ⟨3, false, ⟨0, 0, 100, 100⟩⟩]
    activeChild := none
    mCaptureHandler := none
    mDontForwardMouse := false
    isTrackingMouse := false
    msgHandler := some (MessageHandler.object 0)
    msgHandlerInitialized := true
    timers := [(1, MessageHandler.object 11)]
    userMessages := [(WM_FIRSTREGISTERED, MessageHandler.object 21)] }

/-- The message `WM_LBUTTONDOWN`. -/
def WM_LBUTTONDOWN : Nat := 0x0201

/-- The `lParam` of a mouse message at the point (10, 10). -/
def at10x10 : Int := 10 + 65536 * 10

/-- The `lParam` of a mouse message at the point (200, 200), over no child of
`sampleWindow`. -/
def at200x200 : Int := 200 + 65536 * 200

/-- The `lParam` of a mouse message at the point (10, 12). -/
def at10x12 : Int := 10 + 65536 * 12

/-- A top-level window with four children, in this order: the child 1 lies away
from (10, 12); the child 2 is click-through and covers it; the children 3 and 4
both cover it.  Its default handler is the object 0. -/
def layeredWindow : Window :=
  { sampleWindow with
    children := [⟨1, false, ⟨20, 20, 60, 60⟩⟩, ⟨2, true, ⟨0, 0, 50, 50⟩⟩,
      ⟨3, false, ⟨5, 5, 50, 50⟩⟩, ⟨4, false, ⟨0, 0, 100, 100⟩⟩] }

/-- The sample window with the object 7 as its capture handler, the forwarding of
mouse messages disabled or not. -/
def capturingWindow (dontForward : Bool) : Window :=
  { sampleWindow with
    mCaptureHandler := some (MessageHandler.object 7)
    mDontForwardMouse := dontForward }

/-- The sample window with the mouse over the child `a`. -/
def hoveredWindow (a : Nat) : Window :=
  { sampleWindow with activeChild := some a }

end Dispatch

/-! ## `Paint`: the order of the draw calls

`Paint` also takes an update lock for its duration, which issues no draw call and
is left out.  An animating window ends its painting with `Animate()`, which sets
its position anew and so changes nothing that the rest of the same traversal
reads: the call is recorded, its effect is not followed.
`Math::RectIntersectArea` is not among the sources and is a parameter. -/

namespace Painting

/-- A call that `Paint` makes: on the render target (the clip), on the active
state, on a painter, on an overlay, or of `Animate`. -/
inductive Draw where
  | pushClip (area : RectF)
  | state (id : Nat)
  | painter (id : Nat)
  | overlay (id : Nat)
  | animate
  | popClip
  deriving DecidableEq, Repr

/-- A window with its subtree, by the members that `Paint` reads: `activeState` is
the state that the active-state pointer designates. -/
inductive Window where
  | mk (visible : Bool) (drawingArea : RectF) (activeState : Nat) (prePainters : List Nat)
      (overlays : List Overlays.Overlay) (children : List Window) (postPainters : List Nat)
      (animating : Bool)
  deriving Repr

mutual
/-- `Window::Paint(inAnimation, updateRect)`, with `PaintOverlays` and the loops
over the painters: the calls made, in order. -/
def Window.Paint (rectIntersectArea : RectF → RectF → Int) (updateRect : RectF) :
    Window → List Draw
  | .mk visible drawingArea activeState prePainters overlays children postPainters animating =>
    if visible && decide (rectIntersectArea updateRect drawingArea > 0) then
      [Draw.pushClip drawingArea, Draw.state activeState] ++
        prePainters.map Draw.painter ++
        overlays.map (fun o => Draw.overlay o.id) ++
        paintChildren rectIntersectArea updateRect children ++
        postPainters.map Draw.painter ++
        (if animating then [Draw.animate] else []) ++
        [Draw.popClip]
    else []
/-- `Window::PaintChildren`: every child is painted, in the order of the list. -/
def paintChildren (rectIntersectArea : RectF → RectF → Int) (updateRect : RectF) :
    List Window → List Draw
  | [] => []
  | child :: rest =>
    child.Paint rectIntersectArea updateRect ++ paintChildren rectIntersectArea updateRect rest
end

/-- A call that adds something to paint to a window.  The child of `child` is the
window that `CreateChild` returned, as it stands when the parent is painted. -/
inductive Add where
  | prePainter (id : Nat)
  | overlay (o : Overlays.Overlay)
  | child (c : Window)
  | postPainter (id : Nat)

/-- `AddPrePainter` and `AddPostPainter` (`insert` at the end of the list),
`AddOverlay` (the insertion loop) and `CreateChild` (`push_back`). -/
def Window.add : Window → Add → Window
  | .mk v a s pre overlays children post an, .prePainter id =>
    .mk v a s (pre ++ [id]) overlays children post an
  | .mk v a s pre overlays children post an, .overlay o =>
    .mk v a s pre (Overlays.insertOverlay o overlays) children post an
  | .mk v a s pre overlays children post an, .child c =>
    .mk v a s pre overlays (children ++ [c]) post an
  | .mk v a s pre overlays children post an, .postPainter id =>
    .mk v a s pre overlays children (post ++ [id]) an

/-- The window after a sequence of such calls, made in the order of the list. -/
def Window.adds (w : Window) : List Add → Window
  | [] => w
  | a :: rest => (w.add a).adds rest

/-- The pre-painters added by a sequence of calls, in the order added. -/
def prePaintersOf : List Add → List Nat
  | [] => []
  | .prePainter id :: rest => id :: prePaintersOf rest
  | _ :: rest => prePaintersOf rest

/-- The post-painters added by a sequence of calls, in the order added. -/
def postPaintersOf : List Add → List Nat
  | [] => []
  | .postPainter id :: rest => id :: postPaintersOf rest
  | _ :: rest => postPaintersOf rest

/-- The children added by a sequence of calls, in the order added. -/
def childrenOf : List Add → List Window
  | [] => []
  | .child c :: rest => c :: childrenOf rest
  | _ :: rest => childrenOf rest

/-- The overlays added by a sequence of calls, in the order added. -/
def overlaysOf : List Add → List Overlays.Overlay
  | [] => []
  | .overlay o :: rest => o :: overlaysOf rest
  | _ :: rest => overlaysOf rest

/-- The overlay list after the overlays of `added` have been inserted one after
the other. -/
def insertAll (overlays : List Overlays.Overlay) : List Overlays.Overlay → List Overlays.Overlay
  | [] => overlays
  | o :: rest => insertAll (Overlays.insertOverlay o overlays) rest

/-- A window as constructed, shown: nothing to paint but the active state. -/
def bare (drawingArea : RectF) (activeState : Nat) : Window :=
  .mk true drawingArea activeState [] [] [] [] false

/-- The area of the intersection of two rectangles, as a stand-in for
`Math::RectIntersectArea` in examples. -/
def intersectArea (a b : RectF) : Int :=
  max 0 (min a.right b.right - max a.left b.left) *
    max 0 (min a.bottom b.bottom - max a.top b.top)

/-- A sequence of calls for examples: a post-painter first, overlays in descending
z-order, a child with a pre-painter, a post-painter and a child of its own, a hidden
child, pre-painters in between. -/
def sampleAdds : List Add :=
  [Add.postPainter 9,
   Add.overlay ⟨1, ⟨0, 0, 10, 10⟩, 0, 7⟩,
   Add.child ((bare ⟨0, 0, 20, 20⟩ 10).adds
     [Add.postPainter 12, Add.child (bare ⟨5, 5, 10, 10⟩ 20), Add.prePainter 11]),
   Add.prePainter 3,
   Add.overlay ⟨2, ⟨0, 0, 10, 10⟩, 0, 5⟩,
   Add.child (Window.mk false ⟨0, 0, 30, 30⟩ 30 [31] [] [] [] false),
   Add.postPainter 8,
   Add.prePainter 4]

end Painting

/-! ## The host window: `Show`, `Hide`, `SetAlwaysOnTop`

The window is taken with its chain of parents, as in the part on update locks; the
calls on the host window that these three functions make themselves (`ShowWindow`,
`SetWindowPos`) are appended to `surface`.  A call through a null `mParent` has no
defined behaviour: the result is then `none`. -/

namespace Surface

/-- The argument `hWndInsertAfter` of `SetWindowPos`, as far as it is used. -/
inductive InsertAfter where
  | HWND_TOPMOST
  | HWND_NOTOPMOST
  deriving DecidableEq, Repr

/-- A call on the host window. -/
inductive SurfaceCall where
  | showWindow (nCmdShow : Int)
  | setWindowPos (hWndInsertAfter : InsertAfter)
  deriving DecidableEq, Repr

/-- The show command `SW_HIDE` of the Windows headers. -/
def SW_HIDE : Int := 0

/-- The show command `SW_SHOWNOACTIVATE`, the default argument of `Show`. -/
def SW_SHOWNOACTIVATE : Int := 4

/-- A window with its chain of parents, the setting `drawingSettings->alwaysOnTop`,
the member `mCoveredByFullscreen`, and the calls made on the host window. -/
structure Window where
  chain : Chain.Window
  alwaysOnTop : Bool
  mCoveredByFullscreen : Bool
  surface : List SurfaceCall

/-- `Window::Show(nCmdShow)`. -/
def Window.Show (nCmdShow : Int) (w : Window) : Window :=
  match w.chain with
  | .mk m mParent =>
    let calls : List SurfaceCall :=
      if !m.mIsChild then
        [SurfaceCall.showWindow nCmdShow] ++
          (if w.alwaysOnTop then [SurfaceCall.setWindowPos InsertAfter.HWND_TOPMOST] else [])
      else []
    { w with chain := .mk { m with visible := true } mParent, surface := w.surface ++ calls }

/-- `Window::Hide()`: on a child, `mParent->Repaint(&r)` is called with the drawing
area of the child, and `mParent` is not tested. -/
def Window.Hide (w : Window) : Option Window :=
  match w.chain with
  | .mk m mParent =>
    if !m.mIsChild then
      some { w with chain := .mk { m with visible := false } mParent,
                    surface := w.surface ++ [SurfaceCall.showWindow SW_HIDE] }
    else
      match mParent with
      | some parent =>
        some { w with
          chain := (Chain.Window.mk { m with visible := false }
            (some (parent.Repaint (some (Chain.toRECT m.drawingArea))))) }
      | none => none

/-- `Window::SetAlwaysOnTop(value)`: the setting is assigned the constant `true`. -/
def Window.SetAlwaysOnTop (value : Bool) (w : Window) : Window :=
  let oldValue : Bool := w.alwaysOnTop
  let calls : List SurfaceCall :=
    if !w.chain.m.mIsChild && !w.mCoveredByFullscreen then
      if value then [SurfaceCall.setWindowPos InsertAfter.HWND_TOPMOST]
      else if oldValue then [SurfaceCall.setWindowPos InsertAfter.HWND_NOTOPMOST]
      else []
    else []
  { w with alwaysOnTop := true, surface := w.surface ++ calls }

/-- The members of an initialized child window at (10, 10) of 20 by 20, shown or
not. -/
def childAt10 (visible : Bool) : Chain.Members :=
  { self := 1, mIsChild := true, initialized := true, visible := visible,
    drawingArea := ⟨10, 10, 30, 30⟩, mUpdateLockCount := 0, mNeedsUpdate := false,
    mCaptureHandler := none, hostCalls := [] }

/-- That child below the top-level window `Chain.newRoot`, with nothing called on
the host window yet. -/
def childOfNewRoot (visible : Bool) : Window :=
  { chain := .mk (childAt10 visible) (some Chain.newRoot), alwaysOnTop := false,
    mCoveredByFullscreen := false, surface := [] }

/-- A top-level window that is not always on top. -/
def plainRoot : Window :=
  { chain := Chain.newRoot, alwaysOnTop := false, mCoveredByFullscreen := false,
    surface := [] }

end Surface

/-! ## Timers, user messages and the release of the mouse capture

These functions act on the top-level window and are handed up the chain of
parents by a child.  The class `UIDGenerator` is not among the sources: the value
that `GetNewID()` returns is an argument of the model, and so is the value that the
host returns from `SetTimer`; `ReleaseID` is recorded as a call. -/

namespace Registry

/-- A call that these functions make outside `Window`. -/
inductive Call where
  | setTimer (id : Nat) (elapse : Nat)
  | killTimer (id : Nat)
  | releaseTimerID (id : Nat)
  | releaseUserMsgID (id : Nat)
  | releaseCapture
  deriving DecidableEq, Repr

/-- The members of `Window` that these functions read or write, apart from the
parent link.  The two maps are lists of pairs with distinct keys. -/
structure Members where
  mIsChild : Bool
  mCaptureHandler : Option MessageHandler
  timers : List (Nat × MessageHandler)
  userMessages : List (Nat × MessageHandler)
  calls : List Call
  deriving DecidableEq, Repr

/-- A window with its parent link. -/
inductive Window where
  | mk (m : Members) (mParent : Option Window)
  deriving Repr

/-- The members of the window. -/
def Window.m : Window → Members
  | .mk m _ => m

/-- `map.insert(pair)`: the pair is added unless the key is present. -/
def insert (key : Nat) (h : MessageHandler) (map : List (Nat × MessageHandler)) :
    List (Nat × MessageHandler) :=
  if map.any (fun p => p.1 = key) then map else map ++ [(key, h)]

/-- `map.erase(key)`. -/
def erase (key : Nat) (map : List (Nat × MessageHandler)) : List (Nat × MessageHandler) :=
  map.filter (fun p => p.1 ≠ key)

/-- `Window::SetCallbackTimer(elapse, msgHandler)`, where `newID` is what
`timerIDs->GetNewID()` returns and `ret` what `SetTimer` returns: the window
afterwards and the value returned. -/
def Window.SetCallbackTimer (newID ret : Nat) (elapse : Nat) (msgHandler : MessageHandler) :
    Window → Window × Nat
  | .mk m mParent =>
    if !m.mIsChild then
      (.mk { m with timers := insert ret msgHandler m.timers,
                    calls := m.calls ++ [Call.setTimer newID elapse] } mParent, ret)
    else
      match mParent with
      | some parent =>
        ((Window.mk m (some (parent.SetCallbackTimer newID ret elapse msgHandler).1)),
          (parent.SetCallbackTimer newID ret elapse msgHandler).2)
      | none => (.mk m none, 0)

/-- `Window::ClearCallbackTimer(timer)`. -/
def Window.ClearCallbackTimer (timer : Nat) : Window → Window
  | .mk m mParent =>
    if !m.mIsChild then
      .mk { m with timers := erase timer m.timers,
                   calls := m.calls ++ [Call.killTimer timer, Call.releaseTimerID timer] }
        mParent
    else
      match mParent with
      | some parent => .mk m (some (parent.ClearCallbackTimer timer))
      | none => .mk m none

/-- `Window::RegisterUserMessage(msgHandler)`, where `newID` is what
`userMsgIDs->GetNewID()` returns: the window afterwards and the value returned. -/
def Window.RegisterUserMessage (newID : Nat) (msgHandler : MessageHandler) :
    Window → Window × Nat
  | .mk m mParent =>
    if !m.mIsChild then
      (.mk { m with userMessages := insert newID msgHandler m.userMessages } mParent, newID)
    else
      match mParent with
      | some parent =>
        ((Window.mk m (some (parent.RegisterUserMessage newID msgHandler).1)),
          (parent.RegisterUserMessage newID msgHandler).2)
      | none => (.mk m none, 0)

/-- `Window::ReleaseUserMessage(message)`. -/
def Window.ReleaseUserMessage (message : Nat) : Window → Window
  | .mk m mParent =>
    if !m.mIsChild then
      .mk { m with userMessages := erase message m.userMessages,
                   calls := m.calls ++ [Call.releaseUserMsgID message] } mParent
    else
      match mParent with
      | some parent => .mk m (some (parent.ReleaseUserMessage message))
      | none => .mk m none

/-- `Window::ReleaseMouseCapture()`. -/
def Window.ReleaseMouseCapture : Window → Window
  | .mk m mParent =>
    if !m.mIsChild then
      .mk { m with mCaptureHandler := none, calls := m.calls ++ [Call.releaseCapture] } mParent
    else
      match mParent with
      | some parent => .mk m (some parent.ReleaseMouseCapture)
      | none => .mk m none

end Registry

/-! ## `HandleMessage`: the update lock around the handlers, and the active child

`RemoveChild` is what the destructor of a child calls on its parent;
`CreateChild` and `SetParent` add a child at the end of the children list. -/

namespace Dispatch

/-- The calls of handlers in a log that are made while the update-lock count of
the window is zero or less, when the count is `count` before the first step: the
count goes up by one at each lock taken and down by one at each lock released. -/
def unlocked (count : Int) : List Step → List (MessageHandler × Nat)
  | [] => []
  | .pushUpdateLock :: rest => unlocked (count + 1) rest
  | .popUpdateLock :: rest => unlocked (count - 1) rest
  | .handle target msg _ _ :: rest =>
    (if count ≤ 0 then [(target, msg)] else []) ++ unlocked count rest
  | .trackMouseEvent :: rest => unlocked count rest
  | .defWindowProc _ _ _ :: rest => unlocked count rest
  | .builtIn _ :: rest => unlocked count rest

/-- The update-lock count after the steps of a log, when it is `count` before. -/
def countAfter (count : Int) : List Step → Int
  | [] => count
  | .pushUpdateLock :: rest => countAfter (count + 1) rest
  | .popUpdateLock :: rest => countAfter (count - 1) rest
  | .handle _ _ _ _ :: rest => countAfter count rest
  | .trackMouseEvent :: rest => countAfter count rest
  | .defWindowProc _ _ _ :: rest => countAfter count rest
  | .builtIn _ :: rest => countAfter count rest

/-- `Window::CreateChild`, as far as the parent goes: `children.push_back(child)`.
The same is done to the new parent by `SetParent` called on a child. -/
def Window.CreateChild (w : Window) (child : Child) : Window :=
  { w with children := w.children ++ [child] }

/-- `Window::RemoveChild(child)`: `children.remove(child)`, and the active child is
set to null when it is that child. -/
def Window.RemoveChild (w : Window) (child : Nat) : Window :=
  { w with
    children := w.children.filter (fun c => c.self ≠ child)
    activeChild := if w.activeChild = some child then none else w.activeChild }

/-- A call made on a window, or on one of its children with an effect on the
window. -/
inductive Op where
  | createChild (child : Child)
  | setParent (child : Child)
  | removeChild (child : Nat)
  | handleMessage (msg wParam : Nat) (lParam : Int)
  deriving DecidableEq, Repr

/-- The window after one call; `none` when `HandleMessage` has no defined
result. -/
def Window.apply (host : Host) (w : Window) : Op → Option Window
  | .createChild child => some (w.CreateChild child)
  | .setParent child => some (w.CreateChild child)
  | .removeChild child => some (w.RemoveChild child)
  | .handleMessage msg wParam lParam =>
    (w.HandleMessage host msg wParam lParam).map (fun out => out.window)

/-- The window after a sequence of calls, made in the order of the list. -/
def Window.applyAll (host : Host) (w : Window) : List Op → Option Window
  | [] => some w
  | op :: rest =>
    match w.apply host op with
    | some w1 => w1.applyAll host rest
    | none => none

/-- The active-child link is null or designates a window of the children list. -/
def Window.ActiveChildListed (w : Window) : Prop :=
  ∀ a, w.activeChild = some a → ∃ c ∈ w.children, c.self = a

/-- A top-level window as constructed: no child, no active child, with the default
handler `d`. -/
def newWindow (d : MessageHandler) : Window :=
  { mIsChild := false, children := [], activeChild := none, mCaptureHandler := none,
    mDontForwardMouse := false, isTrackingMouse := false, msgHandler := some d,
    msgHandlerInitialized := true, timers := [], userMessages := [] }

/-- The message `WM_KEYDOWN`. -/
def WM_KEYDOWN : Nat := 0x0100

end Dispatch

/-! ## `MonitorInfo::MonitorFromHWND`

`Math::RectIntersectArea` is not among the sources and is an argument of the model;
the window rectangle is what the host returns for the window. -/

namespace Monitors

/-- The loop of `MonitorFromHWND`, from the index `i` on, over the areas of the
intersections of the window with the monitors not yet visited:
`if (area >= maxArea) { maxArea = area; monitor = i; }`. -/
def loop : List Int → Nat → Int → Nat → Nat
  | [], _, _, monitor => monitor
  | area :: rest, i, maxArea, monitor =>
    if area ≥ maxArea then loop rest (i + 1) area i else loop rest (i + 1) maxArea monitor

/-- `MonitorInfo::MonitorFromHWND`, for the window rectangle `wndRect` and the list
`m_monitors` of the rectangles of the monitors: `maxArea` and `monitor` start
at 0. -/
def MonitorFromHWND (rectIntersectArea : RECT → RECT → Int) (wndRect : RECT)
    (m_monitors : List RECT) : Nat :=
  loop (m_monitors.map (rectIntersectArea wndRect)) 0 0 0

/-- The area of the intersection of two rectangles, as a stand-in for
`Math::RectIntersectArea` in examples. -/
def intersectArea (a b : RECT) : Int :=
  max 0 (min a.right b.right - max a.left b.left) *
    max 0 (min a.bottom b.bottom - max a.top b.top)

end Monitors

/-! ## `FindBrush`: the target of a brush command

The brushes, the brush owners (`IBrushOwner`) and the function `windowFinder` are
outside the sources: a brush is taken by its identity, a brush owner by its
function `GetBrush`, and `windowFinder` is an argument of the model. -/

namespace Brushes

/-- A brush owner, by what `GetBrush(name)` returns: a brush, by its identity, or
null. -/
structure IBrushOwner where
  GetBrush : String → Option Nat

/-- A window, by its identity and its map `mBrushOwners`; a name can be mapped to
the null pointer. -/
structure DrawableWindow where
  self : Nat
  mBrushOwners : List (String × Option IBrushOwner)

/-- `map[name]` as a value: the pointer stored under the name, and the null
pointer when there is no entry. -/
def valueAt (name : String) : List (String × Option IBrushOwner) → Option IBrushOwner
  | [] => none
  | (key, owner) :: rest => if key = name then owner else valueAt name rest

/-- `Window::GetBrushOwner(name)`, which is `return mBrushOwners[name];`: the value,
and the window afterwards, where `operator[]` has added an entry with the null
pointer when there was none. -/
def DrawableWindow.GetBrushOwner (w : DrawableWindow) (name : String) :
    Option IBrushOwner × DrawableWindow :=
  (valueAt name w.mBrushOwners,
    if w.mBrushOwners.any (fun entry => entry.1 = name) then w
    else { w with mBrushOwners := w.mBrushOwners ++ [(name, none)] })

/-- Modelled from the spec: `LiteStep::CommandTokenize` is declared in `lsapi.h`,
which is not among the sources.  The argument string is taken as the list of its
whitespace-delimited tokens; `CommandTokenize(args, nullptr, 0, nullptr)` returns
their number. -/
def CommandTokenize (args : List String) : Nat :=
  args.length

/-- Modelled from the spec: `LiteStep::GetToken` is declared in `lsapi.h`, which is
not among the sources.  `GetToken(args, buffer, &args, 0)` copies the first token
to the buffer and moves `args` past it; the buffer is empty when there is no
token. -/
def GetToken : List String → String × List String
  | [] => ("", [])
  | token :: rest => (token, rest)

/-- What `FindBrush` leaves: the brush returned, the window stored in the
reference `window` (with its map of brush owners as it is afterwards), and the
rest of the argument string. -/
structure Found where
  brush : Option Nat
  window : Option DrawableWindow
  args : List String

/-- `FindBrush(args, numArgs, window)`; `window` is null before the call, as in
every caller. -/
def FindBrush (windowFinder : String → Option DrawableWindow) (args : List String)
    (numArgs : Nat) : Found :=
  let numTokens := CommandTokenize args
  if numTokens = numArgs + 1 ∨ numTokens = numArgs + 2 ∨ numTokens = numArgs + 3 then
    let first := GetToken args
    match windowFinder first.1 with
    | some window =>
      if numTokens = numArgs + 2 ∨ numTokens = numArgs + 3 then
        let second := GetToken first.2
        let named := window.GetBrushOwner second.1
        match named.1 with
        | some owner =>
          if numTokens = numArgs + 3 then
            let third := GetToken second.2
            { brush := owner.GetBrush third.1, window := some named.2, args := third.2 }
          else
            { brush := owner.GetBrush "", window := some named.2, args := second.2 }
        | none =>
          if numTokens = numArgs + 2 then
            let base := named.2.GetBrushOwner ""
            match base.1 with
            | some owner =>
              { brush := owner.GetBrush second.1, window := some base.2, args := second.2 }
            | none => { brush := none, window := some base.2, args := second.2 }
          else { brush := none, window := some named.2, args := second.2 }
      else
        let base := window.GetBrushOwner ""
        match base.1 with
        | some owner => { brush := owner.GetBrush "", window := some base.2, args := first.2 }
        | none => { brush := none, window := some base.2, args := first.2 }
    | none => { brush := none, window := none, args := first.2 }
  else { brush := none, window := none, args := args }

/-- The brush owner that the window has under a name, if any. -/
def DrawableWindow.owner (w : DrawableWindow) (name : String) : Option IBrushOwner :=
  valueAt name w.mBrushOwners

/-- The brush with the given name of the owner with the given name, if both
exist. -/
def DrawableWindow.brushOf (w : DrawableWindow) (owner brush : String) : Option Nat :=
  (w.owner owner).bind (fun o => o.GetBrush brush)

/-- A window finder for examples: one window, `"label"`, whose base owner has the
brushes `""` (1) and `"hover"` (2) and whose owner `"hover"` has the brushes `""` (3)
and `"text"` (4). -/
def sampleFinder (name : String) : Option DrawableWindow :=
  if name = "label" then
    some { self := 7
           mBrushOwners :=
             [("", some ⟨fun b => if b = "" then some 1 else if b = "hover" then some 2 else none⟩),
              ("hover",
                some ⟨fun b => if b = "" then some 3 else if b = "text" then some 4 else none⟩)] }
  else none

end Brushes

/-! ## `SetAnimation` and `Animate`

`Easing::Transform` and the clock are not among the sources: the value `progress`
that an animation step samples is an argument of `Animate`.  The step is computed
in single precision, `long(progress * (target - start))`, with the values of type
`float` of the section on rectangles.  The integers of type `LONG` are taken without
bound. -/

namespace Animation

/-- A window with the members of its animation.  `mAnimationDuration` is kept in
milliseconds, as passed to `SetAnimation`. -/
structure Window where
  window : Tree.Window
  animating : Bool
  animationEasing : Nat
  mAnimationDuration : Int
  animationStart : RECT
  animationTarget : RECT

/-- `Window::SetAnimation(x, y, width, height, duration, easing)`: the window
afterwards and the call of `Repaint()` it makes. -/
def Window.SetAnimation (x y width height duration : Int) (easing : Nat) (w : Window) :
    Window × List Tree.Event :=
  ({ w with
      animationTarget := ⟨x, y, x + width, y + height⟩
      animationStart :=
        ⟨w.window.drawingSettings.x, w.window.drawingSettings.y,
         w.window.drawingSettings.x + w.window.drawingSettings.width,
         w.window.drawingSettings.y + w.window.drawingSettings.height⟩
      animationEasing := easing
      mAnimationDuration := duration
      animating := true },
   [Tree.Event.repaint w.window.self])

/-- One coordinate of the step of `Animate`:
`start + long(progress * (target - start))`. -/
def stepTo (progress : Float32) (start target : Int) : Int :=
  start + (progress.mul (Float32.ofInt (target - start))).toLong

/-- `Window::Animate()`, where `progress` is the value that `Easing::Transform`
returns and `parent` the drawing area of the parent, if there is one:
`SetPosition(step)` is
`SetPosition(step.left, step.top, step.right - step.left, step.bottom - step.top)`. -/
def Window.Animate (parent : Option RectF) (progress : Float32) (w : Window) :
    Window × List Tree.Event :=
  let animating : Bool := if progress.geOne then false else w.animating
  let step : RECT :=
    ⟨stepTo progress w.animationStart.left w.animationTarget.left,
     stepTo progress w.animationStart.top w.animationTarget.top,
     stepTo progress w.animationStart.right w.animationTarget.right,
     stepTo progress w.animationStart.bottom w.animationTarget.bottom⟩
  let moved := w.window.SetPosition parent step.left step.top (step.right - step.left)
    (step.bottom - step.top) 0
  ({ w with window := moved.1, animating := animating }, moved.2)

/-- The window after the animation steps that sample the values of the list, in
order. -/
def Window.steps (parent : Option RectF) (w : Window) : List Float32 → Window
  | [] => w
  | progress :: rest => Window.steps parent (w.Animate parent progress).1 rest

/-- A top-level window at (0, 0) of 100 by 100 that is not animating. -/
def still : Window :=
  { window := .mk 0 100 false ⟨0, 0, 100, 100⟩ ⟨0, 0, 100, 100⟩ []
    animating := false
    animationEasing := 0
    mAnimationDuration := 0
    animationStart := ⟨0, 0, 0, 0⟩
    animationTarget := ⟨0, 0, 0, 0⟩ }

/-- The value 0.5 of type `float`. -/
def half : Float32 := ⟨1, -1⟩

end Animation

/-! ## Parents and children: destruction, `SetParent`, device resources

A window is taken with its subtree.  `mParent` is the identity of the parent, and
`none` the null pointer; `monitorInfo`, `window` and `renderTarget` are the
identities of the objects the pointers designate.  The handlers are outside
`Window`: a call of a handler is recorded.  A call through a null `msgHandler` has
no defined behaviour: the result is then `none`.  The painters, states and overlays
have device resources of their own, which are not followed. -/

namespace Family

/-- The message `WM_TOPPARENTLOST`: `WM_USER`, the first of `ReservedMessages`. -/
def WM_TOPPARENTLOST : Nat := 0x0400

/-- The message `WM_NEWTOPPARENT`: `WM_USER + 1`. -/
def WM_NEWTOPPARENT : Nat := 0x0400 + 1

/-- The members of `Window` that the functions of this part read or write, apart
from the children. -/
structure Members where
  self : Nat
  msgHandler : Option MessageHandler
  mIsChild : Bool
  mParent : Option Nat
  mParentName : String
  registerWithCore : Bool
  monitorInfo : Option Nat
  window : Option Nat
  renderTarget : Option Nat
  deriving DecidableEq, Repr

/-- A window with its subtree. -/
inductive Window where
  | mk (m : Members) (children : List Window)
  deriving Repr

/-- The members of the window. -/
def Window.m : Window → Members
  | .mk m _ => m

/-- The member `children`. -/
def Window.children : Window → List Window
  | .mk _ children => children

/-- What a call leaves in the log: a call
`handler->HandleMessage(window, msg, 0, 0, data)`, where `sender` is the window
passed as `data`, or a call of `nCore::System` or of the host. -/
inductive Event where
  | message (handler : MessageHandler) (msg : Nat) (sender : Nat)
  | addWindowRegistrationListener (name : String) (window : Nat)
  | removeWindowRegistrationListener (name : String) (window : Nat)
  | removeChild (parent : Nat) (child : Nat)
  | unRegisterWindow (window : Nat)
  | destroyWindow (hwnd : Nat)
  | deleteMonitorInfo (monitorInfo : Nat)
  deriving DecidableEq, Repr

mutual
/-- The windows of the subtree, the window itself first, then the subtree of each
child in the order of the children list. -/
def Window.regions : Window → List Members
  | .mk m children => m :: regionsOf children
/-- The windows of the subtrees of a list of windows. -/
def regionsOf : List Window → List Members
  | [] => []
  | child :: rest => child.regions ++ regionsOf rest
end

mutual
/-- `Window::DiscardDeviceResources`: the render target is released and set to null
on a window that is not a child, and set to null on a child; then the children
discard theirs. -/
def Window.DiscardDeviceResources : Window → Window
  | .mk m children => .mk { m with renderTarget := none } (discardAll children)
/-- The loop of `DiscardDeviceResources` over the children. -/
def discardAll : List Window → List Window
  | [] => []
  | child :: rest => child.DiscardDeviceResources :: discardAll rest
end

mutual
/-- `Window::UpdateParentVariables`, where `monitorInfo` and `window` are the
members of the window that `mParent` designates. -/
def Window.UpdateParentVariables (monitorInfo window : Option Nat) : Window → Window
  | .mk m children =>
    match m.mParent with
    | some _ =>
      .mk { m with monitorInfo := monitorInfo, window := window }
        (updateAll monitorInfo window children)
    | none => .mk { m with monitorInfo := none, window := none } (updateAll none none children)
/-- The loop of `UpdateParentVariables` over the children, whose parent has the
members `monitorInfo` and `window`. -/
def updateAll (monitorInfo window : Option Nat) : List Window → List Window
  | [] => []
  | child :: rest =>
    child.UpdateParentVariables monitorInfo window :: updateAll monitorInfo window rest
end

mutual
/-- `Window::SendToAll(window, msg, 0, 0, data)`: the calls made, the handler of the
window first, then those of each child. -/
def Window.SendToAll (msg : Nat) (data : Nat) : Window → Option (List Event)
  | .mk m children =>
    match m.msgHandler with
    | some handler =>
      match sendAll msg data children with
      | some log => some (Event.message handler msg data :: log)
      | none => none
    | none => none
/-- The loop of `SendToAll` over the children. -/
def sendAll (msg : Nat) (data : Nat) : List Window → Option (List Event)
  | [] => some []
  | child :: rest =>
    match child.SendToAll msg data with
    | some first =>
      match sendAll msg data rest with
      | some others => some (first ++ others)
      | none => none
    | none => none
end

/-- `Window::ParentLeft()`: the window afterwards and the calls made. -/
def Window.ParentLeft : Window → Option (Window × List Event)
  | .mk m children =>
    let left : Window :=
      (Window.mk { m with mParent := none } children).UpdateParentVariables none none
    match left.SendToAll WM_TOPPARENTLOST m.self with
    | some log =>
      some (left,
        log ++ (if m.mParentName ≠ "" then
          [Event.addWindowRegistrationListener m.mParentName m.self] else []))
    | none => none

/-- The loop `for (Window *child : children) child->ParentLeft()` of the
destructor. -/
def parentLeftAll : List Window → Option (List Window × List Event)
  | [] => some ([], [])
  | child :: rest =>
    match child.ParentLeft with
    | some first =>
      match parentLeftAll rest with
      | some others => some (first.1 :: others.1, first.2 ++ others.2)
      | none => none
    | none => none

/-- `Window::~Window()`: the former children as the destructor leaves them, and the
calls made, in order. -/
def Window.destroy : Window → Option (List Window × List Event)
  | .mk m children =>
    let leave : List Event :=
      match m.mParent with
      | some parent => [Event.removeChild parent m.self]
      | none =>
        if m.mIsChild then [Event.removeWindowRegistrationListener m.mParentName m.self]
        else []
    let unregister : List Event :=
      if m.registerWithCore then [Event.unRegisterWindow m.self] else []
    let destroyed : List Event :=
      if !m.mIsChild then
        match m.window with
        | some hwnd => [Event.destroyWindow hwnd]
        | none => []
      else []
    let discarded : Window := (Window.mk m children).DiscardDeviceResources
    match parentLeftAll discarded.children with
    | some left =>
      let deleted : List Event :=
        if !m.mIsChild then
          match m.monitorInfo with
          | some monitorInfo => [Event.deleteMonitorInfo monitorInfo]
          | none => []
        else []
      some (left.1, leave ++ unregister ++ destroyed ++ left.2 ++ deleted)
    | none => none

/-- The calls of the log that hand a message to a handler. -/
def messages : List Event → List Event
  | [] => []
  | .message handler msg sender :: rest => Event.message handler msg sender :: messages rest
  | _ :: rest => messages rest

/-- The notifications that `SendToAll(nullptr, msg, 0, 0, sender)` on the windows
`regions` amounts to, when each has a handler. -/
def notifications (msg : Nat) (sender : Nat) : List Members → List Event
  | [] => []
  | r :: rest =>
    match r.msgHandler with
    | some handler => Event.message handler msg sender :: notifications msg sender rest
    | none => notifications msg sender rest

/-- The notifications of the loss of the parent to the subtrees of a list of
children: one subtree after the other, each with the child as the sender. -/
def lostNotifications : List Window → List Event
  | [] => []
  | child :: rest =>
    notifications WM_TOPPARENTLOST child.m.self child.regions ++ lostNotifications rest

/-- The members of a window with the three pointers inherited from the parent set
to null. -/
def detached (r : Members) : Members :=
  { r with monitorInfo := none, window := none, renderTarget := none }

/-- A parent with the identity 0 and the children 1 and 3, of which the first has
a child of its own, 2, and the second was constructed with the name of its parent;
the handler of the window `i` is the object `10 + i`. -/
def sampleParent : Window :=
  .mk { self := 0, msgHandler := some (MessageHandler.object 10), mIsChild := false,
        mParent := none, mParentName := "", registerWithCore := false,
        monitorInfo := some 50, window := some 60, renderTarget := some 70 }
    [.mk { self := 1, msgHandler := some (MessageHandler.object 11), mIsChild := true,
           mParent := some 0, mParentName := "", registerWithCore := false,
           monitorInfo := some 50, window := some 60, renderTarget := some 70 }
       [.mk { self := 2, msgHandler := some (MessageHandler.object 12), mIsChild := true,
              mParent := some 1, mParentName := "", registerWithCore := false,
              monitorInfo := some 50, window := some 60, renderTarget := some 70 } []],
     .mk { self := 3, msgHandler := some (MessageHandler.object 13), mIsChild := true,
           mParent := some 0, mParentName := "bar", registerWithCore := false,
           monitorInfo := some 50, window := some 60, renderTarget := none } []]

mutual
/-- `Window::ReCreateDeviceResources()`, as far as the render targets go.  `created`
is the render target that the host creates for a window that is not a child, and
`none` when the creation fails; `up` is the member `renderTarget` of the window that
`mParent` designates. -/
def Window.ReCreateDeviceResources (created : Option Nat) (up : Option Nat) : Window → Window
  | .mk m children =>
    match m.renderTarget with
    | some _ => .mk m children
    | none =>
      if !m.mIsChild then
        match created with
        | some target =>
          .mk { m with renderTarget := some target } (recreateAll created (some target) children)
        | none => .mk m children
      else
        match m.mParent with
        | none => .mk m children
        | some _ => .mk { m with renderTarget := up } (recreateAll created up children)
/-- The loop of `ReCreateDeviceResources` over the children of a window whose
render target is `up`. -/
def recreateAll (created : Option Nat) (up : Option Nat) : List Window → List Window
  | [] => []
  | child :: rest =>
    child.ReCreateDeviceResources created up :: recreateAll created up rest
end

/-- The window that `CreateChild` makes: the constructor for child windows takes
`monitorInfo` and `window` from the parent and leaves the render target null. -/
def newChild (parent : Members) (self : Nat) (msgHandler : Option MessageHandler) : Window :=
  .mk { self := self, msgHandler := msgHandler, mIsChild := true, mParent := some parent.self,
        mParentName := "", registerWithCore := false, monitorInfo := parent.monitorInfo,
        window := parent.window, renderTarget := none } []

/-- `Window::SetParent(newParent)`, called on a window whose parent link is null, as
far as the links and the render targets go: the window afterwards, which is also
added at the end of the children of `newParent`, and the calls made. -/
def Window.SetParent (created : Option Nat) (newParent : Members) :
    Window → Option (Window × List Event)
  | .mk m children =>
    let linked : Window :=
      (Window.mk { m with mParent := some newParent.self } children).UpdateParentVariables
        newParent.monitorInfo newParent.window
    match linked.SendToAll WM_NEWTOPPARENT m.self with
    | some log => some (linked.ReCreateDeviceResources created newParent.renderTarget, log)
    | none => none

mutual
/-- The members of the window that a path of child indices leads to. -/
def Window.memberAt : List Nat → Window → Option Members
  | [], .mk m _ => some m
  | i :: rest, .mk _ children => memberAtOf i rest children
/-- The members of the window that a path leads to from the child with the index
`i` of a list. -/
def memberAtOf : Nat → List Nat → List Window → Option Members
  | _, _, [] => none
  | 0, rest, child :: _ => child.memberAt rest
  | i + 1, rest, _ :: others => memberAtOf i rest others
end

mutual
/-- The tree after `children.push_back(child)` on the window that the path leads
to. -/
def pushChildAt (child : Window) : List Nat → Window → Window
  | [], .mk m children => .mk m (children ++ [child])
  | i :: rest, .mk m children => .mk m (pushChildAtOf child i rest children)
/-- The same below the child with the index `i` of a list. -/
def pushChildAtOf (child : Window) : Nat → List Nat → List Window → List Window
  | _, _, [] => []
  | 0, rest, first :: others => pushChildAt child rest first :: others
  | i + 1, rest, first :: others => first :: pushChildAtOf child i rest others
end

mutual
/-- The tree after `Initialize` on the window that the path leads to, as far as the
render targets go: the function ends with `ReCreateDeviceResources()`.  `up` is the
render target of the parent of the window of this level. -/
def Window.initializeAt (created : Option Nat) (up : Option Nat) :
    List Nat → Window → Window
  | [], .mk m children => (Window.mk m children).ReCreateDeviceResources created up
  | i :: rest, .mk m children => .mk m (initializeAtOf created m.renderTarget i rest children)
/-- The same below the child with the index `i` of a list, whose parent has the
render target `up`. -/
def initializeAtOf (created : Option Nat) (up : Option Nat) :
    Nat → List Nat → List Window → List Window
  | _, _, [] => []
  | 0, rest, first :: others => first.initializeAt created up rest :: others
  | i + 1, rest, first :: others => first :: initializeAtOf created up i rest others
end

/-- The trees that sequences of calls lead to.  A tree starts as a window just
constructed, top-level or a child whose named parent is not registered, both
without a render target; then come `CreateChild` and `Initialize` on any window of
the tree, `SetParent` of the top of another such tree, whose parent link is null,
to any window of the tree, and `ReCreateDeviceResources` and
`DiscardDeviceResources` on the top of the tree. -/
inductive Reachable : Window → Prop where
  | constructed (m : Members) :
    m.mParent = none → m.renderTarget = none → Reachable (.mk m [])
  | createChild (t : Window) (path : List Nat) (parent : Members) (self : Nat)
      (msgHandler : Option MessageHandler) :
    Reachable t → t.memberAt path = some parent →
      Reachable (pushChildAt (newChild parent self msgHandler) path t)
  | initializeWindow (t : Window) (path : List Nat) (created : Option Nat) :
    Reachable t → Reachable (t.initializeAt created none path)
  | setParent (t orphan adopted : Window) (path : List Nat) (newParent : Members)
      (created : Option Nat) (log : List Event) :
    Reachable t → Reachable orphan → orphan.m.mIsChild = true → orphan.m.mParent = none →
      t.memberAt path = some newParent →
      orphan.SetParent created newParent = some (adopted, log) →
      Reachable (pushChildAt adopted path t)
  | reCreateDeviceResources (t : Window) (created : Option Nat) :
    Reachable t → Reachable (t.ReCreateDeviceResources created none)
  | discardDeviceResources (t : Window) :
    Reachable t → Reachable t.DiscardDeviceResources

end Family

/-! ## Render targets: examples -/

namespace Family

/-- A window below the top of a tree whose top has the render target `rt`: it is a
child window with its parent link in place, and its render target is null or
`rt`. -/
def Aliases (rt : Option Nat) (d : Members) : Prop :=
  d.mIsChild = true ∧ d.mParent ≠ none ∧ (d.renderTarget = none ∨ d.renderTarget = rt)

/-- The members of a top-level window just constructed, with the identity 0. -/
def newTop : Members :=
  { self := 0, msgHandler := some (MessageHandler.object 10), mIsChild := false,
    mParent := none, mParentName := "", registerWithCore := false,
    monitorInfo := some 50, window := some 60, renderTarget := none }

/-- A tree built by calls: a top-level window gets the child 1, its render target 7
is created, the child gets the child 2, and the child 2 is initialized. -/
def sampleTree : Window :=
  Window.initializeAt none none [0, 0]
    (pushChildAt
      (newChild
        { self := 1, msgHandler := none, mIsChild := true, mParent := some 0,
          mParentName := "", registerWithCore := false, monitorInfo := some 50,
          window := some 60, renderTarget := some 7 } 2 none) [0]
      (Window.ReCreateDeviceResources (some 7) none
        (pushChildAt (newChild newTop 1 none) [] (Window.mk newTop []))))

end Family

/-! # Theorems -/

theorem bitsFrom_le (fuel : Nat) : ∀ (n k : Nat), n < 2 ^ k → bitsFrom fuel n ≤ k := by
  induction fuel with
  | zero => intro n k _; simp [bitsFrom]
  | succ fuel ih =>
    intro n k h
    unfold bitsFrom
    split
    · omega
    · rename_i hn
      cases k with
      | zero => simp at h; exact absurd h hn
      | succ k =>
        have : n / 2 < 2 ^ k := by
          rw [Nat.pow_succ] at h
          omega
        have := ih (n / 2) k this
        omega

theorem round_small (m e : Int) (h : m.natAbs < 2 ^ 24) : Float32.round m e = ⟨m, e⟩ := by
  unfold Float32.round bitLength
  have := bitsFrom_le m.natAbs m.natAbs 24 h
  have hk : bitsFrom m.natAbs m.natAbs - 24 = 0 := by omega
  simp [hk]

theorem toFloat_small (n : Int) (h : n.natAbs < 2 ^ 24) : toFloat n = n := by
  unfold toFloat Float32.ofInt
  rw [round_small n 0 h]
  simp [Float32.toLong]

theorem addFloat_small (a n : Int) (ha : a.natAbs < 2 ^ 24) (hn : n.natAbs < 2 ^ 24)
    (hs : (a + n).natAbs < 2 ^ 24) : addFloat a n = a + n := by
  unfold addFloat Float32.ofInt Float32.add
  rw [round_small a 0 ha, round_small n 0 hn]
  simp only [min_self, sub_self, Int.toNat_zero, pow_zero, mul_one]
  rw [round_small (a + n) 0 hs]
  simp [Float32.toLong]


namespace States

theorem setActive_map_id (i : Nat) (v : Bool) (l : List State) :
    (setActive i v l).map (fun s => s.id) = l.map (fun s => s.id) := by
  induction l with
  | nil => rfl
  | cons t ts ih =>
    unfold setActive
    split
    · simp
    · simp [ih]

theorem setActive_map_priority (i : Nat) (v : Bool) (l : List State) :
    (setActive i v l).map (fun s => s.priority) = l.map (fun s => s.priority) := by
  induction l with
  | nil => rfl
  | cons t ts ih =>
    unfold setActive
    split
    · simp
    · simp [ih]

theorem setActive_append (i : Nat) (v : Bool) (l1 l2 : List State) (s : State)
    (h1 : ∀ t ∈ l1, t.id ≠ i) (hs : s.id = i) :
    setActive i v (l1 ++ s :: l2) = l1 ++ { s with active := v } :: l2 := by
  induction l1 with
  | nil => simp [setActive, hs]
  | cons t ts ih =>
    have ht : t.id ≠ i := h1 t (by simp)
    have := ih (fun u hu => h1 u (by simp [hu]))
    simp [setActive, ht, this]

theorem nodesAfter_append (i : Nat) (l1 l2 : List State) (s : State)
    (h1 : ∀ t ∈ l1, t.id ≠ i) (hs : s.id = i) :
    nodesAfter i (l1 ++ s :: l2) = l2 := by
  induction l1 with
  | nil => simp [nodesAfter, hs]
  | cons t ts ih =>
    have ht : t.id ≠ i := h1 t (by simp)
    have := ih (fun u hu => h1 u (by simp [hu]))
    simp [nodesAfter, ht, this]

theorem split_at_node (l : List State) (s : State) (hs : s ∈ l)
    (hn : (l.map (fun t => t.id)).Nodup) :
    ∃ l1 l2, l = l1 ++ s :: l2 ∧ (∀ t ∈ l1, t.id ≠ s.id) ∧ (∀ t ∈ l2, t.id ≠ s.id) := by
  obtain ⟨l1, l2, rfl⟩ := List.append_of_mem hs
  refine ⟨l1, l2, rfl, ?_, ?_⟩
  · intro t ht heq
    rw [List.map_append, List.nodup_append] at hn
    exact hn.2.2 (List.mem_map_of_mem _ ht) (by simp [heq])
  · intro t ht heq
    rw [List.map_append, List.nodup_append] at hn
    have := hn.2.1
    simp only [List.map_cons, List.nodup_cons, List.mem_map] at this
    exact this.1 ⟨t, ht, heq⟩

theorem firstActive_eq_none (l : List State) :
    firstActive l = none ↔ ∀ t ∈ l, t.active = false := by
  induction l with
  | nil => simp [firstActive]
  | cons t ts ih =>
    unfold firstActive
    split
    · simp_all
    · simp_all

theorem firstActive_eq_some (l : List State) (i : Nat) (h : firstActive l = some i) :
    ∃ l1 u l2, l = l1 ++ u :: l2 ∧ u.id = i ∧ u.active = true ∧ ∀ t ∈ l1, t.active = false := by
  induction l with
  | nil => simp [firstActive] at h
  | cons t ts ih =>
    unfold firstActive at h
    split at h
    · refine ⟨[], t, ts, rfl, ?_, ‹_›, by simp⟩
      simpa using h
    · obtain ⟨l1, u, l2, rfl, hu, hau, hl1⟩ := ih h
      refine ⟨t :: l1, u, l2, rfl, hu, hau, ?_⟩
      intro x hx
      rcases List.mem_cons.1 hx with rfl | hx
      · exact Bool.eq_false_iff.2 ‹¬ _›
      · exact hl1 x hx

theorem firstActive_mem (l : List State) (i : Nat) (h : firstActive l = some i) :
    ∃ t ∈ l, t.id = i := by
  obtain ⟨l1, u, l2, rfl, hu, _, _⟩ := firstActive_eq_some l i h
  exact ⟨u, by simp, hu⟩

theorem nodesAfter_id_ne (i : Nat) (l : List State) (hn : (l.map (fun t => t.id)).Nodup) :
    ∀ t ∈ nodesAfter i l, t.id ≠ i := by
  induction l with
  | nil => simp [nodesAfter]
  | cons x xs ih =>
    simp only [List.map_cons, List.nodup_cons, List.mem_map, not_exists, not_and] at hn
    unfold nodesAfter
    split
    · rename_i hx
      intro t ht heq
      exact hn.1 t ht (by rw [heq, hx])
    · exact ih hn.2

theorem setActive_idem (i : Nat) (v : Bool) (l : List State) :
    setActive i v (setActive i v l) = setActive i v l := by
  induction l with
  | nil => rfl
  | cons t ts ih =>
    by_cases h : t.id = i
    · simp [setActive, h]
    · simp [setActive, h, ih]

theorem mem_insertState (s : State) (l : List State) (x : State) :
    x ∈ insertState s l ↔ x = s ∨ x ∈ l := by
  induction l with
  | nil => simp [insertState]
  | cons t ts ih =>
    unfold insertState
    split
    · simp [ih]; tauto
    · simp

theorem insertState_perm (s : State) (l : List State) : (insertState s l).Perm (s :: l) := by
  induction l with
  | nil => simp [insertState]
  | cons t ts ih =>
    unfold insertState
    split
    · exact (List.Perm.cons t ih).trans (List.Perm.swap s t ts)
    · exact List.Perm.refl _

theorem insertState_newestFirst (s : State) (l : List State)
    (hl : NewestFirst l) (hid : ∀ t ∈ l, t.id < s.id) : NewestFirst (insertState s l) := by
  unfold NewestFirst at *
  induction l with
  | nil => simp [insertState]
  | cons t ts ih =>
    obtain ⟨ht, hts⟩ := List.pairwise_cons.1 hl
    unfold insertState
    split
    · rename_i hgt
      refine List.pairwise_cons.2 ⟨?_, ih hts (fun x hx => hid x (by simp [hx]))⟩
      intro x hx
      rcases (mem_insertState s ts x).1 hx with rfl | hx
      · exact Or.inl hgt
      · exact ht x hx
    · rename_i hgt
      refine List.pairwise_cons.2 ⟨?_, hl⟩
      intro x hx
      have hxid : x.id < s.id := hid x hx
      have hxp : x.priority ≤ s.priority := by
        rcases List.mem_cons.1 hx with rfl | hx
        · exact not_lt.1 hgt
        · have h1 : x.priority ≤ t.priority := by
            rcases ht x hx with h | h
            · exact le_of_lt h
            · exact le_of_eq h.1.symm
          exact le_trans h1 (not_lt.1 hgt)
      rcases lt_or_eq_of_le hxp with h | h
      · exact Or.inl h
      · exact Or.inr ⟨h.symm, hxid⟩

theorem NewestFirst.sortedDescending {l : List State} (h : NewestFirst l) : SortedDescending l := by
  unfold NewestFirst at h
  unfold SortedDescending
  refine h.imp ?_
  intro a b hab
  rcases hab with h | h
  · exact le_of_lt h
  · exact le_of_eq h.1.symm

theorem mem_setActive (i : Nat) (v : Bool) (l : List State) (x : State)
    (hx : x ∈ setActive i v l) : ∃ y ∈ l, y.id = x.id ∧ y.priority = x.priority := by
  induction l with
  | nil => simp [setActive] at hx
  | cons t ts ih =>
    unfold setActive at hx
    split at hx
    · rcases List.mem_cons.1 hx with rfl | hx
      · exact ⟨t, by simp, rfl, rfl⟩
      · exact ⟨x, by simp [hx], rfl, rfl⟩
    · rcases List.mem_cons.1 hx with rfl | hx
      · exact ⟨x, by simp, rfl, rfl⟩
      · obtain ⟨y, hy, h1, h2⟩ := ih hx
        exact ⟨y, by simp [hy], h1, h2⟩

theorem setActive_newestFirst (i : Nat) (v : Bool) (l : List State) (h : NewestFirst l) :
    NewestFirst (setActive i v l) := by
  unfold NewestFirst at *
  induction l with
  | nil => simp [setActive]
  | cons t ts ih =>
    obtain ⟨ht, hts⟩ := List.pairwise_cons.1 h
    unfold setActive
    split
    · exact List.pairwise_cons.2 ⟨fun x hx => ht x hx, hts⟩
    · refine List.pairwise_cons.2 ⟨?_, ih hts⟩
      intro x hx
      obtain ⟨y, hy, h1, h2⟩ := mem_setActive i v ts x hx
      rw [← h1, ← h2]
      exact ht y hy

theorem mem_setActive_of_ne (i : Nat) (v : Bool) (l : List State) (b : State)
    (hb : b ∈ l) (hne : b.id ≠ i) : b ∈ setActive i v l := by
  induction l with
  | nil => simp at hb
  | cons t ts ih =>
    unfold setActive
    split
    · rename_i ht
      rcases List.mem_cons.1 hb with rfl | hb
      · exact absurd ht hne
      · simp [hb]
    · rcases List.mem_cons.1 hb with rfl | hb
      · simp
      · simp [ih hb]

theorem clearState_pointer (w : Window) (s : Nat) (repaint : Bool) (hs : w.activeState = some s) :
    (w.ClearState s repaint).activeState = firstActive (nodesAfter s (setActive s false w.mStates))
    ∧ (w.ClearState s repaint).mStates = setActive s false w.mStates := by
  unfold Window.ClearState
  cases repaint <;> simp [hs, Window.Repaint]

theorem activateState_eq (w : Window) (s : Nat) (repaint : Bool) :
    (({ w with mStates := setActive s true w.mStates } : Window).pointerBelow s = true ∧
      w.ActivateState s repaint =
        { w with mStates := setActive s true w.mStates, activeState := some s,
                 repaintCalls := w.repaintCalls + (if repaint = true then 1 else 0) }) ∨
    (({ w with mStates := setActive s true w.mStates } : Window).pointerBelow s = false ∧
      w.ActivateState s repaint = { w with mStates := setActive s true w.mStates }) := by
  unfold Window.ActivateState
  cases h : ({ w with mStates := setActive s true w.mStates } : Window).pointerBelow s
  · right; simp [h]
  · left; cases repaint <;> simp [h, Window.Repaint]

theorem pointerBelow_self (w : Window) (s : Nat) (h : w.activeState = some s) :
    w.pointerBelow s = false := by
  unfold Window.pointerBelow
  simp [h]

theorem pointerBelow_ne (w : Window) (s : Nat) (h : w.pointerBelow s = true) :
    w.activeState ≠ some s := by
  intro hs
  rw [pointerBelow_self w s hs] at h
  cases h

theorem setActive_wellFormed (w : Window) (s : Nat) (v : Bool) (ptr : Option Nat) (n : Nat)
    (hw : w.WellFormed) (hs : s ≠ w.mBaseState) :
    ({ w with mStates := setActive s v w.mStates, activeState := ptr, repaintCalls := n } :
      Window).WellFormed := by
  obtain ⟨h1, h2, h3, b, hb, hbid, hba, hbp⟩ := hw
  refine ⟨?_, ?_, setActive_newestFirst s v _ h3, b, ?_, hbid, hba, hbp⟩
  · show ((setActive s v w.mStates).map (fun t => t.id)).Nodup
    rw [setActive_map_id]; exact h1
  · intro t ht
    obtain ⟨y, hy, hid, _⟩ := mem_setActive s v _ t ht
    have := h2 y hy
    rw [hid] at this
    exact this
  · exact mem_setActive_of_ne s v _ b hb (by rw [hbid]; exact fun h => hs h.symm)

/-- Every window reached by calls of `AddState`, `ActivateState` and `ClearState` is
well formed. -/
theorem reachable_wellFormed (w : Window) (h : Reachable w) : w.WellFormed := by
  induction h with
  | new => decide
  | @addState w priority _ ih =>
    obtain ⟨h1, h2, h3, b, hb, hbid, hba, hbp⟩ := ih
    have hperm := insertState_perm { id := w.nextId, priority := priority, active := false }
      w.mStates
    refine ⟨?_, ?_, insertState_newestFirst _ _ h3 h2, b, ?_, hbid, hba, hbp⟩
    · show ((insertState _ w.mStates).map (fun t => t.id)).Nodup
      rw [(hperm.map _).nodup_iff]
      simp only [List.map_cons, List.nodup_cons, List.mem_map, not_exists, not_and]
      exact ⟨fun t ht heq => absurd (h2 t ht) (by rw [heq]; exact lt_irrefl _), h1⟩
    · intro t ht
      rcases (mem_insertState _ _ _).1 ht with rfl | ht
      · exact Nat.lt_succ_self _
      · exact Nat.lt_succ_of_lt (h2 t ht)
    · exact (mem_insertState _ _ _).2 (Or.inr hb)
  | @activateState w state repaint _ hh ih =>
    rcases activateState_eq w state repaint with ⟨_, he⟩ | ⟨_, he⟩
    · rw [he]; exact setActive_wellFormed w state true _ _ ih hh.1
    · rw [he]; exact setActive_wellFormed w state true w.activeState w.repaintCalls ih hh.1
  | @clearState w state repaint _ hh ih =>
    by_cases hs : w.activeState = some state
    · have : w.ClearState state repaint =
          { w with mStates := setActive state false w.mStates,
                   activeState := firstActive (nodesAfter state (setActive state false w.mStates)),
                   repaintCalls := w.repaintCalls + (if repaint = true then 1 else 0) } := by
        unfold Window.ClearState
        cases repaint <;> simp [hs, Window.Repaint]
      rw [this]; exact setActive_wellFormed w state false _ _ ih hh.1
    · have : w.ClearState state repaint = { w with mStates := setActive state false w.mStates } := by
        unfold Window.ClearState
        simp [hs]
      rw [this]; exact setActive_wellFormed w state false w.activeState w.repaintCalls ih hh.1

theorem firstActive_insertState (s : State) (l : List State) (hs : s.active = false) :
    firstActive (insertState s l) = firstActive l := by
  induction l with
  | nil => simp [insertState, firstActive, hs]
  | cons t ts ih =>
    unfold insertState
    split
    · simp only [firstActive, ih]
    · simp [firstActive, hs]

theorem firstActive_setActive_false (i : Nat) (l : List State) (h : firstActive l ≠ some i) :
    firstActive (setActive i false l) = firstActive l := by
  induction l with
  | nil => rfl
  | cons t ts ih =>
    by_cases hti : t.id = i
    · cases hta : t.active
      · simp [setActive, firstActive, hti, hta]
      · exact absurd (by simp [firstActive, hta, hti]) h
    · cases hta : t.active
      · have h2 : firstActive ts ≠ some i := by simpa [firstActive, hta] using h
        simp [setActive, firstActive, hti, hta, ih h2]
      · simp [setActive, firstActive, hti, hta]

theorem firstActive_append (l1 r : List State) (h : ∀ t ∈ l1, t.active = false) :
    firstActive (l1 ++ r) = firstActive r := by
  induction l1 with
  | nil => rfl
  | cons t ts ih =>
    have ht : t.active = false := h t (by simp)
    simp [firstActive, ht, ih (fun u hu => h u (by simp [hu]))]

theorem setActive_append_left (i : Nat) (v : Bool) (l1 r : List State)
    (h : ∀ t ∈ l1, t.id ≠ i) : setActive i v (l1 ++ r) = l1 ++ setActive i v r := by
  induction l1 with
  | nil => rfl
  | cons t ts ih =>
    have ht : t.id ≠ i := h t (by simp)
    simp [setActive, ht, ih (fun u hu => h u (by simp [hu]))]

theorem priorityAt_eq (l : List State) (j : Nat) :
    priorityAt l j = ((l.find? (fun s => s.id == j)).map (fun s => s.priority)).getD 0 := by
  unfold priorityAt
  cases l.find? (fun s => s.id == j) <;> rfl

theorem find_setActive (i : Nat) (v : Bool) (l : List State) (j : Nat) :
    ((setActive i v l).find? (fun s => s.id == j)).map (fun s => s.priority) =
      (l.find? (fun s => s.id == j)).map (fun s => s.priority) := by
  induction l with
  | nil => rfl
  | cons t ts ih =>
    unfold setActive
    split
    · rw [List.find?_cons, List.find?_cons]
      cases h : (t.id == j) <;> simp [h]
    · rw [List.find?_cons, List.find?_cons]
      cases h : (t.id == j)
      · simpa [h] using ih
      · simp [h]

theorem priorityAt_setActive (i : Nat) (v : Bool) (l : List State) (j : Nat) :
    priorityAt (setActive i v l) j = priorityAt l j := by
  rw [priorityAt_eq, priorityAt_eq, find_setActive]

theorem priorityAt_of_mem (l : List State) (t : State) (ht : t ∈ l)
    (hn : (l.map (fun u => u.id)).Nodup) : priorityAt l t.id = t.priority := by
  induction l with
  | nil => simp at ht
  | cons x xs ih =>
    simp only [List.map_cons, List.nodup_cons, List.mem_map, not_exists, not_and] at hn
    rw [priorityAt_eq, List.find?_cons]
    rcases List.mem_cons.1 ht with rfl | ht
    · simp
    · have hx : (x.id == t.id) = false := by
        simpa using fun h => hn.1 t ht h.symm
      rw [hx, ← priorityAt_eq]
      exact ih ht hn.2

theorem firstActive_append_of_active (a r : List State) (h : ∃ t ∈ a, t.active = true) :
    firstActive (a ++ r) = firstActive a ∧ ∃ q ∈ a, firstActive a = some q.id := by
  induction a with
  | nil => obtain ⟨t, ht, _⟩ := h; simp at ht
  | cons x xs ih =>
    cases hx : x.active
    · obtain ⟨t, ht, hta⟩ := h
      have hxs : ∃ t ∈ xs, t.active = true := by
        rcases List.mem_cons.1 ht with rfl | ht
        · rw [hx] at hta; cases hta
        · exact ⟨t, ht, hta⟩
      obtain ⟨h1, q, hq, h2⟩ := ih hxs
      refine ⟨by simp [firstActive, hx, h1], q, by simp [hq], by simp [firstActive, hx, h2]⟩
    · exact ⟨by simp [firstActive, hx], x, by simp, by simp [firstActive, hx]⟩

theorem all_inactive_or_active (a : List State) :
    (∀ t ∈ a, t.active = false) ∨ ∃ t ∈ a, t.active = true := by
  by_cases h : ∃ t ∈ a, t.active = true
  · exact Or.inr h
  · left
    intro t ht
    cases hta : t.active
    · rfl
    · exact absurd ⟨t, ht, hta⟩ h

theorem firstActive_ne_none_of_wellFormed (w : Window) (hw : w.WellFormed) :
    ∃ i, firstActive w.mStates = some i := by
  obtain ⟨b, hb, _, hba, _⟩ := hw.2.2.2
  cases h : firstActive w.mStates with
  | none =>
    have := (firstActive_eq_none _).1 h b hb
    rw [hba] at this; cases this
  | some i => exact ⟨i, rfl⟩

theorem activateState_first_active (w : Window) (s : Nat) (repaint : Bool)
    (hw : w.WellFormed) (hd : (w.mStates.map (fun t => t.priority)).Nodup)
    (hs : ∃ t ∈ w.mStates, t.id = s) (hp : w.activeState = firstActive w.mStates) :
    (w.ActivateState s repaint).activeState = firstActive (w.ActivateState s repaint).mStates := by
  have hn := hw.1
  have hsorted := hw.2.2.1.sortedDescending
  unfold SortedDescending at hsorted
  obtain ⟨pid, hpid⟩ := firstActive_ne_none_of_wellFormed w hw
  obtain ⟨p, hpm, hpi⟩ := firstActive_mem _ _ hpid
  obtain ⟨ts, htsm, htsi⟩ := hs
  obtain ⟨a, b, hl, ha, _⟩ := split_at_node w.mStates ts htsm hn
  have hset : setActive s true w.mStates = a ++ { ts with active := true } :: b := by
    rw [hl]; exact setActive_append s true a b ts (fun t ht => htsi ▸ ha t ht) htsi
  have hbelow : ({ w with mStates := setActive s true w.mStates } : Window).pointerBelow s =
      decide (p.priority < ts.priority) := by
    unfold Window.pointerBelow
    simp only [hp, hpid, priorityAt_setActive]
    rw [← hpi, ← htsi, priorityAt_of_mem _ p hpm hn, priorityAt_of_mem _ ts htsm hn]
  rw [hl] at hsorted hd hpid hpm
  rcases activateState_eq w s repaint with ⟨hb, he⟩ | ⟨hb, he⟩
  · -- the pointer moves to `s`
    rw [hbelow] at hb
    have hlt : p.priority < ts.priority := of_decide_eq_true hb
    rw [he]
    show some s = firstActive (setActive s true w.mStates)
    rw [hset]
    rcases all_inactive_or_active a with hina | hact
    · rw [firstActive_append a _ hina]
      simp [firstActive, htsi]
    · obtain ⟨h1, q, hq, h2⟩ := firstActive_append_of_active a (ts :: b) hact
      rw [h1, h2] at hpid
      have hqp : q.id = p.id := by rw [hpi]; exact Option.some.inj hpid
      have hqp2 : q = p := by
        have hqm : q ∈ w.mStates := by rw [hl]; simp [hq]
        have hpm2 : p ∈ w.mStates := by rw [hl]; exact hpm
        exact List.inj_on_of_nodup_map hn hqm hpm2 hqp
      have hge : q.priority ≥ ts.priority :=
        (List.pairwise_append.1 hsorted).2.2 q hq ts (by simp)
      rw [hqp2] at hge
      exact absurd hlt (not_lt.2 hge)
  · -- the pointer stays
    rw [hbelow] at hb
    have hnlt : ¬ p.priority < ts.priority := of_decide_eq_false hb
    rw [he]
    show w.activeState = firstActive (setActive s true w.mStates)
    rw [hp, hset, hl]
    rcases all_inactive_or_active a with hina | hact
    · rw [firstActive_append a _ hina, firstActive_append a _ hina]
      cases hta : ts.active
      · -- the designated state follows `ts`, with a priority that is not below
        exfalso
        rw [firstActive_append a _ hina] at hpid
        have hpb : firstActive b = some pid := by simpa [firstActive, hta] using hpid
        obtain ⟨p2, hp2b, hp2i⟩ := firstActive_mem _ _ hpb
        have hp2 : p2 = p := by
          have h1 : p2 ∈ w.mStates := by rw [hl]; simp [hp2b]
          have h2 : p ∈ w.mStates := by rw [hl]; exact hpm
          exact List.inj_on_of_nodup_map hn h1 h2 (by rw [hp2i, hpi])
        rw [hp2] at hp2b
        have hge : ts.priority ≥ p.priority :=
          (List.pairwise_cons.1 (List.pairwise_append.1 hsorted).2.1).1 p hp2b
        have heq : ts.priority = p.priority := le_antisymm (not_lt.1 hnlt) hge
        rw [List.map_append, List.nodup_append] at hd
        have hd2 := hd.2.1
        simp only [List.map_cons, List.nodup_cons, List.mem_map, not_exists, not_and] at hd2
        exact hd2.1 p hp2b heq.symm
      · simp [firstActive, hta]
    · obtain ⟨h1, _, _, _⟩ := firstActive_append_of_active a (ts :: b) hact
      obtain ⟨h2, _, _, _⟩ :=
        firstActive_append_of_active a ({ ts with active := true } :: b) hact
      rw [h1, h2]

theorem clearState_first_active (w : Window) (s : Nat) (repaint : Bool)
    (hw : w.WellFormed) (hp : w.activeState = firstActive w.mStates) :
    (w.ClearState s repaint).activeState = firstActive (w.ClearState s repaint).mStates := by
  have hn := hw.1
  by_cases hs : w.activeState = some s
  · obtain ⟨hptr, hst⟩ := clearState_pointer w s repaint hs
    rw [hptr, hst]
    rw [hp] at hs
    obtain ⟨l1, u, l2, hl, hui, _, hl1⟩ := firstActive_eq_some _ _ hs
    have hids : ∀ t ∈ l1, t.id ≠ s := by
      intro t ht heq
      rw [hl, List.map_append, List.nodup_append] at hn
      exact hn.2.2 (List.mem_map_of_mem _ ht) (by simp [heq, hui])
    rw [hl, setActive_append s false l1 l2 u hids hui,
      nodesAfter_append s l1 l2 { u with active := false } hids hui,
      firstActive_append l1 _ hl1]
    simp [firstActive]
  · have he : w.ClearState s repaint = { w with mStates := setActive s false w.mStates } := by
      unfold Window.ClearState
      simp [hs]
    rw [he]
    show w.activeState = firstActive (setActive s false w.mStates)
    rw [firstActive_setActive_false s _ (by rw [← hp]; exact hs)]
    exact hp

/-- In a window reached with pairwise distinct priorities (the base state
included) the active-state pointer designates the first active state of the
list. -/
theorem reachable_pointer_first_active (w : Window) (h : Reachable w) :
    (w.mStates.map (fun t => t.priority)).Nodup → w.activeState = firstActive w.mStates := by
  induction h with
  | new => intro _; rfl
  | @addState w priority _ ih =>
    intro hd
    have hperm := insertState_perm { id := w.nextId, priority := priority, active := false }
      w.mStates
    have hd0 : (w.mStates.map (fun t => t.priority)).Nodup := by
      have : ((insertState { id := w.nextId, priority := priority, active := false }
          w.mStates).map (fun t => t.priority)).Nodup := hd
      rw [(hperm.map _).nodup_iff] at this
      exact (List.nodup_cons.1 this).2
    show w.activeState = firstActive (insertState _ w.mStates)
    rw [firstActive_insertState _ _ rfl]
    exact ih hd0
  | @activateState w state repaint hr hh ih =>
    intro hd
    have hm : (w.ActivateState state repaint).mStates = setActive state true w.mStates := by
      rcases activateState_eq w state repaint with ⟨_, he⟩ | ⟨_, he⟩ <;> rw [he]
    rw [hm, setActive_map_priority] at hd
    exact activateState_first_active w state repaint (reachable_wellFormed w hr) hd hh.2 (ih hd)
  | @clearState w state repaint hr hh ih =>
    intro hd
    have hm : (w.ClearState state repaint).mStates = setActive state false w.mStates := by
      unfold Window.ClearState
      by_cases hs : w.activeState = some state
      · cases repaint <;> simp [hs, Window.Repaint]
      · simp [hs]
    rw [hm, setActive_map_priority] at hd
    exact clearState_first_active w state repaint (reachable_wellFormed w hr) (ih hd)

/-- With pairwise distinct priorities (the base state included), every window
reached by `AddState`, `ActivateState` and `ClearState` has its active-state pointer
on a state of the list whose priority is the maximum over the active states. -/
theorem reachable_pointsToMaxActive_of_distinct (w : Window) (h : Reachable w)
    (hd : (w.mStates.map (fun t => t.priority)).Nodup) : w.PointsToMaxActive := by
  have hw := reachable_wellFormed w h
  have hp := reachable_pointer_first_active w h hd
  have hsorted := hw.2.2.1.sortedDescending
  unfold SortedDescending at hsorted
  obtain ⟨i, hi⟩ := firstActive_ne_none_of_wellFormed w hw
  obtain ⟨l1, u, l2, hl, hui, hua, hl1⟩ := firstActive_eq_some _ _ hi
  rw [hl] at hsorted
  refine ⟨u, by rw [hl]; simp, by rw [hp, hi, hui], ⟨u, by rw [hl]; simp, hua, rfl⟩, ?_⟩
  intro t ht hta
  rw [hl] at ht
  rcases List.mem_append.1 ht with h1 | h1
  · have := hl1 t h1; rw [hta] at this; cases this
  · rcases List.mem_cons.1 h1 with h1 | h1
    · rw [h1]
    · exact (List.pairwise_cons.1 (List.pairwise_append.1 hsorted).2.1).1 t h1

/-- C1 (a defect of the code): the claim that the active-state pointer always
designates a state whose priority is the maximum over the active states fails
after `a = AddState(5); b = AddState(5); ActivateState(a); ActivateState(b);
ClearState(a)`.  The window is reached by calls on iterators that `AddState`
returned; its pointer designates the base state, of priority 0, while the state
`b`, of priority 5, is active. -/
theorem C1_tie_leaves_pointer_on_base :
    Reachable tieRun ∧
    tieRun.activeState = some tieRun.mBaseState ∧
    priorityAt tieRun.mStates tieRun.mBaseState = 0 ∧
    (∃ t ∈ tieRun.mStates, t.active = true ∧ t.priority = 5) ∧
    ¬ tieRun.PointsToMaxActive := by
  refine ⟨?_, by decide, by decide, by decide, by decide⟩
  have h1 : Reachable (Window.new.AddState 5).1 := Reachable.addState 5 Reachable.new
  have h2 := Reachable.addState 5 h1
  have h3 := Reachable.activateState 1 true h2 (by decide)
  have h4 := Reachable.activateState 2 true h3 (by decide)
  exact Reachable.clearState 1 true h4 (by decide)

/-- With distinct identities, `setActive` changes the flag of the one node with the
identity given and nothing else. -/
theorem setActive_eq_map (i : Nat) (v : Bool) (l : List State)
    (hn : (l.map (fun t => t.id)).Nodup) :
    setActive i v l = l.map (fun t => if t.id = i then { t with active := v } else t) := by
  induction l with
  | nil => rfl
  | cons t ts ih =>
    rw [List.map_cons, List.nodup_cons] at hn
    unfold setActive
    by_cases h : t.id = i
    · have hts : ∀ u ∈ ts, u.id ≠ i := by
        intro u hu hui
        exact hn.1 (by rw [h, ← hui]; exact List.mem_map_of_mem _ hu)
      have hmap : ts.map (fun t => if t.id = i then { t with active := v } else t) = ts := by
        conv_rhs => rw [← List.map_id ts]
        apply List.map_congr_left
        intro u hu
        simp [hts u hu]
      simp [h, hmap]
    · simp [h, ih hn.2]

/-- C2: in a well-formed window (as every reachable window is) whose states, the
base state included, have pairwise distinct priorities and whose active-state
pointer designates the active state of highest priority: `ClearState` on the state
`s` the pointer designates, a state that `AddState` returned, clears the active flag
of `s` and changes no other state; it moves the pointer off `s`, to a state `u` that
was active before the call and still is, of lower priority than `s` and of the
highest priority among the states other than `s` that were active; `u` is the base
state when no other state is active.  The pointer then designates the active state of
highest priority again. -/
theorem C2_clearState_next_highest (w : Window) (s : Nat) (repaint : Bool)
    (hw : w.WellFormed)
    (hd : (w.mStates.map (fun t => t.priority)).Nodup)
    (hp : w.PointsToMaxActive) (hs : w.activeState = some s) (hne : s ≠ w.mBaseState) :
    (w.ClearState s repaint).mStates =
      w.mStates.map (fun t => if t.id = s then { t with active := false } else t) ∧
    (∃ u ∈ w.mStates, u.id ≠ s ∧ u.active = true ∧
      (w.ClearState s repaint).activeState = some u.id ∧
      u ∈ (w.ClearState s repaint).mStates ∧
      (∀ t ∈ w.mStates, t.id = s → u.priority < t.priority) ∧
      (∀ t ∈ w.mStates, t.id ≠ s → t.active = true → t.priority ≤ u.priority) ∧
      ((∀ t ∈ w.mStates, t.id ≠ s → t.active = true → t.id = w.mBaseState) →
        u.id = w.mBaseState)) ∧
    (w.ClearState s repaint).activeState ≠ some s ∧
    (w.ClearState s repaint).PointsToMaxActive ∧
    ((∀ t ∈ (w.ClearState s repaint).mStates, t.active = true → t.id = w.mBaseState) →
      (w.ClearState s repaint).activeState = some w.mBaseState) := by
  have hn := hw.1
  have hnewest := hw.2.2.1
  have hb : ∃ b ∈ w.mStates, b.id = w.mBaseState ∧ b.active = true := by
    obtain ⟨b, hbm, hbid, hbact, _⟩ := hw.2.2.2
    exact ⟨b, hbm, hbid, hbact⟩
  have hsorted := hnewest.sortedDescending
  unfold SortedDescending at hsorted
  obtain ⟨a, ha, hpa, ⟨t0, ht0, ht0a, ht0p⟩, hmax⟩ := hp
  have has : a.id = s := by rw [hs] at hpa; exact (Option.some.inj hpa).symm
  obtain ⟨l1, l2, hl, hl1, hl2⟩ := split_at_node w.mStates a ha hn
  obtain ⟨hptr, hst⟩ := clearState_pointer w s repaint hs
  have hd0 := hd
  rw [hl] at hsorted hd
  have hst2 : (w.ClearState s repaint).mStates = l1 ++ { a with active := false } :: l2 := by
    rw [hst, hl]; exact setActive_append s false l1 l2 a (fun t ht => has ▸ hl1 t ht) has
  have hptr2 : (w.ClearState s repaint).activeState = firstActive l2 := by
    rw [hptr, hl, setActive_append s false l1 l2 a (fun t ht => has ▸ hl1 t ht) has]
    exact congrArg firstActive
      (nodesAfter_append s l1 l2 { a with active := false } (fun t ht => has ▸ hl1 t ht) has)
  -- every state in front of the cleared one is inactive
  have hfront : ∀ t ∈ l1, t.active = false := by
    intro t ht
    by_contra hact
    have hact : t.active = true := by simpa using hact
    have hle : t.priority ≤ a.priority := hmax t (by rw [hl]; simp [ht]) hact
    have hge : t.priority ≥ a.priority := (List.pairwise_append.1 hsorted).2.2 t ht a (by simp)
    have heq : t.priority = a.priority := le_antisymm hle hge
    rw [List.map_append, List.nodup_append] at hd
    exact hd.2.2 (List.mem_map_of_mem _ ht) (by simp [heq])
  -- the base state follows the cleared one
  obtain ⟨b, hbm, hbid, hbact⟩ := hb
  have hbl2 : b ∈ l2 := by
    rw [hl] at hbm
    rcases List.mem_append.1 hbm with h | h
    · have := hfront b h; rw [hbact] at this; cases this
    · rcases List.mem_cons.1 h with h | h
      · exact absurd (by rw [h, has] : b.id = s) (by rw [hbid]; exact fun h => hne h.symm)
      · exact h
  have hsome : ∃ i, firstActive l2 = some i := by
    cases hfa : firstActive l2 with
    | none =>
      have := (firstActive_eq_none l2).1 hfa b hbl2
      rw [hbact] at this; cases this
    | some i => exact ⟨i, rfl⟩
  obtain ⟨i, hi⟩ := hsome
  obtain ⟨l3, u, l4, hl34, hui, hua, hl3⟩ := firstActive_eq_some l2 i hi
  have hsorted2 : (u :: l4).Pairwise (fun a b => a.priority ≥ b.priority) := by
    have h1 := (List.pairwise_append.1 hsorted).2.1
    have h2 := (List.pairwise_cons.1 h1).2
    rw [hl34] at h2
    exact (List.pairwise_append.1 h2).2.1
  have hul2 : u ∈ l2 := by rw [hl34]; simp
  have hum : u ∈ w.mStates := by rw [hl]; simp [hul2]
  have hus : u.id ≠ s := by rw [← has]; exact hl2 u hul2
  -- a node with the identity of the cleared state is the cleared state
  have hnode : ∀ t ∈ w.mStates, t.id = s → t = a := by
    intro t ht hts
    rw [hl] at ht
    rcases List.mem_append.1 ht with h | h
    · exact absurd (hts.trans has.symm) (hl1 t h)
    · rcases List.mem_cons.1 h with h | h
      · exact h
      · exact absurd (hts.trans has.symm) (hl2 t h)
  have hlow : u.priority < a.priority := by
    have hge : a.priority ≥ u.priority :=
      (List.pairwise_cons.1 (List.pairwise_append.1 hsorted).2.1).1 u hul2
    have hneq : a.priority ≠ u.priority := by
      intro heq
      rw [List.map_append, List.map_cons, List.nodup_append] at hd
      exact (List.nodup_cons.1 hd.2.1).1 (by rw [heq]; exact List.mem_map_of_mem _ hul2)
    omega
  have hothers : ∀ t ∈ w.mStates, t.id ≠ s → t.active = true → t.priority ≤ u.priority := by
    intro t ht hts hta
    rw [hl] at ht
    rcases List.mem_append.1 ht with h | h
    · have := hfront t h; rw [hta] at this; cases this
    · rcases List.mem_cons.1 h with h | h
      · exact absurd (by rw [h, has]) hts
      · rw [hl34] at h
        rcases List.mem_append.1 h with h | h
        · have := hl3 t h; rw [hta] at this; cases this
        · rcases List.mem_cons.1 h with h | h
          · rw [h]
          · exact (List.pairwise_cons.1 hsorted2).1 t h
  have hpoint : (w.ClearState s repaint).PointsToMaxActive := by
    refine ⟨u, ?_, ?_, ⟨u, ?_, hua, rfl⟩, ?_⟩
    · rw [hst2, hl34]; simp
    · rw [hptr2, hi, ← hui]
    · rw [hst2, hl34]; simp
    · intro t ht hta
      rw [hst2, hl34] at ht
      rcases List.mem_append.1 ht with h | h
      · have := hfront t h; rw [hta] at this; cases this
      · rcases List.mem_cons.1 h with h | h
        · rw [h] at hta; cases hta
        · rcases List.mem_append.1 h with h | h
          · have := hl3 t h; rw [hta] at this; cases this
          · rcases List.mem_cons.1 h with h | h
            · rw [h]
            · exact (List.pairwise_cons.1 hsorted2).1 t h
  refine ⟨?_, ⟨u, hum, hus, hua, ?_, ?_, ?_, hothers, ?_⟩, ?_, hpoint, ?_⟩
  · rw [hst]; exact setActive_eq_map s false w.mStates hn
  · rw [hptr2, hi, ← hui]
  · rw [hst2, hl34]; simp
  · intro t ht hts
    rw [hnode t ht hts]; exact hlow
  · intro hall
    exact hall u hum hus hua
  · rw [hptr2, hi, ← hui]
    intro h
    exact hus (Option.some.inj h)
  · intro hall
    have hu : u.id = w.mBaseState := hall u (by rw [hst2, hl34]; simp) hua
    rw [hptr2, hi, ← hui, hu]

/-- Scenario 3 of the specification, as an instance of C2: with S (priority 5) and
T (priority 10) both active, clearing T clears the flag of T only and moves the
pointer from T to S, and clearing S then moves it to the base state. -/
theorem C2_witness_clear_T_then_S :
    (twoStates.WellFormed ∧ (twoStates.mStates.map (fun t => t.priority)).Nodup ∧
      twoStates.PointsToMaxActive ∧ twoStates.activeState = some 2 ∧
      2 ≠ twoStates.mBaseState) ∧
    twoStates.mStates = [⟨2, 10, true⟩, ⟨1, 5, true⟩, ⟨0, 0, true⟩] ∧
    (twoStates.ClearState 2 true).mStates = [⟨2, 10, false⟩, ⟨1, 5, true⟩, ⟨0, 0, true⟩] ∧
    (twoStates.ClearState 2 true).activeState = some 1 ∧
    (twoStates.ClearState 2 true).activeState ≠ some 2 ∧
    (twoStates.ClearState 2 true).PointsToMaxActive ∧
    ((twoStates.ClearState 2 true).ClearState 1 true).mStates =
      [⟨2, 10, false⟩, ⟨1, 5, false⟩, ⟨0, 0, true⟩] ∧
    ((twoStates.ClearState 2 true).ClearState 1 true).PointsToMaxActive ∧
    ((twoStates.ClearState 2 true).ClearState 1 true).activeState =
      some twoStates.mBaseState :=
  ⟨by decide, by decide,
   (C2_clearState_next_highest twoStates 2 true (by decide) (by decide) (by decide)
      (by decide) (by decide)).1.trans (by decide),
   by decide,
   (C2_clearState_next_highest twoStates 2 true (by decide) (by decide) (by decide)
      (by decide) (by decide)).2.2.1,
   (C2_clearState_next_highest twoStates 2 true (by decide) (by decide) (by decide)
      (by decide) (by decide)).2.2.2.1,
   (C2_clearState_next_highest (twoStates.ClearState 2 true) 1 true (by decide) (by decide)
      (by decide) (by decide) (by decide)).1.trans (by decide),
   (C2_clearState_next_highest (twoStates.ClearState 2 true) 1 true (by decide) (by decide)
      (by decide) (by decide) (by decide)).2.2.2.1,
   (C2_clearState_next_highest (twoStates.ClearState 2 true) 1 true (by decide) (by decide)
      (by decide) (by decide) (by decide)).2.2.2.2 (by decide)⟩

/-- C3: a call of `ActivateState(s, repaint)` or `ClearState(s, repaint)` calls
`Repaint` (once) exactly when `repaint` is true and the active-state pointer after
the call differs from the pointer before it; otherwise it does not call it. -/
theorem C3_repaint_iff_pointer_changed (w : Window) (s : Nat) (repaint : Bool)
    (hn : (w.mStates.map (fun t => t.id)).Nodup) :
    (w.ActivateState s repaint).repaintCalls = w.repaintCalls +
      (if repaint = true ∧ (w.ActivateState s repaint).activeState ≠ w.activeState
        then 1 else 0) ∧
    (w.ClearState s repaint).repaintCalls = w.repaintCalls +
      (if repaint = true ∧ (w.ClearState s repaint).activeState ≠ w.activeState
        then 1 else 0) := by
  constructor
  · rcases activateState_eq w s repaint with ⟨hp, he⟩ | ⟨_, he⟩
    · have hne : w.activeState ≠ some s :=
        pointerBelow_ne { w with mStates := setActive s true w.mStates } s hp
      rw [he]
      cases repaint <;> simp [Ne.symm hne]
    · rw [he]; simp
  · by_cases hs : w.activeState = some s
    · obtain ⟨hptr, _⟩ := clearState_pointer w s repaint hs
      have hne : (w.ClearState s repaint).activeState ≠ w.activeState := by
        rw [hptr, hs]
        intro h
        obtain ⟨t, ht, hts⟩ := firstActive_mem _ _ h
        exact nodesAfter_id_ne s _ (by rw [setActive_map_id]; exact hn) t ht hts
      have hc : (w.ClearState s repaint).repaintCalls =
          w.repaintCalls + (if repaint = true then 1 else 0) := by
        unfold Window.ClearState
        cases repaint <;> simp [hs, Window.Repaint]
      rw [hc]
      cases repaint <;> simp [hne]
    · have : w.ClearState s repaint = { w with mStates := setActive s false w.mStates } := by
        unfold Window.ClearState
        simp [hs]
      rw [this]
      simp

/-- Instances of C3 in scenario 3: clearing the state the pointer designates, with
`repaint` true, calls `Repaint` once; activating a state of lower priority than the
one designated calls it not at all. -/
theorem C3_witness_clear_and_activate :
    (twoStates.mStates.map (fun t => t.id)).Nodup ∧
    (twoStates.ClearState 2 true).repaintCalls = twoStates.repaintCalls + 1 ∧
    (twoStates.ActivateState 1 true).repaintCalls = twoStates.repaintCalls :=
  ⟨by decide,
   (C3_repaint_iff_pointer_changed twoStates 2 true (by decide)).2.trans (by decide),
   (C3_repaint_iff_pointer_changed twoStates 1 true (by decide)).1.trans (by decide)⟩

/-- C4: calling `ActivateState(s)` a second time changes nothing: the active flags,
the active-state pointer and the number of `Repaint` calls made are those left by
the first call, whatever the `repaint` arguments are. -/
theorem C4_activateState_idempotent (w : Window) (s : Nat) (repaint repaint2 : Bool) :
    (w.ActivateState s repaint).ActivateState s repaint2 = w.ActivateState s repaint := by
  have key : ∀ v : Window, v.mStates = setActive s true w.mStates →
      v.pointerBelow s = false → v.ActivateState s repaint2 = v := by
    intro v hv hp
    have hv1 : ({ v with mStates := setActive s true v.mStates } : Window) = v := by
      rw [hv, setActive_idem]
      cases v
      simp_all
    rcases activateState_eq v s repaint2 with ⟨hp2, _⟩ | ⟨_, he⟩
    · rw [hv1, hp] at hp2; cases hp2
    · rw [he, hv1]
  rcases activateState_eq w s repaint with ⟨_, he⟩ | ⟨hp, he⟩
  · rw [he]
    exact key _ rfl (pointerBelow_self _ s rfl)
  · rw [he]
    exact key _ rfl hp

end States

namespace Overlays

theorem mem_insertOverlay (o : Overlay) (l : List Overlay) (x : Overlay) :
    x ∈ insertOverlay o l ↔ x = o ∨ x ∈ l := by
  induction l with
  | nil => simp [insertOverlay]
  | cons t ts ih =>
    unfold insertOverlay
    split
    · simp [ih]; tauto
    · simp

theorem insertOverlay_sorted (o : Overlay) (l : List Overlay) (h : SortedByZOrder l) :
    SortedByZOrder (insertOverlay o l) := by
  unfold SortedByZOrder at *
  induction l with
  | nil => simp [insertOverlay]
  | cons t ts ih =>
    obtain ⟨ht, hts⟩ := List.pairwise_cons.1 h
    unfold insertOverlay
    split
    · rename_i hlt
      refine List.pairwise_cons.2 ⟨?_, ih hts⟩
      intro x hx
      rcases (mem_insertOverlay o ts x).1 hx with rfl | hx
      · exact le_of_lt hlt
      · exact ht x hx
    · rename_i hlt
      refine List.pairwise_cons.2 ⟨?_, h⟩
      intro x hx
      rcases List.mem_cons.1 hx with rfl | hx
      · exact not_lt.1 hlt
      · exact le_trans (not_lt.1 hlt) (ht x hx)

theorem call_sorted (w : Window) (c : Call) (h : SortedByZOrder w.overlays) :
    SortedByZOrder (w.call c).overlays := by
  cases c with
  | addOverlay position source zOrder => exact insertOverlay_sorted _ _ h
  | removeOverlay overlay =>
    show SortedByZOrder (w.RemoveOverlay overlay).overlays
    unfold Window.RemoveOverlay
    cases overlay.mValid
    · exact h
    · exact List.Pairwise.sublist (List.eraseP_sublist _) h
  | clearOverlays => exact List.Pairwise.nil

theorem calls_sorted (cs : List Call) :
    ∀ w : Window, SortedByZOrder w.overlays → SortedByZOrder (w.calls cs).overlays := by
  induction cs with
  | nil => intro w h; exact h
  | cons c cs ih => intro w h; exact ih _ (call_sorted w c h)

/-- C6: after any sequence of `AddOverlay`, `RemoveOverlay` and `ClearOverlays`
calls on a new window, with any z-orders and any iterators, the overlay list is
sorted by non-decreasing z-order. -/
theorem C6_overlays_sorted_by_zOrder (cs : List Call) :
    SortedByZOrder (Window.new.calls cs).overlays :=
  calls_sorted cs Window.new List.Pairwise.nil

theorem insertOverlay_split (o : Overlay) (l : List Overlay) :
    ∃ l1 l2, l = l1 ++ l2 ∧ insertOverlay o l = l1 ++ o :: l2 ∧
      (∀ t ∈ l1, t.zOrder < o.zOrder) ∧ (∀ t, l2.head? = some t → o.zOrder ≤ t.zOrder) := by
  induction l with
  | nil => exact ⟨[], [], rfl, rfl, by simp, by simp⟩
  | cons t ts ih =>
    unfold insertOverlay
    split
    · rename_i hlt
      obtain ⟨l1, l2, h1, h2, h3, h4⟩ := ih
      refine ⟨t :: l1, l2, by rw [h1]; rfl, by rw [h2]; rfl, ?_, h4⟩
      intro x hx
      rcases List.mem_cons.1 hx with rfl | hx
      · exact hlt
      · exact h3 x hx
    · rename_i hlt
      refine ⟨[], t :: ts, rfl, rfl, by simp, ?_⟩
      intro x hx
      simp only [List.head?_cons, Option.some.injEq] at hx
      rw [← hx]; exact not_lt.1 hlt

/-- C7 (as amended): `AddOverlay(position, source, z)` inserts the new overlay at the
first position whose overlay has a z-order greater than or equal to `z` (at the end
when there is none): every overlay in front of it has a smaller z-order, so the new
overlay comes before every overlay already present with the same z-order, and the
overlays already present keep their order. -/
theorem C7_addOverlay_inserts_before_equal (w : Window) (position : RectF) (source : Nat)
    (z : Int) :
    ∃ l1 l2, w.overlays = l1 ++ l2 ∧
      (w.AddOverlay position source z).1.overlays =
        l1 ++ { id := w.nextId, position := position, source := source, zOrder := z } :: l2 ∧
      (∀ t ∈ l1, t.zOrder < z) ∧
      (∀ t, l2.head? = some t → z ≤ t.zOrder) ∧
      (∀ t ∈ w.overlays, t.zOrder = z → t ∈ l2) := by
  obtain ⟨l1, l2, h1, h2, h3, h4⟩ := insertOverlay_split
    { id := w.nextId, position := position, source := source, zOrder := z } w.overlays
  refine ⟨l1, l2, h1, h2, h3, h4, ?_⟩
  intro t ht hz
  rw [h1] at ht
  rcases List.mem_append.1 ht with h | h
  · exact absurd hz (ne_of_lt (h3 t h))
  · exact h

/-- C7 (as stated) fails: an overlay of z-order 5 added to a window that holds an
overlay of z-order 5 is put in front of it, not behind it as an insertion at the
first position of strictly greater z-order would. -/
theorem C7_counterexample_equal_zOrder :
    ((oneOverlay.AddOverlay ⟨0, 0, 16, 16⟩ 1 5).1.overlays.map (fun o => o.id) = [1, 0]) ∧
    (insertOverlayAfterEqual { id := 1, position := ⟨0, 0, 16, 16⟩, source := 1, zOrder := 5 }
        oneOverlay.overlays).map (fun o => o.id) = [0, 1] ∧
    (oneOverlay.AddOverlay ⟨0, 0, 16, 16⟩ 1 5).1.overlays ≠
      insertOverlayAfterEqual { id := 1, position := ⟨0, 0, 16, 16⟩, source := 1, zOrder := 5 }
        oneOverlay.overlays := by
  decide

end Overlays

namespace Tree

theorem setPosition_moved (parent : Option RectF) (x y width height extra : Int)
    (self msgHandler : Nat) (mIsChild : Bool) (ds : WindowSettings) (area : RectF)
    (children : List Window) (h : (isResize ds width height || mIsChild) = true) :
    (Window.mk self msgHandler mIsChild ds area children).SetPosition parent x y width height
        extra =
      (.mk self msgHandler mIsChild ⟨x, y, width, height⟩
          (newDrawingArea mIsChild parent x y width height area)
          (moveChildren (newDrawingArea mIsChild parent x y width height area) children).1,
        [Event.repaint self] ++
          (moveChildren (newDrawingArea mIsChild parent x y width height area) children).2 ++
          [Event.repaint self] ++
          (if isResize ds width height then
            [Event.message msgHandler WM_SIZECHANGE (MAKEWPARAM width height) extra self]
           else [])) := by
  simp only [Window.SetPosition, h, if_true]

theorem setPosition_kept (parent : Option RectF) (x y width height extra : Int)
    (self msgHandler : Nat) (mIsChild : Bool) (ds : WindowSettings) (area : RectF)
    (children : List Window) (h : (isResize ds width height || mIsChild) = false) :
    (Window.mk self msgHandler mIsChild ds area children).SetPosition parent x y width height
        extra =
      (.mk self msgHandler mIsChild ⟨x, y, width, height⟩
          (newDrawingArea mIsChild parent x y width height area) children, []) := by
  have h1 : isResize ds width height = false := (Bool.or_eq_false_iff.1 h).1
  have h2 : mIsChild = false := (Bool.or_eq_false_iff.1 h).2
  simp [Window.SetPosition, h1, h2]

mutual
theorem setPosition_sizeChange : ∀ (w : Window) (parent : Option RectF)
    (x y width height extra : Int),
    (w.SetPosition parent x y width height extra).2.filter Event.isSizeChange =
      if isResize w.drawingSettings width height then
        [Event.message w.msgHandler WM_SIZECHANGE (MAKEWPARAM width height) extra w.self]
      else []
  | .mk self msgHandler mIsChild ds area children, parent, x, y, width, height, extra => by
    cases h : (isResize ds width height || mIsChild)
    · rw [setPosition_kept _ _ _ _ _ _ _ _ _ _ _ _ h]
      have h1 : isResize ds width height = false := (Bool.or_eq_false_iff.1 h).1
      simp [Window.drawingSettings, h1]
    · rw [setPosition_moved _ _ _ _ _ _ _ _ _ _ _ _ h]
      simp only [List.filter_append, moveChildren_sizeChange children]
      cases hr : isResize ds width height <;>
        simp [Window.drawingSettings, Window.msgHandler, Window.self, hr, Event.isSizeChange,
          List.filter]
theorem moveChildren_sizeChange : ∀ (l : List Window) (parentArea : RectF),
    (moveChildren parentArea l).2.filter Event.isSizeChange = []
  | [], _ => by simp [moveChildren]
  | child :: rest, parentArea => by
    simp only [moveChildren, List.filter_append]
    rw [setPosition_sizeChange child, moveChildren_sizeChange rest]
    simp [isResize]
end

theorem childArea_small (p : RectF) (x y width height : Int) (area : RectF)
    (hh : p.left.natAbs < 2 ^ 24 ∧ x.natAbs < 2 ^ 24 ∧ (p.left + x).natAbs < 2 ^ 24 ∧
      width.natAbs < 2 ^ 24 ∧ (p.left + x + width).natAbs < 2 ^ 24)
    (hv : p.top.natAbs < 2 ^ 24 ∧ y.natAbs < 2 ^ 24 ∧ (p.top + y).natAbs < 2 ^ 24 ∧
      height.natAbs < 2 ^ 24 ∧ (p.top + y + height).natAbs < 2 ^ 24) :
    newDrawingArea true (some p) x y width height area =
      ⟨p.left + x, p.top + y, p.left + x + width, p.top + y + height⟩ := by
  obtain ⟨h1, h2, h3, h4, h5⟩ := hh
  obtain ⟨v1, v2, v3, v4, v5⟩ := hv
  simp only [newDrawingArea, Bool.not_true, Bool.false_eq_true, if_false]
  rw [addFloat_small p.left x h1 h2 h3, addFloat_small p.top y v1 v2 v3,
    addFloat_small (p.left + x) width h3 h4 h5, addFloat_small (p.top + y) height v3 v4 v5]

mutual
theorem setPosition_aligned : ∀ (w : Window) (parent : Option RectF)
    (x y width height extra : Int), w.DescendantsAreChildren →
    (isResize w.drawingSettings width height || w.mIsChild) = true →
    allInFloatRange (w.SetPosition parent x y width height extra).1.drawingArea.left
      (w.SetPosition parent x y width height extra).1.drawingArea.top w.children →
    (w.SetPosition parent x y width height extra).1.Aligned
  | .mk self msgHandler mIsChild ds area children, parent, x, y, width, height, extra,
      hflags, h, hrange => by
    have h1 : (isResize ds width height || mIsChild) = true := h
    rw [setPosition_moved _ _ _ _ _ _ _ _ _ _ _ _ h1] at hrange ⊢
    simp only [Window.Aligned]
    exact moveChildren_aligned children _ hflags hrange
theorem moveChildren_aligned : ∀ (l : List Window) (parentArea : RectF),
    allChildren l → allInFloatRange parentArea.left parentArea.top l →
    alignedAll parentArea (moveChildren parentArea l).1
  | [], _, _, _ => by simp [moveChildren, alignedAll]
  | .mk self msgHandler mIsChild ds area children :: rest, parentArea, hflags, hrange => by
    obtain ⟨hc, hd, hrest⟩ := hflags
    obtain ⟨hh, hv, hsub, hothers⟩ := hrange
    have hc1 : mIsChild = true := hc
    subst hc1
    have harea : newDrawingArea true (some parentArea) ds.x ds.y ds.width ds.height area =
        ⟨parentArea.left + ds.x, parentArea.top + ds.y, parentArea.left + ds.x + ds.width,
         parentArea.top + ds.y + ds.height⟩ := childArea_small parentArea _ _ _ _ area hh hv
    simp only [moveChildren, alignedAll]
    refine ⟨?_, ?_, moveChildren_aligned rest parentArea hrest hothers⟩
    · rw [setPosition_moved _ _ _ _ _ _ _ _ _ _ _ _ (by simp [Window.drawingSettings])]
      simp only [Window.drawingArea, Window.drawingSettings, childRect]
      exact harea
    · refine setPosition_aligned _ _ _ _ _ _ _ hd (by simp [Window.mIsChild]) ?_
      rw [setPosition_moved _ _ _ _ _ _ _ _ _ _ _ _ (by simp [Window.drawingSettings])]
      simp only [Window.drawingArea, Window.drawingSettings, Window.children]
      rw [harea]
      exact hsub
end

theorem alignedAll_origin (a b : RectF) (hl : a.left = b.left) (ht : a.top = b.top) :
    ∀ l : List Window, alignedAll a l → alignedAll b l
  | [], _ => by simp [alignedAll]
  | c :: cs, h => by
    simp only [alignedAll] at h ⊢
    refine ⟨?_, h.2.1, alignedAll_origin a b hl ht cs h.2.2⟩
    rw [h.1]; simp [childRect, hl, ht]

/-- C8 (as amended): after a `SetPosition` call that resizes the window `R`, or that
is made on an `R` that is a child, every child of `R` has its drawing rectangle at
the drawing origin of `R` plus the position stored for the child, with the width
and height stored for the child, and the same holds between every deeper descendant
and its own parent, whatever the rectangles were before, provided the origins, the
stored positions and sizes and the sums computed from them are below 2 ^ 24 in
magnitude, so that they are exact in single precision.  A pure move of a root
does not visit the children: the drawing origin of the root is (0, 0) and the
subtrees of the children are left as they were, so the relation holds after the
move when it held before it. -/
theorem C8_setPosition_keeps_children_aligned (R : Window) (parent : Option RectF)
    (x y width height extra : Int) (hflags : R.DescendantsAreChildren) :
    ((width ≠ R.drawingSettings.width ∨ height ≠ R.drawingSettings.height ∨
        R.mIsChild = true) →
      allInFloatRange (R.SetPosition parent x y width height extra).1.drawingArea.left
        (R.SetPosition parent x y width height extra).1.drawingArea.top R.children →
      (R.SetPosition parent x y width height extra).1.Aligned) ∧
    ((width = R.drawingSettings.width ∧ height = R.drawingSettings.height ∧
        R.mIsChild = false) →
      (R.SetPosition parent x y width height extra).1.children = R.children ∧
      (R.SetPosition parent x y width height extra).1.drawingArea.left = 0 ∧
      (R.SetPosition parent x y width height extra).1.drawingArea.top = 0 ∧
      (R.drawingArea.left = 0 → R.drawingArea.top = 0 → R.Aligned →
        (R.SetPosition parent x y width height extra).1.Aligned)) := by
  constructor
  · intro h hrange
    refine setPosition_aligned R parent x y width height extra hflags ?_ hrange
    rcases h with h | h | h
    · simp [isResize, h]
    · simp [isResize, h]
    · simp [h]
  · rintro ⟨hw, hh, hc⟩
    cases R with
    | mk self msgHandler mIsChild ds area children =>
      have hc1 : mIsChild = false := hc
      subst hc1
      have hw1 : width = ds.width := hw
      have hh1 : height = ds.height := hh
      have h1 : (isResize ds width height || false) = false := by
        simp [isResize, hw1, hh1]
      rw [setPosition_kept _ _ _ _ _ _ _ _ _ _ _ _ h1]
      refine ⟨rfl, by simp [Window.drawingArea, newDrawingArea],
        by simp [Window.drawingArea, newDrawingArea], ?_⟩
      intro hl ht ha
      simp only [Window.Aligned] at ha ⊢
      exact alignedAll_origin area _ (by simpa [newDrawingArea] using hl)
        (by simpa [newDrawingArea] using ht) children ha

/-- Instances of C8 in scenario 2: the root with a child at (10, 10, 20, 20) is
resized to (0, 0, 400, 200), and is moved to (50, 60); the child stays at
(10, 10, 30, 30). -/
theorem C8_witness_resize_and_move :
    rootWithChild.DescendantsAreChildren ∧
    (rootWithChild.SetPosition none 0 0 400 200 0).1.Aligned ∧
    (rootWithChild.SetPosition none 0 0 400 200 0).1.drawingArea = ⟨0, 0, 400, 200⟩ ∧
    (rootWithChild.SetPosition none 0 0 400 200 0).1.children.map Window.drawingArea =
      [⟨10, 10, 30, 30⟩] ∧
    (rootWithChild.SetPosition none 50 60 200 100 0).1.Aligned ∧
    (rootWithChild.SetPosition none 50 60 200 100 0).1.children = rootWithChild.children :=
  ⟨⟨rfl, trivial, trivial⟩,
   (C8_setPosition_keeps_children_aligned rootWithChild none 0 0 400 200 0
     ⟨rfl, trivial, trivial⟩).1 (Or.inl (by decide))
     ⟨⟨by decide, by decide, by decide, by decide, by decide⟩,
      ⟨by decide, by decide, by decide, by decide, by decide⟩, trivial, trivial⟩,
   by decide,
   by decide,
   ((C8_setPosition_keeps_children_aligned rootWithChild none 50 60 200 100 0
     ⟨rfl, trivial, trivial⟩).2 ⟨rfl, rfl, rfl⟩).2.2.2 rfl rfl ⟨rfl, trivial, trivial⟩,
   ((C8_setPosition_keeps_children_aligned rootWithChild none 50 60 200 100 0
     ⟨rfl, trivial, trivial⟩).2 ⟨rfl, rfl, rfl⟩).1⟩

/-- C8 (as stated) fails for a pure move of a root.  The root has a child placed at
(5, 5, 50, 50), and `CreateChild` has just been called on that child: the drawing
area of the new window is still zeroed.  `Move(1, 1)` on the root skips the loop
over the children, so the new window is not at the origin of its parent plus its
stored position; a call that resizes the root does put it there. -/
theorem C8_counterexample_move_of_root :
    (rootWithNewGrandchild ⟨0, 0, 0, 0⟩).DescendantsAreChildren ∧
    ¬ ((rootWithNewGrandchild ⟨0, 0, 0, 0⟩).Move none 1 1).1.Aligned ∧
    ((rootWithNewGrandchild ⟨0, 0, 0, 0⟩).SetPosition none 1 1 300 100 0).1.Aligned :=
  ⟨⟨rfl, ⟨rfl, trivial, trivial⟩, trivial⟩,
   fun h => absurd h.2.1.1 (by decide),
   ⟨rfl, ⟨rfl, trivial, trivial⟩, trivial⟩⟩

/-- The same holds whatever position the constructor of `WindowSettings` leaves,
except the one that would put the new window at (0, 0, 0, 0) by accident. -/
theorem move_of_root_leaves_new_grandchild (defaults : WindowSettings)
    (h : ((rootWithNewGrandchild defaults).Move none 1 1).1.Aligned) :
    defaults = ⟨-5, -5, 0, 0⟩ := by
  have h1 : (⟨0, 0, 0, 0⟩ : RectF) = childRect ⟨5, 5, 55, 55⟩ defaults := h.2.1.1
  obtain ⟨x, y, width, height⟩ := defaults
  simp only [childRect, RectF.mk.injEq] at h1
  obtain ⟨hx, hy, hw, hh⟩ := h1
  have ex : x = -5 := by omega
  have ey : y = -5 := by omega
  subst ex ey
  have ew : width = 0 := by omega
  have eh : height = 0 := by omega
  subst ew eh
  rfl

/-- Beyond 2 ^ 24 the relation of C8 fails after a resize too: a child whose stored
position is x = 16777217 is drawn at 16777216, the value of type `float` nearest to
it, and not at the origin of its parent plus its stored position. -/
theorem resize_rounds_far_child :
    (rootWithFarChild.SetPosition none 0 0 400 200 0).1.children.map Window.drawingArea =
      [⟨16777216, 10, 16777236, 30⟩] ∧
    ¬ (rootWithFarChild.SetPosition none 0 0 400 200 0).1.Aligned :=
  ⟨by decide, fun h => absurd h.1 (by decide)⟩

/-- C9 (as amended): after `SetPosition(x, y, width, height)`, `GetDrawingRect` returns
`(0, 0, width, height)` on a root, whatever `x` and `y` are, when `width` and `height`
are below 2 ^ 24 in magnitude; on a child whose parent has the drawing rectangle `P`
it returns `(P.left + x, P.top + y, P.left + x + width, P.top + y + height)` when the
origin of `P`, the four arguments and the four sums are below 2 ^ 24 in magnitude.
The coordinates are of type `float`, and these are the integers that the conversions
and the sums keep exact. -/
theorem C9_setPosition_getDrawingRect (R : Window) (parent : Option RectF) (P : RectF)
    (x y width height extra : Int) :
    (R.mIsChild = false → width.natAbs < 2 ^ 24 → height.natAbs < 2 ^ 24 →
      (R.SetPosition parent x y width height extra).1.GetDrawingRect = ⟨0, 0, width, height⟩) ∧
    (R.mIsChild = true →
      (P.left.natAbs < 2 ^ 24 ∧ x.natAbs < 2 ^ 24 ∧ (P.left + x).natAbs < 2 ^ 24 ∧
        width.natAbs < 2 ^ 24 ∧ (P.left + x + width).natAbs < 2 ^ 24) →
      (P.top.natAbs < 2 ^ 24 ∧ y.natAbs < 2 ^ 24 ∧ (P.top + y).natAbs < 2 ^ 24 ∧
        height.natAbs < 2 ^ 24 ∧ (P.top + y + height).natAbs < 2 ^ 24) →
      (R.SetPosition (some P) x y width height extra).1.GetDrawingRect =
        ⟨P.left + x, P.top + y, P.left + x + width, P.top + y + height⟩) := by
  cases R with
  | mk self msgHandler mIsChild ds area children =>
    constructor
    · intro h hw hh
      have h1 : mIsChild = false := h
      subst h1
      simp [Window.SetPosition, Window.GetDrawingRect, Window.drawingArea, newDrawingArea,
        toFloat_small width hw, toFloat_small height hh]
    · intro h hh hv
      have h1 : mIsChild = true := h
      subst h1
      have harea := childArea_small P x y width height area hh hv
      simp only [Window.SetPosition, Window.GetDrawingRect, Window.drawingArea]
      exact harea

/-- Instances of C9: a root set to (7, 9, 400, 200), and a child set to
(10, 12, 20, 30) below a parent drawn at (5, 6, 105, 106). -/
theorem C9_witness_root_and_child :
    (rootWithChild.mIsChild = false ∧
      (rootWithChild.SetPosition none 7 9 400 200 0).1.GetDrawingRect = ⟨0, 0, 400, 200⟩) ∧
    ((Window.mk 1 101 true ⟨0, 0, 0, 0⟩ ⟨0, 0, 0, 0⟩ []).mIsChild = true ∧
      ((Window.mk 1 101 true ⟨0, 0, 0, 0⟩ ⟨0, 0, 0, 0⟩ []).SetPosition (some ⟨5, 6, 105, 106⟩)
        10 12 20 30 0).1.GetDrawingRect = ⟨15, 18, 35, 48⟩) :=
  ⟨⟨rfl, (C9_setPosition_getDrawingRect rootWithChild none ⟨0, 0, 0, 0⟩ 7 9 400 200 0).1 rfl
      (by decide) (by decide)⟩,
   ⟨rfl, ((C9_setPosition_getDrawingRect (Window.mk 1 101 true ⟨0, 0, 0, 0⟩ ⟨0, 0, 0, 0⟩ []) none
      ⟨5, 6, 105, 106⟩ 10 12 20 30 0).2 rfl
      ⟨by decide, by decide, by decide, by decide, by decide⟩
      ⟨by decide, by decide, by decide, by decide, by decide⟩).trans (by decide)⟩⟩

/-- C9 as stated fails: 2 ^ 24 + 1 is not a value of type `float`.  After
`SetPosition(7, 9, 16777217, 200)` on a root `GetDrawingRect` returns the right edge
16777216; after `SetPosition(16777217, 10, 20, 20)` on a child of a parent drawn at
(0, 0, 200, 100) it returns the left edge 16777216. -/
theorem C9_counterexample_beyond_float_range :
    (rootWithChild.SetPosition none 7 9 16777217 200 0).1.GetDrawingRect =
      ⟨0, 0, 16777216, 200⟩ ∧
    (rootWithChild.SetPosition none 7 9 16777217 200 0).1.GetDrawingRect ≠
      ⟨0, 0, 16777217, 200⟩ ∧
    ((Window.mk 1 101 true ⟨0, 0, 0, 0⟩ ⟨0, 0, 0, 0⟩ []).SetPosition (some ⟨0, 0, 200, 100⟩)
      16777217 10 20 20 0).1.GetDrawingRect = ⟨16777216, 10, 16777236, 30⟩ := by
  decide

/-- The words of `MAKEWPARAM(width, height)` for values that fit 16 bits: the low
word is the width and the high word is the height. -/
theorem makewparam_words (width height : Int) (hw : 0 ≤ width ∧ width < 65536)
    (hh : 0 ≤ height ∧ height < 65536) :
    (LOWORD (MAKEWPARAM width height) : Int) = width ∧
    (HIWORD (MAKEWPARAM width height) : Int) = height := by
  obtain ⟨w, rfl⟩ := Int.eq_ofNat_of_zero_le hw.1
  obtain ⟨h, rfl⟩ := Int.eq_ofNat_of_zero_le hh.1
  have hw2 : w < 65536 := by omega
  have hh2 : h < 65536 := by omega
  unfold LOWORD HIWORD MAKEWPARAM
  have e1 : ((w : Int) % 65536).toNat = w := by omega
  have e2 : ((h : Int) % 65536).toNat = h := by omega
  rw [e1, e2]
  constructor
  · have : (w + 65536 * h) % 65536 = w := by omega
    rw [this]
  · have : (w + 65536 * h) / 65536 % 65536 = h := by omega
    rw [this]

/-- C10 (as amended): `SetPosition(x, y, width, height, extra)` on a window `R` sends
the `WM_SIZECHANGE` message exactly once, to the handler of `R`, with `extra`, when
`width` or `height` differs from the width or height stored for `R`, and sends none
when neither differs; `Move` therefore sends none.  No other `WM_SIZECHANGE` message
is sent: the calls made on the descendants of `R` never resize them.  The `wParam` of
the message is `MAKEWPARAM(width, height)`: the number whose low 16-bit word is
`width` modulo 2 ^ 16 and whose high word is `height` modulo 2 ^ 16.  It carries
`width` and `height` themselves when both are at least 0 and below 2 ^ 16. -/
theorem C10_sizeChange_sent_once_to_own_handler (R : Window) (parent : Option RectF)
    (x y width height extra : Int) :
    (∃ wParam : Nat,
      (R.SetPosition parent x y width height extra).2.filter Event.isSizeChange =
        (if width ≠ R.drawingSettings.width ∨ height ≠ R.drawingSettings.height then
          [Event.message R.msgHandler 1026 wParam extra R.self]
         else []) ∧
      (wParam : Int) = width % 65536 + 65536 * (height % 65536) ∧
      (0 ≤ width → width < 65536 → 0 ≤ height → height < 65536 →
        (wParam : Int) % 65536 = width ∧ (wParam : Int) / 65536 = height ∧
        (LOWORD wParam : Int) = width ∧ (HIWORD wParam : Int) = height)) ∧
    (R.Move parent x y).2.filter Event.isSizeChange = [] := by
  constructor
  · refine ⟨MAKEWPARAM width height, ?_, ?_, ?_⟩
    · rw [setPosition_sizeChange]
      by_cases h : width ≠ R.drawingSettings.width ∨ height ≠ R.drawingSettings.height
      · have : isResize R.drawingSettings width height = true := by
          simpa [isResize] using h
        simp [this, h, WM_SIZECHANGE]
      · have : isResize R.drawingSettings width height = false := by
          simpa [isResize, not_or] using h
        simp [this, h]
    · unfold MAKEWPARAM
      have h1 : 0 ≤ width % 65536 := Int.emod_nonneg _ (by decide)
      have h2 : 0 ≤ height % 65536 := Int.emod_nonneg _ (by decide)
      push_cast
      rw [Int.toNat_of_nonneg h1, Int.toNat_of_nonneg h2]
    · intro hw0 hw1 hh0 hh1
      have hwords := makewparam_words width height ⟨hw0, hw1⟩ ⟨hh0, hh1⟩
      refine ⟨?_, ?_, hwords.1, hwords.2⟩
      · unfold MAKEWPARAM
        have h1 : 0 ≤ width % 65536 := Int.emod_nonneg _ (by decide)
        have h2 : 0 ≤ height % 65536 := Int.emod_nonneg _ (by decide)
        push_cast
        rw [Int.toNat_of_nonneg h1, Int.toNat_of_nonneg h2]
        omega
      · unfold MAKEWPARAM
        have h1 : 0 ≤ width % 65536 := Int.emod_nonneg _ (by decide)
        have h2 : 0 ≤ height % 65536 := Int.emod_nonneg _ (by decide)
        push_cast
        rw [Int.toNat_of_nonneg h1, Int.toNat_of_nonneg h2]
        omega
  · unfold Window.Move
    rw [setPosition_sizeChange]
    simp [isResize]

/-- Scenario 2 as an instance of C10: the root with a child at (10, 10, 20, 20),
set to (0, 0, 400, 200), sends one `WM_SIZECHANGE` message, to its own handler, whose
`wParam` is 400 + 65536 * 200: the low word is 400 and the high word is 200.  The
whole log of the call is two `Repaint` calls on the root around two on the child,
then the message. -/
theorem C10_witness_root_resized :
    (rootWithChild.SetPosition none 0 0 400 200 0).2.filter Event.isSizeChange =
      [Event.message 100 1026 13107600 0 0] ∧
    (rootWithChild.SetPosition none 0 0 400 200 0).2 =
      [Event.repaint 0, Event.repaint 1, Event.repaint 1, Event.repaint 0,
       Event.message 100 1026 13107600 0 0] ∧
    (rootWithChild.SetPosition none 0 0 400 200 0).1.children.map Window.drawingArea =
      [⟨10, 10, 30, 30⟩] ∧
    (13107600 : Int) % 65536 = 400 ∧ (13107600 : Int) / 65536 = 200 := by
  obtain ⟨wParam, hlog, hvalue, hwords⟩ :=
    (C10_sizeChange_sent_once_to_own_handler rootWithChild none 0 0 400 200 0).1
  have hw : (wParam : Int) = 13107600 := hvalue.trans (by decide)
  have hw2 : wParam = 13107600 := by exact_mod_cast hw
  subst hw2
  exact ⟨hlog.trans (by decide), by decide, by decide,
    (hwords (by decide) (by decide) (by decide) (by decide)).1,
    (hwords (by decide) (by decide) (by decide) (by decide)).2.1⟩

/-- C10 as stated fails for a size that does not fit 16 bits: `SetPosition(0, 0, 65936,
200)` sends the same `wParam` as `SetPosition(0, 0, 400, 200)`, with 400 in the low
word, so the message does not carry the width 65936. -/
theorem C10_counterexample_width_beyond_16_bits :
    (rootWithChild.SetPosition none 0 0 65936 200 0).2.filter Event.isSizeChange =
      [Event.message 100 1026 13107600 0 0] ∧
    (rootWithChild.SetPosition none 0 0 65936 200 0).2.filter Event.isSizeChange =
      (rootWithChild.SetPosition none 0 0 400 200 0).2.filter Event.isSizeChange ∧
    LOWORD 13107600 = 400 ∧ HIWORD 13107600 = 200 ∧
    (rootWithChild.SetPosition none 0 0 65936 200 0).1.drawingSettings.width = 65936 := by
  decide

/-- C11 (a defect of the code): `Window.hpp` documents `WM_SIZECHANGE` with the width
in the high word of `wParam` and the height in the low word, and `SetPosition`
sends `MAKEWPARAM(width, height)`, which has them the other way round.  When the
root of scenario 2 is resized to 400 by 200 the one message sent carries 200, the
height, in the high word and 400, the width, in the low word. -/
theorem C11_sizeChange_words_swapped :
    sizeChangeParams (rootWithChild.SetPosition none 0 0 400 200 0).2 =
      [MAKEWPARAM 400 200] ∧
    HIWORD (MAKEWPARAM 400 200) = 200 ∧ LOWORD (MAKEWPARAM 400 200) = 400 ∧
    HIWORD (MAKEWPARAM 400 200) ≠ 400 := by
  decide

end Tree

namespace Chain

theorem push_root (m : Members) (p : Option Window) (h : m.mIsChild = false) :
    (Window.mk m p).PushUpdateLock =
      .mk { m with mUpdateLockCount := m.mUpdateLockCount + 1 } p := by
  cases m
  simp only at h
  subst h
  cases p <;> rfl

theorem pop_root (m : Members) (p : Option Window) (h : m.mIsChild = false) :
    (Window.mk m p).PopUpdateLock =
      if m.mUpdateLockCount - 1 = 0 ∧ m.mNeedsUpdate = true then
        .mk { m with mUpdateLockCount := m.mUpdateLockCount - 1, mNeedsUpdate := false,
                     hostCalls := m.hostCalls ++ [HostCall.updateWindow] } p
      else .mk { m with mUpdateLockCount := m.mUpdateLockCount - 1 } p := by
  cases m
  simp only at h
  subst h
  cases p <;> rfl

theorem repaint_root_eq (region : Option RECT) (m : Members) (p : Option Window)
    (h : m.mIsChild = false) :
    (Window.mk m p).Repaint region =
      if (m.initialized && m.visible) = true then
        if m.mUpdateLockCount = 0 then
          .mk { m with hostCalls :=
                  m.hostCalls ++ [HostCall.invalidateRect region, HostCall.updateWindow] } p
        else
          .mk { m with mNeedsUpdate := true,
                       hostCalls := m.hostCalls ++ [HostCall.invalidateRect region] } p
      else .mk m p := by
  cases m
  simp only at h
  subst h
  cases p <;> rfl

theorem repaint_root (region : Option RECT) (m : Members) (p : Option Window)
    (h : m.mIsChild = false) :
    ∃ flag calls, (Window.mk m p).Repaint region =
        .mk { m with mNeedsUpdate := flag, hostCalls := calls } p ∧
      (flag = true → m.mNeedsUpdate = true ∨ m.mUpdateLockCount ≠ 0) := by
  rw [repaint_root_eq region m p h]
  by_cases h1 : (m.initialized && m.visible) = true
  · by_cases h2 : m.mUpdateLockCount = 0
    · exact ⟨m.mNeedsUpdate, m.hostCalls ++ [HostCall.invalidateRect region,
        HostCall.updateWindow], by rw [if_pos h1, if_pos h2], fun hf => Or.inl hf⟩
    · exact ⟨true, m.hostCalls ++ [HostCall.invalidateRect region],
        by rw [if_pos h1, if_neg h2], fun _ => Or.inr h2⟩
  · exact ⟨m.mNeedsUpdate, m.hostCalls, by rw [if_neg h1], fun hf => Or.inl hf⟩

theorem repaints_root (inner : List (Option RECT)) :
    ∀ (m : Members) (p : Option Window), m.mIsChild = false →
    ∃ flag calls, inner.foldl (fun v region => v.Repaint region) (Window.mk m p) =
        .mk { m with mNeedsUpdate := flag, hostCalls := calls } p := by
  induction inner with
  | nil => intro m p _; exact ⟨m.mNeedsUpdate, m.hostCalls, rfl⟩
  | cons r rs ih =>
    intro m p h
    obtain ⟨flag, calls, he, _⟩ := repaint_root r m p h
    obtain ⟨flag2, calls2, he2⟩ := ih { m with mNeedsUpdate := flag, hostCalls := calls } p h
    exact ⟨flag2, calls2, by rw [List.foldl_cons, he, he2]⟩

theorem paintMessage_root (inner : List (Option RECT)) (m : Members) (p : Option Window)
    (h : m.mIsChild = false) :
    ∃ calls, (Window.mk m p).paintMessage inner =
      .mk { m with mNeedsUpdate := false, hostCalls := calls } p := by
  show ∃ calls, (match inner.foldl (fun v region => v.Repaint region)
      (Window.mk m p).PushUpdateLock with
    | .mk m1 mParent => (Window.mk { m1 with mNeedsUpdate := false } mParent).PopUpdateLock) = _
  rw [push_root m p h]
  obtain ⟨flag, calls, he⟩ := repaints_root inner
    { m with mUpdateLockCount := m.mUpdateLockCount + 1 } p h
  rw [he]
  refine ⟨calls, ?_⟩
  have hp := pop_root
    ({ m with
        mUpdateLockCount := m.mUpdateLockCount + 1
        mNeedsUpdate := false
        hostCalls := calls } : Members) p h
  simp only at hp ⊢
  rw [hp]
  simp

theorem call_keeps_invariant (w : Window) (c : Call) (hroot : w.m.mIsChild = false)
    (hinv : w.LockInvariant) (hpop : c = Call.popUpdateLock → 0 < w.m.mUpdateLockCount) :
    (w.call c).m.mIsChild = false ∧ (w.call c).LockInvariant := by
  obtain ⟨m, p⟩ := w
  have h : m.mIsChild = false := hroot
  obtain ⟨h0, hf⟩ : 0 ≤ m.mUpdateLockCount ∧ (m.mNeedsUpdate = true → 0 < m.mUpdateLockCount) :=
    hinv
  cases c with
  | pushUpdateLock =>
    show (Window.PushUpdateLock _).m.mIsChild = false ∧ (Window.PushUpdateLock _).LockInvariant
    rw [push_root m p h]
    refine ⟨h, ?_, ?_⟩
    · show 0 ≤ m.mUpdateLockCount + 1
      omega
    · intro _
      show 0 < m.mUpdateLockCount + 1
      omega
  | popUpdateLock =>
    have hpos : 0 < m.mUpdateLockCount := hpop rfl
    show (Window.PopUpdateLock _).m.mIsChild = false ∧ (Window.PopUpdateLock _).LockInvariant
    rw [pop_root m p h]
    by_cases hc : m.mUpdateLockCount - 1 = 0 ∧ m.mNeedsUpdate = true
    · rw [if_pos hc]
      refine ⟨h, ?_, ?_⟩
      · show 0 ≤ m.mUpdateLockCount - 1
        omega
      · intro hflag
        cases hflag
    · rw [if_neg hc]
      refine ⟨h, ?_, ?_⟩
      · show 0 ≤ m.mUpdateLockCount - 1
        omega
      · intro hflag
        have hflag2 : m.mNeedsUpdate = true := hflag
        show 0 < m.mUpdateLockCount - 1
        have : m.mUpdateLockCount - 1 ≠ 0 := fun h1 => hc ⟨h1, hflag2⟩
        omega
  | repaint region =>
    show (Window.Repaint region _).m.mIsChild = false ∧ (Window.Repaint region _).LockInvariant
    obtain ⟨flag, calls, he, hfl⟩ := repaint_root region m p h
    rw [he]
    refine ⟨h, h0, ?_⟩
    intro hflag
    have hflag2 : flag = true := hflag
    show 0 < m.mUpdateLockCount
    rcases hfl hflag2 with h1 | h1
    · exact hf h1
    · omega
  | repaintF region =>
    show (Window.RepaintF region _).m.mIsChild = false ∧
      (Window.RepaintF region _).LockInvariant
    unfold Window.RepaintF
    split
    · obtain ⟨flag, calls, he, hfl⟩ := repaint_root
        (some ⟨lessOneAndHalf (region.getD m.drawingArea).left,
          lessOneAndHalf (region.getD m.drawingArea).top,
          plusOneAndHalf (region.getD m.drawingArea).right,
          plusOneAndHalf (region.getD m.drawingArea).bottom⟩) m p h
      simp only [Window.m]
      rw [he]
      refine ⟨h, h0, ?_⟩
      intro hflag
      have hflag2 : flag = true := hflag
      show 0 < m.mUpdateLockCount
      rcases hfl hflag2 with h1 | h1
      · exact hf h1
      · omega
    · exact ⟨h, h0, hf⟩
  | paintMessage inner =>
    show (Window.paintMessage inner _).m.mIsChild = false ∧
      (Window.paintMessage inner _).LockInvariant
    obtain ⟨calls, he⟩ := paintMessage_root inner m p h
    rw [he]
    refine ⟨h, h0, ?_⟩
    intro hflag
    cases hflag

theorem calls_keep_invariant (cs : List Call) :
    ∀ w : Window, w.m.mIsChild = false → w.LockInvariant → w.popsMatched cs →
      (w.calls cs).LockInvariant := by
  induction cs with
  | nil => intro w _ h _; exact h
  | cons c cs ih =>
    intro w hroot hinv hm
    obtain ⟨h1, h2⟩ := call_keeps_invariant w c hroot hinv hm.1
    exact ih _ h1 h2 hm.2

theorem popsMatched_take (cs : List Call) :
    ∀ (w : Window) (k : Nat), w.popsMatched cs → w.popsMatched (cs.take k) := by
  induction cs with
  | nil => intro w k h; simpa using h
  | cons c cs ih =>
    intro w k h
    cases k with
    | zero => trivial
    | succ k => exact ⟨h.1, ih _ k h.2⟩

/-- C12 (as amended): on a top-level window on which the invariant holds, as it does
on a window just constructed, take any sequence of calls of `PushUpdateLock`,
`PopUpdateLock`, `Repaint` (either overload) and of the handling of a paint message, in
which no `PopUpdateLock` is called while the count is zero or less.  After every call
of the sequence the update-lock count is not negative and the needs-update flag is set
only while the count is greater than zero. -/
theorem C12_lock_invariant_when_pops_matched (w : Window) (cs : List Call)
    (hroot : w.m.mIsChild = false) (hinv : w.LockInvariant) (hm : w.popsMatched cs) :
    ∀ k : Nat, (w.calls (cs.take k)).LockInvariant :=
  fun k => calls_keep_invariant (cs.take k) w hroot hinv (popsMatched_take cs w k hm)

/-- C12, an instance: a lock is taken, the window is repainted and the lock is
released; the invariant holds at the end. -/
theorem C12_witness_locked_repaints :
    (newRoot.calls [Call.pushUpdateLock, Call.repaint none,
      Call.popUpdateLock]).LockInvariant :=
  C12_lock_invariant_when_pops_matched newRoot
    [Call.pushUpdateLock, Call.repaint none, Call.popUpdateLock]
    rfl (by decide)
    (And.intro (fun h => by cases h) (And.intro (fun h => by cases h)
      (And.intro (fun _ => by decide) trivial))) 3

/-- C12 as stated fails: `PopUpdateLock` on a window just constructed, where no lock is
held, leaves the count at -1, and a `Repaint` after it sets the needs-update flag
while the count is -1. -/
theorem C12_counterexample_pop_without_push :
    ¬ (newRoot.calls [Call.popUpdateLock]).LockInvariant ∧
    (newRoot.calls [Call.popUpdateLock]).m.mUpdateLockCount = -1 ∧
    (newRoot.calls [Call.popUpdateLock, Call.repaint none]).m.mUpdateLockCount = -1 ∧
    (newRoot.calls [Call.popUpdateLock, Call.repaint none]).m.mNeedsUpdate = true := by
  decide

theorem top_below (m : Members) (path : List Members) :
    (below (.mk m none) path).top = .mk m none := by
  induction path with
  | nil => rfl
  | cons node rest ih => exact ih

theorem repaint_child (r : RECT) (node : Members) (parent : Window)
    (hc : node.mIsChild = true) (hi : node.initialized = true) (hv : node.visible = true) :
    (Window.mk node (some parent)).Repaint (some r) =
      .mk node (some (parent.Repaint (some r))) := by
  cases node
  simp only at hc hi hv
  subst hc hi hv
  rfl

theorem repaint_below (r : RECT) (m : Members) (hroot : m.mIsChild = false)
    (hi : m.initialized = true) (hv : m.visible = true) (hc : m.mUpdateLockCount ≠ 0)
    (path : List Members)
    (hp : ∀ node ∈ path, node.mIsChild = true ∧ node.initialized = true ∧ node.visible = true) :
    repaintBelow (.mk m none) (path, r) =
      .mk { m with mNeedsUpdate := true,
                   hostCalls := m.hostCalls ++ [HostCall.invalidateRect (some r)] } none := by
  unfold repaintBelow
  induction path with
  | nil =>
    show (Window.Repaint (some r) (.mk m none)).top = _
    rw [repaint_root_eq (some r) m none hroot]
    simp [hi, hv, hc, Window.top]
  | cons node rest ih =>
    obtain ⟨h1, h2, h3⟩ := hp node (by simp)
    show (Window.Repaint (some r) (.mk node (some (below (.mk m none) rest)))).top = _
    rw [repaint_child r node _ h1 h2 h3]
    exact ih (fun n hn => hp n (by simp [hn]))

theorem repaints_below (calls : List (List Members × RECT)) :
    ∀ (m : Members), m.mIsChild = false → m.initialized = true → m.visible = true →
      m.mUpdateLockCount ≠ 0 →
      (∀ call ∈ calls, ∀ node ∈ call.1,
        node.mIsChild = true ∧ node.initialized = true ∧ node.visible = true) →
      calls.foldl repaintBelow (.mk m none) =
        .mk { m with mNeedsUpdate := m.mNeedsUpdate || !calls.isEmpty,
                     hostCalls := m.hostCalls ++
                       calls.map (fun call => HostCall.invalidateRect (some call.2)) } none := by
  induction calls with
  | nil => intro m _ _ _ _ _; cases m; simp
  | cons call rest ih =>
    intro m hroot hi hv hc hp
    obtain ⟨path, r⟩ := call
    rw [List.foldl_cons, repaint_below r m hroot hi hv hc path (hp (path, r) (by simp))]
    have h2 := ih
      ({ m with
          mNeedsUpdate := true
          hostCalls := m.hostCalls ++ [HostCall.invalidateRect (some r)] } : Members)
      hroot hi hv hc (fun c hc2 => hp c (by simp [hc2]))
    simp only at h2 ⊢
    rw [h2]
    simp

/-- C13 (as amended): on an initialized, visible top-level window whose update-lock
count is 0, `PushUpdateLock`, then one `Repaint` call for each rectangle of a list that
is not empty, each made on the top-level window or on a descendant such that the
descendant and every window between it and the top are child windows that are visible
and initialized, then `PopUpdateLock`: the host is asked to invalidate each of the
rectangles, in order, and to update the window once, at the end; the count ends at 0
and the needs-update flag is false. -/
theorem C13_locked_repaints_update_once (m : Members)
    (calls : List (List Members × RECT))
    (hroot : m.mIsChild = false) (hi : m.initialized = true) (hv : m.visible = true)
    (hc : m.mUpdateLockCount = 0) (hn : calls ≠ [])
    (hp : ∀ call ∈ calls, ∀ node ∈ call.1,
      node.mIsChild = true ∧ node.initialized = true ∧ node.visible = true) :
    ((calls.foldl repaintBelow (Window.mk m none).PushUpdateLock).PopUpdateLock).m.hostCalls =
        m.hostCalls ++ calls.map (fun call => HostCall.invalidateRect (some call.2)) ++
          [HostCall.updateWindow] ∧
    ((calls.foldl repaintBelow (Window.mk m none).PushUpdateLock).PopUpdateLock).m.mUpdateLockCount
        = 0 ∧
    ((calls.foldl repaintBelow (Window.mk m none).PushUpdateLock).PopUpdateLock).m.mNeedsUpdate
        = false := by
  rw [push_root m none hroot]
  have h2 := repaints_below calls
    ({ m with mUpdateLockCount := m.mUpdateLockCount + 1 } : Members)
    hroot hi hv (by simp [hc]) hp
  have hne : calls.isEmpty = false := by
    cases calls with
    | nil => exact absurd rfl hn
    | cons _ _ => rfl
  simp only at h2 ⊢
  rw [h2]
  have h3 := pop_root
    ({ m with
        mUpdateLockCount := m.mUpdateLockCount + 1
        mNeedsUpdate := m.mNeedsUpdate || !calls.isEmpty
        hostCalls := m.hostCalls ++
          calls.map (fun call => HostCall.invalidateRect (some call.2)) } : Members)
    none hroot
  simp only at h3
  rw [h3]
  simp [hc, hne, Window.m]

/-- C13, the instance of three disjoint rectangles: the first is repainted on the
top-level window, the second on a child and the third on a grandchild. -/
theorem C13_witness_three_disjoint_rects :
    ((([([], ⟨0, 0, 10, 10⟩), ([shownChild 1 true], ⟨20, 0, 30, 10⟩),
        ([shownChild 2 true, shownChild 1 true], ⟨40, 0, 50, 10⟩)] :
        List (List Members × RECT)).foldl repaintBelow
      newRoot.PushUpdateLock).PopUpdateLock).m.hostCalls =
      [HostCall.invalidateRect (some ⟨0, 0, 10, 10⟩),
       HostCall.invalidateRect (some ⟨20, 0, 30, 10⟩),
       HostCall.invalidateRect (some ⟨40, 0, 50, 10⟩), HostCall.updateWindow] :=
  (C13_locked_repaints_update_once newRoot.m _ rfl rfl rfl rfl (by decide) (by decide)).1

/-- C13 as stated fails: a `Repaint` on a grandchild that is visible and initialized,
below a child that is visible and has not been initialized, stops at that child; no
rectangle is invalidated and no update is asked for. -/
theorem C13_counterexample_uninitialized_ancestor :
    ((([([shownChild 2 true, shownChild 1 false], ⟨0, 0, 10, 10⟩)] :
        List (List Members × RECT)).foldl repaintBelow
      newRoot.PushUpdateLock).PopUpdateLock).m.hostCalls = [] := by
  decide

theorem setMouseCapture_root (h : Option MessageHandler) (m : Members) (p : Option Window)
    (hroot : m.mIsChild = false) :
    (Window.mk m p).SetMouseCapture h =
      .mk { m with mCaptureHandler := h,
                   hostCalls := m.hostCalls ++ [HostCall.setCapture] } p := by
  cases m
  simp only at hroot
  subst hroot
  cases p <;> rfl

theorem setMouseCapture_child (h : Option MessageHandler) (node : Members) (parent : Window)
    (hc : node.mIsChild = true) :
    (Window.mk node (some parent)).SetMouseCapture h =
      .mk node (some (parent.SetMouseCapture
        (some (h.getD (MessageHandler.window node.self))))) := by
  cases node
  simp only at hc
  subst hc
  cases h <;> rfl

theorem setMouseCapture_below (m : Members) (hroot : m.mIsChild = false)
    (path : List Members) (hp : ∀ node ∈ path, node.mIsChild = true) (h : MessageHandler) :
    ((below (.mk m none) path).SetMouseCapture (some h)).top.m.mCaptureHandler = some h := by
  induction path with
  | nil =>
    show (Window.SetMouseCapture (some h) (.mk m none)).top.m.mCaptureHandler = some h
    rw [setMouseCapture_root (some h) m none hroot]
    rfl
  | cons node rest ih =>
    show (Window.SetMouseCapture (some h) (.mk node (some (below (.mk m none) rest)))).top.m.mCaptureHandler = some h
    rw [setMouseCapture_child (some h) node _ (hp node (by simp))]
    exact ih (fun n hn => hp n (by simp [hn]))

/-- C15 (as amended): below a top-level window, on a chain of child windows with all
parent links in place, `SetMouseCapture` without a handler called on a child makes that
child the capture handler of the top-level window, and `SetMouseCapture` with a
handler `h`, on a child or on the top-level window, makes `h` the capture handler of
the top-level window; called without a handler on the top-level window itself it
leaves the capture handler null. -/
theorem C15_setMouseCapture_binds_handler (m : Members) (path : List Members)
    (hroot : m.mIsChild = false) (hp : ∀ node ∈ path, node.mIsChild = true) :
    (∀ (child : Members) (rest : List Members), path = child :: rest →
      ((below (.mk m none) path).SetMouseCapture none).top.m.mCaptureHandler =
        some (MessageHandler.window child.self)) ∧
    (∀ h : MessageHandler,
      ((below (.mk m none) path).SetMouseCapture (some h)).top.m.mCaptureHandler = some h) ∧
    ((Window.mk m none).SetMouseCapture none).m.mCaptureHandler = none := by
  refine ⟨?_, setMouseCapture_below m hroot path hp, ?_⟩
  · intro child rest hpath
    subst hpath
    show (Window.SetMouseCapture none (.mk child (some (below (.mk m none) rest)))).top.m.mCaptureHandler = _
    rw [setMouseCapture_child none child _ (hp child (by simp))]
    exact setMouseCapture_below m hroot rest (fun n hn => hp n (by simp [hn])) _
  · rw [setMouseCapture_root none m none hroot]
    rfl

/-- C15, an instance: called without a handler on a grandchild, `SetMouseCapture` makes
the grandchild the capture handler of the top-level window. -/
theorem C15_witness_grandchild_captures :
    ((below newRoot [shownChild 2 true, shownChild 1 true]).SetMouseCapture none).top.m.mCaptureHandler
      = some (MessageHandler.window 2) :=
  (C15_setMouseCapture_binds_handler newRoot.m [shownChild 2 true, shownChild 1 true] rfl
    (by decide)).1 _ _ rfl

/-- C15 as stated fails: called without a handler on a top-level window,
`SetMouseCapture` leaves the capture handler null; the window itself is not bound. -/
theorem C15_counterexample_root_without_handler :
    (newRoot.SetMouseCapture none).m.mCaptureHandler = none ∧
    (newRoot.SetMouseCapture none).m.mCaptureHandler ≠
      some (MessageHandler.window newRoot.m.self) := by
  decide

end Chain

namespace Dispatch

theorem hitTest_first (xPos yPos : Int) (before after : List Child) (c : Child)
    (hb : ∀ b ∈ before, b.isHit xPos yPos = false) (hc : c.isHit xPos yPos = true) :
    hitTest xPos yPos (before ++ c :: after) = some c.self := by
  induction before with
  | nil => simp [hitTest, hc]
  | cons b bs ih =>
    have h1 : b.isHit xPos yPos = false := hb b (by simp)
    simp only [List.cons_append, hitTest, h1]
    exact ih (fun x hx => hb x (by simp [hx]))

theorem hitTest_none (xPos yPos : Int) (children : List Child)
    (hb : ∀ b ∈ children, b.isHit xPos yPos = false) : hitTest xPos yPos children = none := by
  induction children with
  | nil => rfl
  | cons b bs ih =>
    have h1 : b.isHit xPos yPos = false := hb b (by simp)
    simp only [hitTest, h1]
    exact ih (fun x hx => hb x (by simp [hx]))

theorem mouseMove_some (w : Window) (hit : Option Nat) (wParam : Nat) (lParam : Int)
    (d : MessageHandler) (hd : w.msgHandler = some d) :
    mouseMove w hit wParam lParam =
      some ({ w with isTrackingMouse := w.isTrackingMouse || !w.mIsChild, activeChild := hit },
        (if (!w.mIsChild && !w.isTrackingMouse) = true then [Step.trackMouseEvent] else []) ++
        (if hit ≠ w.activeChild then
          match w.activeChild with
          | some a => [Step.handle (MessageHandler.window a) WM_MOUSELEAVE 0 0]
          | none => [Step.handle d WM_MOUSEMOVE wParam lParam]
         else [])) := by
  obtain ⟨c, ch, a, cap, fw, tr, mh, mi, ti, um⟩ := w
  simp only at hd
  subst hd
  unfold mouseMove
  by_cases hh : hit = a
  · subst hh
    cases c <;> cases tr <;> simp
  · cases c <;> cases tr <;> cases a <;> simp [hh]

theorem handleMessage_forwarded (host : Host) (w : Window) (msg wParam : Nat) (lParam : Int)
    (hmouse : WM_MOUSEFIRST ≤ msg ∧ msg ≤ WM_MOUSELAST) (hfw : w.mDontForwardMouse = false) :
    w.HandleMessage host msg wParam lParam = mouseMessage host w msg wParam lParam := by
  unfold Window.HandleMessage
  rw [if_pos ⟨hmouse.1, hmouse.2, hfw⟩]

theorem handleMessage_unforwarded (host : Host) (w : Window) (msg wParam : Nat) (lParam : Int)
    (hmouse : WM_MOUSEFIRST ≤ msg ∧ msg ≤ WM_MOUSELAST) (hfw : w.mDontForwardMouse = true) :
    w.HandleMessage host msg wParam lParam = some (userOrDefault host w [] msg wParam lParam) := by
  unfold WM_MOUSEFIRST WM_MOUSELAST at hmouse
  unfold Window.HandleMessage keyboardMessage
  simp only [WM_MOUSEFIRST, WM_MOUSELAST, WM_KEYFIRST, WM_KEYLAST, WM_MOUSELEAVE, WM_ERASEBKGND,
    WM_PAINT, WM_TIMER, WM_SETTINGCHANGE, WM_DISPLAYCHANGE, WM_WINDOWPOSCHANGING,
    WM_DWMCOLORIZATIONCOLORCHANGED]
  rw [if_neg (by simp [hfw])]
  repeat rw [if_neg (by omega)]

theorem userOrDefault_unregistered (host : Host) (w : Window) (log : List Step)
    (msg wParam : Nat) (lParam : Int) (h : msg < WM_FIRSTREGISTERED) :
    userOrDefault host w log msg wParam lParam =
      match w.msgHandler with
      | some d =>
        if w.msgHandlerInitialized then
          { window := w, log := log ++ [Step.handle d msg wParam lParam],
            result := host.answer d msg wParam lParam }
        else
          { window := w, log := log ++ [Step.defWindowProc msg wParam lParam],
            result := host.defWindowProc msg wParam lParam }
      | none =>
        { window := w, log := log ++ [Step.defWindowProc msg wParam lParam],
          result := host.defWindowProc msg wParam lParam } := by
  unfold userOrDefault
  have h1 : ¬ WM_FIRSTREGISTERED ≤ msg := not_le.2 h
  simp only [h1, if_false]

/-- C14 (as amended): on a window with a capture handler `h` set, for every mouse
message at any cursor position, whatever the children and the active child:
while the forwarding of mouse messages is enabled, `HandleMessage` hands the message to
`h` and to no other handler and returns what `h` returns; while it is disabled, the
capture handler is passed over, and the message goes to the default handler of the
window when that is initialized. -/
theorem C14_capture_when_forwarding (host : Host) (w : Window) (h : MessageHandler)
    (msg wParam : Nat) (lParam : Int) (hcap : w.mCaptureHandler = some h)
    (hmouse : WM_MOUSEFIRST ≤ msg ∧ msg ≤ WM_MOUSELAST) :
    (w.mDontForwardMouse = false →
      w.HandleMessage host msg wParam lParam =
        some { window := w
               log := [Step.pushUpdateLock, Step.handle h msg wParam lParam, Step.popUpdateLock]
               result := host.answer h msg wParam lParam }) ∧
    (w.mDontForwardMouse = true →
      ∀ d, w.msgHandler = some d → w.msgHandlerInitialized = true →
        w.HandleMessage host msg wParam lParam =
          some { window := w
                 log := [Step.handle d msg wParam lParam]
                 result := host.answer d msg wParam lParam }) := by
  constructor
  · intro hfw
    rw [handleMessage_forwarded host w msg wParam lParam hmouse hfw]
    unfold mouseMessage
    simp [hcap]
  · intro hfw d hd hi
    rw [handleMessage_unforwarded host w msg wParam lParam hmouse hfw,
      userOrDefault_unregistered host w [] msg wParam lParam
        (by unfold WM_FIRSTREGISTERED WM_USER; unfold WM_MOUSELAST at hmouse; omega)]
    simp [hd, hi]

/-- C14, an instance: with the forwarding enabled, a click over the second child of a
window whose capture handler is the object 7 goes to the object 7 only. -/
theorem C14_witness_click_goes_to_capture_handler :
    ((capturingWindow false).HandleMessage sampleHost WM_LBUTTONDOWN 0 at10x10).map
        (fun out => (out.log, out.result)) =
      some ([Step.pushUpdateLock,
        Step.handle (MessageHandler.object 7) WM_LBUTTONDOWN 0 at10x10,
        Step.popUpdateLock], 107) := by
  rw [(C14_capture_when_forwarding sampleHost (capturingWindow false)
    (MessageHandler.object 7) WM_LBUTTONDOWN 0 at10x10 rfl (by decide)).1 rfl]
  rfl

/-- C14 as stated fails: with the forwarding of mouse messages disabled, the same click
goes to the default handler, the object 0, and not to the capture handler. -/
theorem C14_counterexample_forwarding_disabled :
    ((capturingWindow true).HandleMessage sampleHost WM_LBUTTONDOWN 0 at10x10).map
        (fun out => handled out.log) =
      some [(MessageHandler.object 0, WM_LBUTTONDOWN)] := by
  decide

theorem mouseMessage_uncaptured (host : Host) (w : Window) (d : MessageHandler)
    (msg wParam : Nat) (lParam : Int)
    (hcap : w.mCaptureHandler = none) (hd : w.msgHandler = some d) :
    mouseMessage host w msg wParam lParam =
      some { window :=
               if msg = WM_MOUSEMOVE then
                 { w with isTrackingMouse := w.isTrackingMouse || !w.mIsChild,
                          activeChild :=
                            hitTest (GET_X_LPARAM lParam) (GET_Y_LPARAM lParam) w.children }
               else w
             log := ([Step.pushUpdateLock] ++
               (if msg = WM_MOUSEMOVE then
                 (if (!w.mIsChild && !w.isTrackingMouse) = true then [Step.trackMouseEvent]
                  else []) ++
                 (if hitTest (GET_X_LPARAM lParam) (GET_Y_LPARAM lParam) w.children ≠
                     w.activeChild then
                   match w.activeChild with
                   | some a => [Step.handle (MessageHandler.window a) WM_MOUSELEAVE 0 0]
                   | none => [Step.handle d WM_MOUSEMOVE wParam lParam]
                  else [])
                else [])) ++
               [Step.handle
                  (((hitTest (GET_X_LPARAM lParam) (GET_Y_LPARAM lParam) w.children).map
                    MessageHandler.window).getD d) msg wParam lParam,
                Step.popUpdateLock]
             result := host.answer
               (((hitTest (GET_X_LPARAM lParam) (GET_Y_LPARAM lParam) w.children).map
                 MessageHandler.window).getD d) msg wParam lParam } := by
  unfold mouseMessage
  by_cases hm : msg = WM_MOUSEMOVE
  · simp only [hcap, hm, if_true, mouseMove_some w _ wParam lParam d hd]
    cases hitTest (GET_X_LPARAM lParam) (GET_Y_LPARAM lParam) w.children <;> simp [hd]
  · simp only [hcap, hm, if_false]
    cases hitTest (GET_X_LPARAM lParam) (GET_Y_LPARAM lParam) w.children <;> simp [hd]

/-- The coordinates that `GET_X_LPARAM` and `GET_Y_LPARAM` read: the signed 16-bit
values whose words are the low and the high word of `lParam`. -/
theorem get_lparam_point (lParam x y : Int)
    (hx : -32768 ≤ x ∧ x < 32768 ∧ lParam % 65536 = x % 65536)
    (hy : -32768 ≤ y ∧ y < 32768 ∧ lParam / 65536 % 65536 = y % 65536) :
    GET_X_LPARAM lParam = x ∧ GET_Y_LPARAM lParam = y := by
  unfold GET_X_LPARAM GET_Y_LPARAM toShort
  rw [hx.2.2, hy.2.2]
  constructor
  · split <;> omega
  · split <;> omega

/-- Every `lParam` holds a cursor position of that kind. -/
theorem lparam_has_point (lParam : Int) :
    ∃ x y : Int, (-32768 ≤ x ∧ x < 32768 ∧ lParam % 65536 = x % 65536) ∧
      (-32768 ≤ y ∧ y < 32768 ∧ lParam / 65536 % 65536 = y % 65536) := by
  refine ⟨GET_X_LPARAM lParam, GET_Y_LPARAM lParam, ?_, ?_⟩
  · unfold GET_X_LPARAM toShort
    split <;> omega
  · unfold GET_Y_LPARAM toShort
    split <;> omega

theorem isHit_iff (c : Child) (x y : Int) :
    c.isHit x y = true ↔
      c.clickThrough = false ∧ c.drawingArea.left ≤ x ∧ x ≤ c.drawingArea.right ∧
        c.drawingArea.top ≤ y ∧ y ≤ c.drawingArea.bottom := by
  unfold Child.isHit
  simp only [Bool.and_eq_true, Bool.not_eq_true', decide_eq_true_eq, ge_iff_le]
  tauto

theorem isHit_false_of_outside (c : Child) (x y : Int)
    (h : c.clickThrough = true ∨ x < c.drawingArea.left ∨ c.drawingArea.right < x ∨
      y < c.drawingArea.top ∨ c.drawingArea.bottom < y) : c.isHit x y = false := by
  cases hc : c.isHit x y with
  | false => rfl
  | true =>
    obtain ⟨h1, h2, h3, h4, h5⟩ := (isHit_iff c x y).1 hc
    rcases h with h | h | h | h | h
    · rw [h1] at h; cases h
    · omega
    · omega
    · omega
    · omega

/-- C16: on a window with no capture handler, the forwarding of mouse messages enabled
and a default handler `d`, for every mouse message whose `lParam` holds the cursor
position `(x, y)` (the low word is `x` and the high word is `y`, as signed 16-bit
values): when `c` is the first child, in the order of the children list, that is not
click-through and whose drawing rectangle contains `(x, y)`, the bounds included, the
last handler called is `c`, with the message, and its result is returned; when every
child is click-through or has `(x, y)` outside its drawing rectangle, it is `d`.  When
the message is not a mouse move nothing else is done: the window is unchanged and only
the update lock comes before the call. -/
theorem C16_mouse_message_to_first_hit_child (host : Host) (w : Window) (d : MessageHandler)
    (msg wParam : Nat) (lParam x y : Int)
    (hcap : w.mCaptureHandler = none) (hfw : w.mDontForwardMouse = false)
    (hd : w.msgHandler = some d) (hmouse : WM_MOUSEFIRST ≤ msg ∧ msg ≤ WM_MOUSELAST)
    (hx : -32768 ≤ x ∧ x < 32768 ∧ lParam % 65536 = x % 65536)
    (hy : -32768 ≤ y ∧ y < 32768 ∧ lParam / 65536 % 65536 = y % 65536) :
    (∀ (before after : List Child) (c : Child), w.children = before ++ c :: after →
      (∀ b ∈ before, b.clickThrough = true ∨ x < b.drawingArea.left ∨
        b.drawingArea.right < x ∨ y < b.drawingArea.top ∨ b.drawingArea.bottom < y) →
      c.clickThrough = false →
      (c.drawingArea.left ≤ x ∧ x ≤ c.drawingArea.right ∧
        c.drawingArea.top ≤ y ∧ y ≤ c.drawingArea.bottom) →
      ∃ w1 before1, w.HandleMessage host msg wParam lParam =
        some { window := w1
               log := before1 ++ [Step.handle (MessageHandler.window c.self) msg wParam lParam,
                 Step.popUpdateLock]
               result := host.answer (MessageHandler.window c.self) msg wParam lParam } ∧
        (msg ≠ WM_MOUSEMOVE → w1 = w ∧ before1 = [Step.pushUpdateLock])) ∧
    ((∀ b ∈ w.children, b.clickThrough = true ∨ x < b.drawingArea.left ∨
        b.drawingArea.right < x ∨ y < b.drawingArea.top ∨ b.drawingArea.bottom < y) →
      ∃ w1 before1, w.HandleMessage host msg wParam lParam =
        some { window := w1
               log := before1 ++ [Step.handle d msg wParam lParam, Step.popUpdateLock]
               result := host.answer d msg wParam lParam } ∧
        (msg ≠ WM_MOUSEMOVE → w1 = w ∧ before1 = [Step.pushUpdateLock])) := by
  obtain ⟨hgx, hgy⟩ := get_lparam_point lParam x y hx hy
  rw [handleMessage_forwarded host w msg wParam lParam hmouse hfw,
    mouseMessage_uncaptured host w d msg wParam lParam hcap hd, hgx, hgy]
  constructor
  · intro before after c hch hb hct hin
    have hhit : hitTest x y w.children = some c.self := by
      rw [hch]
      exact hitTest_first _ _ before after c
        (fun b hbm => isHit_false_of_outside b x y (hb b hbm))
        ((isHit_iff c x y).2 ⟨hct, hin⟩)
    rw [hhit]
    refine ⟨_, _, rfl, ?_⟩
    intro hm
    simp [hm]
  · intro hb
    have hhit : hitTest x y w.children = none :=
      hitTest_none _ _ _ (fun b hbm => isHit_false_of_outside b x y (hb b hbm))
    rw [hhit]
    refine ⟨_, _, rfl, ?_⟩
    intro hm
    simp [hm]

/-- C16, two instances on a window with four children.  A click at (10, 12) lies
outside the first child, over the click-through second child and over the third and
the fourth child: it goes to the third child.  A click at (200, 200) lies over no
child: it goes to the default handler, the object 0. -/
theorem C16_witness_click_on_third_child :
    (layeredWindow.HandleMessage sampleHost WM_LBUTTONDOWN 0 at10x12).map
        (fun out => (out.log, out.result)) =
      some ([Step.pushUpdateLock,
        Step.handle (MessageHandler.window 3) WM_LBUTTONDOWN 0 at10x12,
        Step.popUpdateLock], 3) ∧
    (layeredWindow.HandleMessage sampleHost WM_LBUTTONDOWN 0 at200x200).map
        (fun out => (out.log, out.result)) =
      some ([Step.pushUpdateLock,
        Step.handle (MessageHandler.object 0) WM_LBUTTONDOWN 0 at200x200,
        Step.popUpdateLock], 100) := by
  constructor
  · obtain ⟨w1, before1, he, hrest⟩ :=
      (C16_mouse_message_to_first_hit_child sampleHost layeredWindow (MessageHandler.object 0)
        WM_LBUTTONDOWN 0 at10x12 10 12 rfl rfl rfl (by decide) (by decide) (by decide)).1
        [⟨1, false, ⟨20, 20, 60, 60⟩⟩, ⟨2, true, ⟨0, 0, 50, 50⟩⟩]
        [⟨4, false, ⟨0, 0, 100, 100⟩⟩] ⟨3, false, ⟨5, 5, 50, 50⟩⟩
        rfl (by decide) rfl (by decide)
    obtain ⟨_, hb⟩ := hrest (by decide)
    rw [he, hb]
    rfl
  · obtain ⟨w1, before1, he, hrest⟩ :=
      (C16_mouse_message_to_first_hit_child sampleHost layeredWindow (MessageHandler.object 0)
        WM_LBUTTONDOWN 0 at200x200 200 200 rfl rfl rfl (by decide) (by decide) (by decide)).2
        (by decide)
    obtain ⟨_, hb⟩ := hrest (by decide)
    rw [he, hb]
    rfl

/-- C17: on a window with no capture handler, the forwarding of mouse messages enabled
and a default handler `d`, a mouse-move message with hit target `t` (the first child
hit, or none) is answered, and the active child is `t` afterwards.  The calls are, in
order: the update lock; `TrackMouseEvent` on a top-level window that is not tracking the
mouse; when `t` differs from the active child `a`, a mouse-leave to `a` if there is one
and a mouse-move to `d` otherwise, and nothing when `t` equals `a`; the mouse-move to
the target. -/
theorem C17_mouse_move_changes_active_child (host : Host) (w : Window) (d : MessageHandler)
    (wParam : Nat) (lParam : Int)
    (hcap : w.mCaptureHandler = none) (hfw : w.mDontForwardMouse = false)
    (hd : w.msgHandler = some d) :
    ∃ out, w.HandleMessage host WM_MOUSEMOVE wParam lParam = some out ∧
      out.window.activeChild = hitTest (GET_X_LPARAM lParam) (GET_Y_LPARAM lParam) w.children ∧
      out.log =
        [Step.pushUpdateLock] ++
        (if w.mIsChild = false ∧ w.isTrackingMouse = false then [Step.trackMouseEvent] else []) ++
        (if hitTest (GET_X_LPARAM lParam) (GET_Y_LPARAM lParam) w.children ≠ w.activeChild then
          match w.activeChild with
          | some a => [Step.handle (MessageHandler.window a) WM_MOUSELEAVE 0 0]
          | none => [Step.handle d WM_MOUSEMOVE wParam lParam]
         else []) ++
        [Step.handle
          (((hitTest (GET_X_LPARAM lParam) (GET_Y_LPARAM lParam) w.children).map
            MessageHandler.window).getD d) WM_MOUSEMOVE wParam lParam,
         Step.popUpdateLock] := by
  rw [handleMessage_forwarded host w WM_MOUSEMOVE wParam lParam (by decide) hfw,
    mouseMessage_uncaptured host w d WM_MOUSEMOVE wParam lParam hcap hd]
  refine ⟨_, rfl, ?_, ?_⟩
  · simp
  · simp

/-- C17, an instance: the mouse moves from the third child to (10, 10), over the second
child; the third child is told that the mouse left and the second child becomes the
active child. -/
theorem C17_witness_move_from_third_to_second_child :
    ∃ out, (hoveredWindow 3).HandleMessage sampleHost WM_MOUSEMOVE 0 at10x10 = some out ∧
      out.window.activeChild = some 2 ∧
      out.log = [Step.pushUpdateLock, Step.trackMouseEvent,
        Step.handle (MessageHandler.window 3) WM_MOUSELEAVE 0 0,
        Step.handle (MessageHandler.window 2) WM_MOUSEMOVE 0 at10x10,
        Step.popUpdateLock] := by
  obtain ⟨out, he, ha, hl⟩ :=
    C17_mouse_move_changes_active_child sampleHost (hoveredWindow 3)
      (MessageHandler.object 0) 0 at10x10 rfl rfl rfl
  refine ⟨out, he, ?_, ?_⟩
  · rw [ha]; decide
  · rw [hl]; decide

/-- C18: for every timer message with id `t`: when the timer table maps `t` to a
handler, `HandleMessage` hands the message to that handler and to no other, and returns
its result; when `t` is not in the table, no handler is called, the default one
included, and `HandleMessage` returns 0. -/
theorem C18_timer_message (host : Host) (w : Window) (t : Nat) (lParam : Int) :
    (∀ h, find t w.timers = some h →
      w.HandleMessage host WM_TIMER t lParam =
        some { window := w
               log := [Step.pushUpdateLock, Step.handle h WM_TIMER t lParam, Step.popUpdateLock]
               result := host.answer h WM_TIMER t lParam }) ∧
    (find t w.timers = none →
      w.HandleMessage host WM_TIMER t lParam =
        some { window := w, log := [Step.pushUpdateLock, Step.popUpdateLock], result := 0 }) := by
  constructor
  · intro h hf
    unfold Window.HandleMessage keyboardMessage
    simp [WM_TIMER, WM_MOUSEFIRST, WM_MOUSELAST, WM_KEYFIRST, WM_KEYLAST, WM_MOUSELEAVE,
      WM_ERASEBKGND, WM_PAINT, hf]
  · intro hf
    unfold Window.HandleMessage keyboardMessage
    simp [WM_TIMER, WM_MOUSEFIRST, WM_MOUSELAST, WM_KEYFIRST, WM_KEYLAST, WM_MOUSELEAVE,
      WM_ERASEBKGND, WM_PAINT, hf]

/-- C18, an instance: the timer 1 of the sample window goes to its handler, the
object 11, whose result is returned. -/
theorem C18_witness_known_timer :
    (sampleWindow.HandleMessage sampleHost WM_TIMER 1 0).map
        (fun out => (handled out.log, out.result)) =
      some ([(MessageHandler.object 11, WM_TIMER)], 111) := by
  rw [(C18_timer_message sampleHost sampleWindow 1 0).1 (MessageHandler.object 11) rfl]
  rfl

theorem handleMessage_user_range (host : Host) (w : Window) (msg wParam : Nat) (lParam : Int)
    (hm : WM_FIRSTREGISTERED ≤ msg) :
    w.HandleMessage host msg wParam lParam = some (userOrDefault host w [] msg wParam lParam) := by
  unfold WM_FIRSTREGISTERED WM_USER at hm
  unfold Window.HandleMessage keyboardMessage
  simp only [WM_MOUSEFIRST, WM_MOUSELAST, WM_KEYFIRST, WM_KEYLAST, WM_MOUSELEAVE, WM_ERASEBKGND,
    WM_PAINT, WM_TIMER, WM_SETTINGCHANGE, WM_DISPLAYCHANGE, WM_WINDOWPOSCHANGING,
    WM_DWMCOLORIZATIONCOLORCHANGED]
  repeat rw [if_neg (by omega)]

/-- C19 (as amended): for every message code from `WM_FIRSTREGISTERED` on: when the
user-message table maps the code to a handler, `HandleMessage` hands the message to that
handler and to no other; when the code is not in the table, the message goes to the
default handler of the window if there is one and it is initialized, and to
`DefWindowProc` otherwise. -/
theorem C19_user_message (host : Host) (w : Window) (msg wParam : Nat) (lParam : Int)
    (hm : WM_FIRSTREGISTERED ≤ msg) :
    (∀ h, find msg w.userMessages = some h →
      w.HandleMessage host msg wParam lParam =
        some { window := w
               log := [Step.pushUpdateLock, Step.handle h msg wParam lParam, Step.popUpdateLock]
               result := host.answer h msg wParam lParam }) ∧
    (find msg w.userMessages = none →
      (∀ d, w.msgHandler = some d → w.msgHandlerInitialized = true →
        w.HandleMessage host msg wParam lParam =
          some { window := w
                 log := [Step.pushUpdateLock, Step.popUpdateLock,
                   Step.handle d msg wParam lParam]
                 result := host.answer d msg wParam lParam }) ∧
      ((w.msgHandler = none ∨ w.msgHandlerInitialized = false) →
        w.HandleMessage host msg wParam lParam =
          some { window := w
                 log := [Step.pushUpdateLock, Step.popUpdateLock,
                   Step.defWindowProc msg wParam lParam]
                 result := host.defWindowProc msg wParam lParam })) := by
  rw [handleMessage_user_range host w msg wParam lParam hm]
  refine ⟨?_, ?_⟩
  · intro h hf
    simp [userOrDefault, hm, hf]
  · intro hf
    refine ⟨?_, ?_⟩
    · intro d hd hi
      simp [userOrDefault, hm, hf, hd, hi]
    · intro hn
      rcases hn with hn | hn
      · simp [userOrDefault, hm, hf, hn]
      · cases hmh : w.msgHandler <;> simp [userOrDefault, hm, hf, hn, hmh]

/-- C19, an instance: the registered message of the sample window goes to its handler,
the object 21. -/
theorem C19_witness_registered_message :
    (sampleWindow.HandleMessage sampleHost WM_FIRSTREGISTERED 0 0).map
        (fun out => (handled out.log, out.result)) =
      some ([(MessageHandler.object 21, WM_FIRSTREGISTERED)], 121) := by
  rw [(C19_user_message sampleHost sampleWindow WM_FIRSTREGISTERED 0 0 (by decide)).1
    (MessageHandler.object 21) rfl]
  rfl

/-- C19 as stated fails: a message code above `WM_FIRSTREGISTERED` that is not in the
user-message table is not ignored; the default handler, the object 0, is called with
it. -/
theorem C19_counterexample_unregistered_message :
    find (WM_FIRSTREGISTERED + 1) sampleWindow.userMessages = none ∧
    (sampleWindow.HandleMessage sampleHost (WM_FIRSTREGISTERED + 1) 0 0).map
        (fun out => handled out.log) =
      some [(MessageHandler.object 0, WM_FIRSTREGISTERED + 1)] := by
  decide

end Dispatch

namespace Painting

theorem adds_eq (ops : List Add) :
    ∀ (v : Bool) (a : RectF) (s : Nat) (pre : List Nat) (overlays : List Overlays.Overlay)
      (children : List Window) (post : List Nat) (an : Bool),
      (Window.mk v a s pre overlays children post an).adds ops =
        .mk v a s (pre ++ prePaintersOf ops) (insertAll overlays (overlaysOf ops))
          (children ++ childrenOf ops) (post ++ postPaintersOf ops) an := by
  induction ops with
  | nil => intro v a s pre overlays children post an; simp [Window.adds, prePaintersOf,
      insertAll, overlaysOf, childrenOf, postPaintersOf]
  | cons op rest ih =>
    intro v a s pre overlays children post an
    cases op <;>
      simp [Window.adds, Window.add, ih, prePaintersOf, insertAll, overlaysOf, childrenOf,
        postPaintersOf]

theorem insertAll_sorted (added : List Overlays.Overlay) :
    ∀ overlays, Overlays.SortedByZOrder overlays →
      Overlays.SortedByZOrder (insertAll overlays added) := by
  induction added with
  | nil => intro overlays h; exact h
  | cons o rest ih =>
    intro overlays h
    exact ih _ (Overlays.insertOverlay_sorted o overlays h)

theorem insertOverlay_perm (o : Overlays.Overlay) (l : List Overlays.Overlay) :
    (Overlays.insertOverlay o l).Perm (o :: l) := by
  induction l with
  | nil => simp [Overlays.insertOverlay]
  | cons t ts ih =>
    unfold Overlays.insertOverlay
    split
    · exact (List.Perm.cons t ih).trans (List.Perm.swap o t ts)
    · exact List.Perm.refl _

theorem insertAll_perm (added : List Overlays.Overlay) :
    ∀ overlays, (insertAll overlays added).Perm (overlays ++ added) := by
  induction added with
  | nil => intro overlays; simp [insertAll]
  | cons o rest ih =>
    intro overlays
    refine (ih _).trans ?_
    refine ((insertOverlay_perm o overlays).append_right rest).trans ?_
    simpa using (@List.perm_middle _ o overlays rest).symm

theorem paintChildren_append (area : RectF → RectF → Int) (r : RectF) (l1 l2 : List Window) :
    paintChildren area r (l1 ++ l2) = paintChildren area r l1 ++ paintChildren area r l2 := by
  induction l1 with
  | nil => simp [paintChildren]
  | cons c cs ih => simp [paintChildren, ih]

end Painting

namespace Surface

/-- C23 (as amended): on a child window with a parent, `Show` sets the visibility flag
and does nothing else: no repaint is requested, the parent and the windows above it
are as they were; `Hide` clears the flag and calls `Repaint` on the parent with the
drawing rectangle of the child.  Neither makes a call on the host window. -/
theorem C23_show_and_hide_of_child (m : Chain.Members) (parent : Chain.Window)
    (alwaysOnTop covered : Bool) (surface : List SurfaceCall) (nCmdShow : Int)
    (hchild : m.mIsChild = true) :
    Window.Show nCmdShow ⟨.mk m (some parent), alwaysOnTop, covered, surface⟩ =
      ⟨.mk { m with visible := true } (some parent), alwaysOnTop, covered, surface⟩ ∧
    Window.Hide ⟨.mk m (some parent), alwaysOnTop, covered, surface⟩ =
      some ⟨.mk { m with visible := false }
        (some (parent.Repaint (some (Chain.toRECT m.drawingArea)))),
        alwaysOnTop, covered, surface⟩ := by
  constructor
  · simp [Window.Show, hchild]
  · simp [Window.Hide, hchild]

/-- C23, an instance: `Hide` on a shown child at (10, 10, 30, 30) of a top-level window
makes the host invalidate that rectangle; nothing is called on the host window. -/
theorem C23_witness_hide_repaints_parent :
    ((childOfNewRoot true).Hide.map
        (fun w => (w.chain.m.visible, w.chain.top.m.hostCalls, w.surface))) =
      some (false, [Chain.HostCall.invalidateRect (some ⟨10, 10, 30, 30⟩),
        Chain.HostCall.updateWindow], []) := by
  rw [show childOfNewRoot true =
    ⟨.mk (childAt10 true) (some Chain.newRoot), false, false, []⟩ from rfl,
    (C23_show_and_hide_of_child (childAt10 true) Chain.newRoot false false [] 0 rfl).2]
  decide

/-- C23 as stated fails: `Show` on a hidden child of a top-level window sets the flag
and requests no repaint; the parent is left as it was and the host is asked
nothing, where `Hide` on the same child makes the host invalidate the rectangle. -/
theorem C23_counterexample_show_requests_no_repaint :
    ((childOfNewRoot false).Show SW_SHOWNOACTIVATE).chain.m.visible = true ∧
    ((childOfNewRoot false).Show SW_SHOWNOACTIVATE).chain.top.m.hostCalls = [] ∧
    ((childOfNewRoot true).Hide.map (fun w => w.chain.top.m.hostCalls)) =
      some [Chain.HostCall.invalidateRect (some ⟨10, 10, 30, 30⟩),
        Chain.HostCall.updateWindow] := by
  decide

/-- C26 (a defect of the code): `SetAlwaysOnTop(value)` assigns `true` to the setting
whatever the value: after `SetAlwaysOnTop(false)` the setting is `true`, also on a
window where it was `false` before. -/
theorem C26_setAlwaysOnTop_ignores_value (w : Window) (value : Bool) :
    (w.SetAlwaysOnTop value).alwaysOnTop = true ∧
    (plainRoot.SetAlwaysOnTop false).alwaysOnTop ≠ false ∧
    plainRoot.alwaysOnTop = false := by
  refine ⟨rfl, by decide, rfl⟩

/-- C25 (a defect of the code): on a child window whose parent link is null, `Hide`
calls `Repaint` through the null link.  The other functions test the link: `Repaint`
(both overloads), `PushUpdateLock`, `PopUpdateLock`, `SetMouseCapture`,
`ReleaseMouseCapture`, `ClearCallbackTimer` and `ReleaseUserMessage` leave the window
as it was, `SetPosition` stores the position and leaves the drawing area as it was,
and `SetCallbackTimer` and `RegisterUserMessage` return 0 and register nothing. -/
theorem C25_hide_dereferences_null_parent (m : Chain.Members) (alwaysOnTop covered : Bool)
    (surface : List SurfaceCall) (region : Option RECT) (regionF : Option RectF)
    (handler : Option MessageHandler) (r : Registry.Members) (id ret elapse : Nat)
    (h : MessageHandler) (self msgHandler : Nat) (s : Tree.WindowSettings) (area : RectF)
    (children : List Tree.Window) (x y width height extra : Int) :
    Window.Hide ⟨.mk { m with mIsChild := true } none, alwaysOnTop, covered, surface⟩ = none ∧
    (Chain.Window.mk { m with mIsChild := true } none).Repaint region =
      .mk { m with mIsChild := true } none ∧
    (Chain.Window.mk { m with mIsChild := true } none).RepaintF regionF =
      .mk { m with mIsChild := true } none ∧
    (Chain.Window.mk { m with mIsChild := true } none).PushUpdateLock =
      .mk { m with mIsChild := true } none ∧
    (Chain.Window.mk { m with mIsChild := true } none).PopUpdateLock =
      .mk { m with mIsChild := true } none ∧
    (Chain.Window.mk { m with mIsChild := true } none).SetMouseCapture handler =
      .mk { m with mIsChild := true } none ∧
    (Registry.Window.mk { r with mIsChild := true } none).ReleaseMouseCapture =
      .mk { r with mIsChild := true } none ∧
    (Registry.Window.mk { r with mIsChild := true } none).ClearCallbackTimer id =
      .mk { r with mIsChild := true } none ∧
    (Registry.Window.mk { r with mIsChild := true } none).ReleaseUserMessage id =
      .mk { r with mIsChild := true } none ∧
    (Registry.Window.mk { r with mIsChild := true } none).SetCallbackTimer id ret elapse h =
      (.mk { r with mIsChild := true } none, 0) ∧
    (Registry.Window.mk { r with mIsChild := true } none).RegisterUserMessage id h =
      (.mk { r with mIsChild := true } none, 0) ∧
    ((Tree.Window.mk self msgHandler true s area children).SetPosition none x y width height
        extra).1.drawingArea = area ∧
    ((Tree.Window.mk self msgHandler true s area children).SetPosition none x y width height
        extra).1.drawingSettings = ⟨x, y, width, height⟩ := by
  refine ⟨rfl, ?_, ?_, rfl, rfl, ?_, rfl, rfl, rfl, rfl, rfl, ?_, ?_⟩
  · cases hv : (m.initialized && m.visible) <;> simp [Chain.Window.Repaint, hv]
  · cases hv : (m.initialized && m.visible) <;>
      simp [Chain.Window.RepaintF, Chain.Window.Repaint, Chain.Window.m, hv]
  · cases handler <;> rfl
  · simp [Tree.Window.SetPosition, Tree.Window.drawingArea, Tree.newDrawingArea]
  · simp [Tree.Window.SetPosition, Tree.Window.drawingSettings]

end Surface

namespace Dispatch

theorem unlocked_append (a b : List Step) :
    ∀ count : Int, unlocked count (a ++ b) = unlocked count a ++ unlocked (countAfter count a) b := by
  induction a with
  | nil => intro count; rfl
  | cons s rest ih =>
    intro count
    cases s <;> simp [unlocked, countAfter, ih]

theorem countAfter_append (a b : List Step) :
    ∀ count : Int, countAfter count (a ++ b) = countAfter (countAfter count a) b := by
  induction a with
  | nil => intro count; rfl
  | cons s rest ih =>
    intro count
    cases s <;> simp [countAfter, ih]

theorem keys_locked (w : Window) (msg wParam : Nat) (lParam : Int) (count : Int)
    (h : 0 ≤ count) :
    unlocked count (keyboardMessage w msg wParam lParam) = [] ∧
    countAfter count (keyboardMessage w msg wParam lParam) = count := by
  have h1 : ¬ count + 1 ≤ 0 := by omega
  unfold keyboardMessage
  split
  · cases w.activeChild <;> simp [unlocked, countAfter, h1]
  · simp [unlocked, countAfter]

theorem userOrDefault_unlocked (host : Host) (w : Window) (log : List Step) (msg wParam : Nat)
    (lParam : Int) (count : Int) (h : 0 ≤ count) (hl : unlocked count log = [])
    (hc : countAfter count log = count) :
    unlocked count (userOrDefault host w log msg wParam lParam).log = [] ∨
    (count = 0 ∧ ∃ d, w.msgHandler = some d ∧ w.msgHandlerInitialized = true ∧
      (WM_FIRSTREGISTERED ≤ msg → find msg w.userMessages = none) ∧
      unlocked count (userOrDefault host w log msg wParam lParam).log = [(d, msg)]) := by
  have h1 : ¬ count + 1 ≤ 0 := by omega
  unfold userOrDefault
  by_cases hm : WM_FIRSTREGISTERED ≤ msg
  · simp only [hm, if_true]
    cases hf : find msg w.userMessages with
    | some u =>
      left
      simp [unlocked_append, countAfter_append, hl, hc, unlocked, countAfter, h1]
    | none =>
      cases hd : w.msgHandler with
      | some d =>
        cases hi : w.msgHandlerInitialized
        · left
          simp [unlocked_append, countAfter_append, hl, hc, unlocked, countAfter]
        · by_cases h0 : count = 0
          · right
            subst h0
            refine ⟨rfl, d, rfl, rfl, fun _ => rfl, ?_⟩
            simp [unlocked_append, countAfter_append, hl, hc, unlocked, countAfter]
          · left
            have h2 : ¬ count ≤ 0 := by omega
            simp [unlocked_append, countAfter_append, hl, hc, unlocked, countAfter, h2]
      | none =>
        left
        simp [unlocked_append, countAfter_append, hl, hc, unlocked, countAfter]
  · simp only [hm, if_false]
    cases hd : w.msgHandler with
    | some d =>
      cases hi : w.msgHandlerInitialized
      · left
        simp [unlocked_append, hl, hc, unlocked]
      · by_cases h0 : count = 0
        · right
          subst h0
          refine ⟨rfl, d, rfl, rfl, fun hx => hx.elim, ?_⟩
          simp [unlocked_append, hl, hc, unlocked]
        · left
          have h2 : ¬ count ≤ 0 := by omega
          simp [unlocked_append, hl, hc, unlocked, h2]
    | none =>
      left
      simp [unlocked_append, hl, hc, unlocked]

theorem mouseMove_locked (w w1 : Window) (hit : Option Nat) (wParam : Nat) (lParam : Int)
    (log1 : List Step) (h : mouseMove w hit wParam lParam = some (w1, log1)) (c : Int)
    (hc : 0 < c) : unlocked c log1 = [] ∧ countAfter c log1 = c := by
  have hn : ¬ c ≤ 0 := by omega
  obtain ⟨c0, ch, a, cap, fw, tr, mh, mi, ti, um⟩ := w
  unfold mouseMove at h
  by_cases hh : hit = a
  · subst hh
    cases c0 <;> cases tr <;> simp at h <;>
      (obtain ⟨_, rfl⟩ := h; simp [unlocked, countAfter])
  · cases c0 <;> cases tr <;> cases a <;> cases mh <;> simp [hh] at h <;>
      (obtain ⟨_, rfl⟩ := h; simp [unlocked, countAfter, hn])

theorem mouseMessage_locked (host : Host) (w : Window) (msg wParam : Nat) (lParam : Int)
    (out : Outcome) (h : mouseMessage host w msg wParam lParam = some out) (count : Int)
    (hc : 0 ≤ count) : unlocked count out.log = [] := by
  have h1 : ¬ count + 1 ≤ 0 := by omega
  unfold mouseMessage at h
  simp only at h
  split at h
  · exact absurd h (by simp)
  · rename_i w1 log1 handler hr
    have hl : unlocked (count + 1) log1 = [] ∧ countAfter (count + 1) log1 = count + 1 := by
      split at hr
      · split at hr
        · split at hr
          · rename_i w2 log2 hmm
            simp only [Option.some.injEq, Prod.mk.injEq] at hr
            rw [← hr.2.1]
            exact mouseMove_locked _ _ _ _ _ _ hmm _ (by omega)
          · exact absurd hr (by simp)
        · simp only [Option.some.injEq, Prod.mk.injEq] at hr
          rw [← hr.2.1]
          exact ⟨rfl, rfl⟩
      · simp only [Option.some.injEq, Prod.mk.injEq] at hr
        rw [← hr.2.1]
        exact ⟨rfl, rfl⟩
    split at h
    · exact absurd h (by simp)
    · simp only [Option.some.injEq] at h
      rw [← h]
      simp [unlocked_append, unlocked, countAfter, hl.1, hl.2, h1]

/-- C27 (as amended): `HandleMessage` is called on a window whose update-lock count is
`count`, not negative, and returns.  Every handler it calls from the mouse block, the
keyboard block, the mouse-leave case, the timer case and the look-up of a registered
user message is called while the count is greater than zero.  The one call that can be
made while the count is zero is the call of the default handler at the end of the
function, which is made after the locks are released: it is made at count zero when
the count was zero on entry, the message is not a forwarded mouse message, not a timer
message and not a registered user message, and the default handler is initialized. -/
theorem C27_handlers_locked_except_default (host : Host) (w : Window) (msg wParam : Nat) (lParam : Int)
    (out : Outcome) (count : Int) (hcount : 0 ≤ count)
    (h : w.HandleMessage host msg wParam lParam = some out) :
    unlocked count out.log = [] ∨
    (count = 0 ∧ ∃ d, w.msgHandler = some d ∧ w.msgHandlerInitialized = true ∧
      (WM_FIRSTREGISTERED ≤ msg → find msg w.userMessages = none) ∧
      ¬ (WM_MOUSEFIRST ≤ msg ∧ msg ≤ WM_MOUSELAST ∧ w.mDontForwardMouse = false) ∧
      msg ≠ WM_TIMER ∧
      unlocked count out.log = [(d, msg)]) := by
  have h1 : ¬ count + 1 ≤ 0 := by omega
  obtain ⟨hk1, hk2⟩ := keys_locked w msg wParam lParam count hcount
  unfold Window.HandleMessage at h
  split at h
  · exact Or.inl (mouseMessage_locked host w msg wParam lParam out h count hcount)
  · rename_i hmouse
    simp only at h
    split at h
    · rename_i hleave
      simp only [Option.some.injEq] at h
      rw [← h]
      have hl : unlocked count (keyboardMessage w msg wParam lParam ++
          match w.activeChild with
          | some a =>
            [Step.pushUpdateLock, Step.handle (MessageHandler.window a) WM_MOUSELEAVE 0 0,
             Step.popUpdateLock]
          | none => [Step.pushUpdateLock, Step.popUpdateLock]) = [] ∧
        countAfter count (keyboardMessage w msg wParam lParam ++
          match w.activeChild with
          | some a =>
            [Step.pushUpdateLock, Step.handle (MessageHandler.window a) WM_MOUSELEAVE 0 0,
             Step.popUpdateLock]
          | none => [Step.pushUpdateLock, Step.popUpdateLock]) = count := by
        cases w.activeChild <;>
          simp [unlocked_append, countAfter_append, hk1, hk2, unlocked, countAfter, h1]
      rcases userOrDefault_unlocked host
          { w with isTrackingMouse := false, activeChild := none } _ msg wParam lParam count
          hcount hl.1 hl.2 with hu | ⟨h0, d, hd, hi, hf, hu⟩
      · exact Or.inl hu
      · refine Or.inr ⟨h0, d, hd, hi, hf, hmouse, ?_, hu⟩
        rw [hleave]; decide
    · split at h
      · simp only [Option.some.injEq] at h
        rw [← h]
        exact Or.inl hk1
      · split at h
        · simp only [Option.some.injEq] at h
          rw [← h]
          left
          simp [unlocked_append, countAfter_append, hk1, hk2, unlocked, countAfter]
        · split at h
          · split at h
            · simp only [Option.some.injEq] at h
              rw [← h]
              left
              simp [unlocked_append, countAfter_append, hk1, hk2, unlocked, countAfter, h1]
            · simp only [Option.some.injEq] at h
              rw [← h]
              left
              simp [unlocked_append, countAfter_append, hk1, hk2, unlocked, countAfter]
          · rename_i htimer
            split at h
            · simp only [Option.some.injEq] at h
              rw [← h]
              left
              simp [unlocked_append, countAfter_append, hk1, hk2, unlocked, countAfter]
            · split at h
              · simp only [Option.some.injEq] at h
                rw [← h]
                left
                simp [unlocked_append, countAfter_append, hk1, hk2, unlocked, countAfter]
              · simp only [Option.some.injEq] at h
                rw [← h]
                rcases userOrDefault_unlocked host w _ msg wParam lParam count hcount hk1 hk2
                  with hu | ⟨h0, d, hd, hi, hf, hu⟩
                · exact Or.inl hu
                · exact Or.inr ⟨h0, d, hd, hi, hf, hmouse, htimer, hu⟩

/-- C27, an instance: the timer 1 of the sample window; its handler is called inside the
update lock, and no handler is called at count zero. -/
theorem C27_witness_timer_handler_locked :
    (sampleWindow.HandleMessage sampleHost WM_TIMER 1 0).map (fun out => out.log) =
      some [Step.pushUpdateLock, Step.handle (MessageHandler.object 11) WM_TIMER 1 0,
        Step.popUpdateLock] ∧
    unlocked 0 [Step.pushUpdateLock, Step.handle (MessageHandler.object 11) WM_TIMER 1 0,
        Step.popUpdateLock] = [] := by
  refine ⟨rfl, ?_⟩
  rcases C27_handlers_locked_except_default sampleHost sampleWindow WM_TIMER 1 0
      ⟨sampleWindow, [Step.pushUpdateLock,
        Step.handle (MessageHandler.object 11) WM_TIMER 1 0, Step.popUpdateLock], 111⟩
      0 (le_refl 0) rfl with hu | ⟨_, _, _, _, _, _, ht, _⟩
  · exact hu
  · exact absurd rfl ht

/-- C27 as stated fails: a key message on a window whose update-lock count is zero goes
to the active child inside an update lock, and then to the default handler, the
object 0, after the lock is released, at count zero. -/
theorem C27_counterexample_default_handler_unlocked :
    ((hoveredWindow 3).HandleMessage sampleHost WM_KEYDOWN 65 0).map
        (fun out => (out.log, unlocked 0 out.log)) =
      some ([Step.pushUpdateLock, Step.handle (MessageHandler.window 3) WM_KEYDOWN 65 0,
        Step.popUpdateLock, Step.handle (MessageHandler.object 0) WM_KEYDOWN 65 0],
        [(MessageHandler.object 0, WM_KEYDOWN)]) := by
  decide

theorem hitTest_listed (xPos yPos : Int) (children : List Child) (a : Nat)
    (h : hitTest xPos yPos children = some a) : ∃ c ∈ children, c.self = a := by
  induction children with
  | nil => exact absurd h (by simp [hitTest])
  | cons c rest ih =>
    unfold hitTest at h
    split at h
    · exact ⟨c, by simp, by simpa using h⟩
    · obtain ⟨c2, hc2, he⟩ := ih h
      exact ⟨c2, by simp [hc2], he⟩

theorem mouseMove_window (w w1 : Window) (hit : Option Nat) (wParam : Nat) (lParam : Int)
    (log1 : List Step) (h : mouseMove w hit wParam lParam = some (w1, log1)) :
    w1.children = w.children ∧ (w1.activeChild = w.activeChild ∨ w1.activeChild = hit) := by
  obtain ⟨c0, ch, a, cap, fw, tr, mh, mi, ti, um⟩ := w
  unfold mouseMove at h
  by_cases hh : hit = a
  · subst hh
    cases c0 <;> cases tr <;> simp at h <;> (obtain ⟨rfl, _⟩ := h; simp)
  · cases c0 <;> cases tr <;> cases a <;> cases mh <;> simp [hh] at h <;>
      (obtain ⟨rfl, _⟩ := h; simp)

theorem mouseMessage_window (host : Host) (w : Window) (msg wParam : Nat) (lParam : Int)
    (out : Outcome) (h : mouseMessage host w msg wParam lParam = some out) :
    out.window.children = w.children ∧
    (out.window.activeChild = w.activeChild ∨
      out.window.activeChild =
        hitTest (GET_X_LPARAM lParam) (GET_Y_LPARAM lParam) w.children) := by
  unfold mouseMessage at h
  simp only at h
  split at h
  · exact absurd h (by simp)
  · rename_i w1 log1 handler hr
    have hw : w1.children = w.children ∧ (w1.activeChild = w.activeChild ∨
        w1.activeChild = hitTest (GET_X_LPARAM lParam) (GET_Y_LPARAM lParam) w.children) := by
      split at hr
      · split at hr
        · split at hr
          · rename_i w2 log2 hmm
            simp only [Option.some.injEq, Prod.mk.injEq] at hr
            rw [← hr.1]
            exact mouseMove_window _ _ _ _ _ _ hmm
          · exact absurd hr (by simp)
        · simp only [Option.some.injEq, Prod.mk.injEq] at hr
          rw [← hr.1]
          exact ⟨rfl, Or.inl rfl⟩
      · simp only [Option.some.injEq, Prod.mk.injEq] at hr
        rw [← hr.1]
        exact ⟨rfl, Or.inl rfl⟩
    split at h
    · exact absurd h (by simp)
    · simp only [Option.some.injEq] at h
      rw [← h]
      exact hw

theorem userOrDefault_window (host : Host) (w : Window) (log : List Step) (msg wParam : Nat)
    (lParam : Int) : (userOrDefault host w log msg wParam lParam).window = w := by
  unfold userOrDefault
  simp only
  split
  · rfl
  · split
    · split <;> rfl
    · rfl

theorem handleMessage_window (host : Host) (w : Window) (msg wParam : Nat) (lParam : Int)
    (out : Outcome) (h : w.HandleMessage host msg wParam lParam = some out) :
    out.window.children = w.children ∧
    (out.window.activeChild = w.activeChild ∨ out.window.activeChild = none ∨
      out.window.activeChild =
        hitTest (GET_X_LPARAM lParam) (GET_Y_LPARAM lParam) w.children) := by
  unfold Window.HandleMessage at h
  split at h
  · obtain ⟨h1, h2⟩ := mouseMessage_window host w msg wParam lParam out h
    exact ⟨h1, h2.elim Or.inl (fun x => Or.inr (Or.inr x))⟩
  · simp only at h
    split at h
    · simp only [Option.some.injEq] at h
      rw [← h, userOrDefault_window]
      exact ⟨rfl, Or.inr (Or.inl rfl)⟩
    · repeat' (split at h)
      all_goals
        simp only [Option.some.injEq] at h
        rw [← h]
        first
        | exact ⟨rfl, Or.inl rfl⟩
        | (rw [userOrDefault_window]; exact ⟨rfl, Or.inl rfl⟩)

theorem apply_keeps_activeChildListed (host : Host) (w w1 : Window) (op : Op)
    (hw : w.ActiveChildListed) (h : w.apply host op = some w1) : w1.ActiveChildListed := by
  cases op with
  | createChild child =>
    simp only [Window.apply, Option.some.injEq] at h
    rw [← h]
    intro a ha
    obtain ⟨c, hc, he⟩ := hw a ha
    exact ⟨c, by simp [Window.CreateChild, hc], he⟩
  | setParent child =>
    simp only [Window.apply, Option.some.injEq] at h
    rw [← h]
    intro a ha
    obtain ⟨c, hc, he⟩ := hw a ha
    exact ⟨c, by simp [Window.CreateChild, hc], he⟩
  | removeChild child =>
    simp only [Window.apply, Option.some.injEq] at h
    rw [← h]
    intro a ha
    by_cases hx : w.activeChild = some child
    · simp [Window.RemoveChild, hx] at ha
    · have ha2 : w.activeChild = some a := by simpa [Window.RemoveChild, hx] using ha
      obtain ⟨c, hc, he⟩ := hw a ha2
      refine ⟨c, ?_, he⟩
      have hne : c.self ≠ child := by
        intro hce
        apply hx
        rw [ha2, ← he, hce]
      simp [Window.RemoveChild, hc, hne]
  | handleMessage msg wParam lParam =>
    simp only [Window.apply, Option.map_eq_some'] at h
    obtain ⟨out, ho, rfl⟩ := h
    obtain ⟨h1, h2⟩ := handleMessage_window host w msg wParam lParam out ho
    intro a ha
    rw [h1]
    rcases h2 with h2 | h2 | h2
    · exact hw a (h2 ▸ ha)
    · rw [h2] at ha; cases ha
    · rw [h2] at ha
      exact hitTest_listed _ _ _ _ ha

theorem applyAll_keeps_activeChildListed (host : Host) (ops : List Op) :
    ∀ w w1 : Window, w.ActiveChildListed → w.applyAll host ops = some w1 →
      w1.ActiveChildListed := by
  induction ops with
  | nil =>
    intro w w1 hw h
    simp only [Window.applyAll, Option.some.injEq] at h
    rw [← h]
    exact hw
  | cons op rest ih =>
    intro w w1 hw h
    unfold Window.applyAll at h
    split at h
    · rename_i w2 h2
      exact ih w2 w1 (apply_keeps_activeChildListed host w w2 op hw h2) h
    · exact absurd h (by simp)

theorem handled_append (a b : List Step) : handled (a ++ b) = handled a ++ handled b := by
  induction a with
  | nil => rfl
  | cons s rest ih => cases s <;> simp [handled, ih]

theorem handled_userOrDefault (host : Host) (w : Window) (log : List Step) (msg wParam : Nat)
    (lParam : Int) (hm : msg < WM_FIRSTREGISTERED) (t : MessageHandler) (m : Nat)
    (h : (t, m) ∈ handled (userOrDefault host w log msg wParam lParam).log) :
    (t, m) ∈ handled log ∨ w.msgHandler = some t := by
  rw [userOrDefault_unregistered host w log msg wParam lParam hm] at h
  cases hd : w.msgHandler with
  | none =>
    rw [hd] at h
    simp only [handled_append, handled, List.append_nil] at h
    exact Or.inl h
  | some d =>
    rw [hd] at h
    cases hi : w.msgHandlerInitialized
    · rw [hi] at h
      simp [handled_append, handled] at h
      exact Or.inl h
    · rw [hi] at h
      simp only [handled_append, handled, if_true, List.mem_append, List.mem_singleton,
        Prod.mk.injEq] at h
      rcases h with h | h
      · exact Or.inl h
      · exact Or.inr (by rw [h.1])

theorem handled_keys (w : Window) (msg wParam : Nat) (lParam : Int) (t : MessageHandler)
    (m : Nat) (h : (t, m) ∈ handled (keyboardMessage w msg wParam lParam)) :
    ∃ a, w.activeChild = some a ∧ t = MessageHandler.window a := by
  unfold keyboardMessage at h
  split at h
  · cases ha : w.activeChild with
    | none => rw [ha] at h; simp [handled] at h
    | some a =>
      rw [ha] at h
      simp only [handled, List.mem_singleton, Prod.mk.injEq] at h
      exact ⟨a, rfl, h.1⟩
  · simp [handled] at h

theorem forwarded_to_active_child (host : Host) (w : Window) (msg wParam : Nat)
    (lParam : Int) (out : Outcome)
    (hmsg : msg = WM_MOUSELEAVE ∨ (WM_KEYFIRST ≤ msg ∧ msg ≤ WM_KEYLAST))
    (h : w.HandleMessage host msg wParam lParam = some out) (t : MessageHandler) (m : Nat)
    (ht : (t, m) ∈ handled out.log) :
    (∃ a, w.activeChild = some a ∧ t = MessageHandler.window a) ∨ w.msgHandler = some t := by
  have hlt : msg < WM_FIRSTREGISTERED := by
    unfold WM_FIRSTREGISTERED WM_USER
    unfold WM_MOUSELEAVE WM_KEYFIRST WM_KEYLAST at hmsg
    omega
  have hnm : ¬ (WM_MOUSEFIRST ≤ msg ∧ msg ≤ WM_MOUSELAST ∧ w.mDontForwardMouse = false) := by
    unfold WM_MOUSEFIRST WM_MOUSELAST
    unfold WM_MOUSELEAVE WM_KEYFIRST WM_KEYLAST at hmsg
    omega
  unfold Window.HandleMessage at h
  rw [if_neg hnm] at h
  simp only at h
  by_cases hleave : msg = WM_MOUSELEAVE
  · rw [if_pos hleave] at h
    simp only [Option.some.injEq] at h
    rw [← h] at ht
    rcases handled_userOrDefault host _ _ msg wParam lParam hlt t m ht with h1 | h1
    · rw [handled_append, List.mem_append] at h1
      rcases h1 with h1 | h1
      · exact Or.inl (handled_keys w msg wParam lParam t m h1)
      · cases ha : w.activeChild with
        | none => rw [ha] at h1; simp [handled] at h1
        | some a =>
          rw [ha] at h1
          simp only [handled, List.mem_singleton, Prod.mk.injEq] at h1
          exact Or.inl ⟨a, rfl, h1.1⟩
    · exact Or.inr h1
  · have hkey : WM_KEYFIRST ≤ msg ∧ msg ≤ WM_KEYLAST := hmsg.resolve_left hleave
    unfold WM_KEYFIRST WM_KEYLAST at hkey
    rw [if_neg hleave, if_neg (by unfold WM_ERASEBKGND; omega),
      if_neg (by unfold WM_PAINT; omega), if_neg (by unfold WM_TIMER; omega),
      if_neg (by unfold WM_SETTINGCHANGE WM_DISPLAYCHANGE WM_WINDOWPOSCHANGING; omega),
      if_neg (by unfold WM_DWMCOLORIZATIONCOLORCHANGED; omega)] at h
    simp only [Option.some.injEq] at h
    rw [← h] at ht
    rcases handled_userOrDefault host _ _ msg wParam lParam hlt t m ht with h1 | h1
    · exact Or.inl (handled_keys w msg wParam lParam t m h1)
    · exact Or.inr h1

/-- C30: a window on which the active-child link is null or designates a child of the
list, as on a window just constructed, keeps this through every sequence of
`CreateChild`, `SetParent` of a child to it, `RemoveChild` (the destruction of a child)
and `HandleMessage` calls.  So when a mouse-leave or a keyboard message is handled
afterwards, every handler it is handed to is a child of the list, the active one, or
the default handler of the window. -/
theorem C30_active_child_is_listed (host : Host) (w0 w : Window) (ops : List Op)
    (h0 : w0.ActiveChildListed) (h : w0.applyAll host ops = some w) :
    w.ActiveChildListed ∧
    ∀ (msg wParam : Nat) (lParam : Int) (out : Outcome),
      (msg = WM_MOUSELEAVE ∨ (WM_KEYFIRST ≤ msg ∧ msg ≤ WM_KEYLAST)) →
      w.HandleMessage host msg wParam lParam = some out →
      ∀ (t : MessageHandler) (m : Nat), (t, m) ∈ handled out.log →
        (∃ c ∈ w.children, t = MessageHandler.window c.self) ∨ w.msgHandler = some t := by
  have hw := applyAll_keeps_activeChildListed host ops w0 w h0 h
  refine ⟨hw, ?_⟩
  intro msg wParam lParam out hmsg ho t m ht
  rcases forwarded_to_active_child host w msg wParam lParam out hmsg ho t m ht with
    ⟨a, ha, rfl⟩ | hd
  · obtain ⟨c, hc, he⟩ := hw a ha
    exact Or.inl ⟨c, hc, by rw [he]⟩
  · exact Or.inr hd

/-- C30, an instance: two children are created, the mouse moves over the second, and
the second is destroyed; the active-child link is null afterwards, and a key message
goes to the default handler only. -/
theorem C30_witness_active_child_removed :
    ((newWindow (MessageHandler.object 0)).applyAll sampleHost
        [Op.createChild ⟨1, true, ⟨0, 0, 50, 50⟩⟩, Op.createChild ⟨2, false, ⟨0, 0, 50, 50⟩⟩,
         Op.handleMessage WM_MOUSEMOVE 0 at10x10, Op.removeChild 2]).map
        (fun w => (w.children.map Child.self, w.activeChild)) = some ([1], none) ∧
    Window.ActiveChildListed
      { newWindow (MessageHandler.object 0) with
        children := [⟨1, true, ⟨0, 0, 50, 50⟩⟩], isTrackingMouse := true } := by
  refine ⟨by decide, ?_⟩
  exact (C30_active_child_is_listed sampleHost (newWindow (MessageHandler.object 0)) _
    [Op.createChild ⟨1, true, ⟨0, 0, 50, 50⟩⟩, Op.createChild ⟨2, false, ⟨0, 0, 50, 50⟩⟩,
     Op.handleMessage WM_MOUSEMOVE 0 at10x10, Op.removeChild 2]
    (fun a ha => by cases ha) (by decide)).1

end Dispatch

namespace Monitors

theorem loop_spec (areas : List Int) :
    ∀ (pre : List Int) (maxArea : Int) (monitor : Nat),
      (∀ b ∈ areas, 0 ≤ b) →
      (pre = [] → maxArea = 0) →
      (pre ≠ [] → pre[monitor]? = some maxArea) →
      (∀ b ∈ pre, b ≤ maxArea) →
      pre ++ areas ≠ [] →
      ∃ a, (pre ++ areas)[loop areas pre.length maxArea monitor]? = some a ∧
        ∀ b ∈ pre ++ areas, b ≤ a := by
  induction areas with
  | nil =>
    intro pre maxArea monitor _ _ h2 h3 hne
    have hp : pre ≠ [] := by simpa using hne
    exact ⟨maxArea, by simpa [loop] using h2 hp, by simpa using h3⟩
  | cons area rest ih =>
    intro pre maxArea monitor hpos h1 h2 h3 _
    have hrest : ∀ b ∈ rest, 0 ≤ b := fun b hb => hpos b (by simp [hb])
    have hlen : (pre ++ [area]).length = pre.length + 1 := by simp
    unfold loop
    split
    · rename_i hge
      have := ih (pre ++ [area]) area pre.length hrest (by simp) (by intro _; simp)
        (by
          intro b hb
          rcases List.mem_append.1 hb with hb | hb
          · exact le_trans (h3 b hb) hge
          · simp at hb; rw [hb])
        (by simp)
      rw [hlen] at this
      simpa using this
    · rename_i hlt
      have hp : pre ≠ [] := by
        intro hp
        apply hlt
        rw [h1 hp]
        exact hpos area (by simp)
      have := ih (pre ++ [area]) maxArea monitor hrest (by simp)
        (by
          intro _
          have hm := h2 hp
          have hlt2 : monitor < pre.length := by
            by_contra hc
            rw [List.getElem?_eq_none (by omega)] at hm
            cases hm
          rw [List.getElem?_append_left hlt2]
          exact hm)
        (by
          intro b hb
          rcases List.mem_append.1 hb with hb | hb
          · exact h3 b hb
          · simp at hb; rw [hb]; omega)
        (by simp)
      rw [hlen] at this
      simpa using this

/-- C29: for a list of monitors that is not empty and a window rectangle, when no
intersection area is negative, `MonitorFromHWND` returns an index of the list, and the
area of the intersection of the window with the monitor at that index is not less
than its area with any monitor of the list. -/
theorem C29_monitorFromHWND_biggest_area (rectIntersectArea : RECT → RECT → Int)
    (wndRect : RECT) (m_monitors : List RECT) (hne : m_monitors ≠ [])
    (hpos : ∀ r ∈ m_monitors, 0 ≤ rectIntersectArea wndRect r) :
    ∃ r, m_monitors[MonitorFromHWND rectIntersectArea wndRect m_monitors]? = some r ∧
      MonitorFromHWND rectIntersectArea wndRect m_monitors < m_monitors.length ∧
      ∀ r2 ∈ m_monitors, rectIntersectArea wndRect r2 ≤ rectIntersectArea wndRect r := by
  obtain ⟨a, ha, hmax⟩ := loop_spec (m_monitors.map (rectIntersectArea wndRect)) [] 0 0
    (by simpa using hpos) (fun _ => rfl) (fun h => absurd rfl h) (by simp) (by simpa using hne)
  simp only [List.nil_append, List.length_nil] at ha hmax
  have ha2 : (m_monitors.map (rectIntersectArea wndRect))[MonitorFromHWND rectIntersectArea
      wndRect m_monitors]? = some a := ha
  rw [List.getElem?_map] at ha2
  cases hr : m_monitors[MonitorFromHWND rectIntersectArea wndRect m_monitors]? with
  | none => rw [hr] at ha2; cases ha2
  | some r =>
    rw [hr] at ha2
    simp only [Option.map_some', Option.some.injEq] at ha2
    refine ⟨r, rfl, ?_, ?_⟩
    · by_contra hc
      rw [List.getElem?_eq_none (by omega)] at hr
      cases hr
    · intro r2 hr2
      rw [ha2]
      exact hmax _ (List.mem_map_of_mem _ hr2)

/-- C29, an instance: a window that lies mostly on the second of two monitors. -/
theorem C29_witness_second_monitor :
    MonitorFromHWND intersectArea ⟨1800, 100, 2200, 400⟩
      [⟨0, 0, 1920, 1080⟩, ⟨1920, 0, 3840, 1080⟩] = 1 ∧
    ∃ r, ([⟨0, 0, 1920, 1080⟩, ⟨1920, 0, 3840, 1080⟩] : List RECT)[MonitorFromHWND
        intersectArea ⟨1800, 100, 2200, 400⟩
        [⟨0, 0, 1920, 1080⟩, ⟨1920, 0, 3840, 1080⟩]]? = some r ∧
      MonitorFromHWND intersectArea ⟨1800, 100, 2200, 400⟩
        [⟨0, 0, 1920, 1080⟩, ⟨1920, 0, 3840, 1080⟩] < 2 ∧
      ∀ r2 ∈ ([⟨0, 0, 1920, 1080⟩, ⟨1920, 0, 3840, 1080⟩] : List RECT),
        intersectArea ⟨1800, 100, 2200, 400⟩ r2 ≤ intersectArea ⟨1800, 100, 2200, 400⟩ r :=
  ⟨by decide,
   C29_monitorFromHWND_biggest_area intersectArea ⟨1800, 100, 2200, 400⟩
     [⟨0, 0, 1920, 1080⟩, ⟨1920, 0, 3840, 1080⟩] (by simp) (by decide)⟩

end Monitors

namespace Brushes

theorem valueAt_getBrushOwner (w : DrawableWindow) (name other : String) :
    valueAt other (w.GetBrushOwner name).2.mBrushOwners = valueAt other w.mBrushOwners := by
  unfold DrawableWindow.GetBrushOwner
  simp only
  split
  · rfl
  · rename_i hany
    have happ : ∀ l : List (String × Option IBrushOwner),
        valueAt other (l ++ [(name, none)]) = valueAt other l := by
      intro l
      induction l with
      | nil => simp [valueAt]
      | cons e rest ih =>
        obtain ⟨k, o⟩ := e
        simp only [List.cons_append, valueAt]
        split
        · rfl
        · exact ih
    exact happ _

/-- C24: `FindBrush`, for a command with `numArgs` trailing arguments, on the argument
string with the tokens `args`.  With `numArgs + 1` tokens it returns the default brush
of the base owner of the window named by the first token.  With `numArgs + 2` tokens
it returns the default brush of the owner named by the second token when the window
has such an owner, and otherwise the brush named by the second token of the base
owner.  With `numArgs + 3` tokens it returns the brush named by the third token of the
owner named by the second, and no brush when there is no such owner.  With any other
number of tokens, or when no window has the name, it returns no brush.  Whenever it
returns a brush, the tokens left in the argument string are the last `numArgs`. -/
theorem C24_findBrush_resolves_target (windowFinder : String → Option DrawableWindow)
    (args : List String) (numArgs : Nat) :
    (∀ t1 rest, args = t1 :: rest → rest.length = numArgs →
      (FindBrush windowFinder args numArgs).brush =
        (windowFinder t1).bind (fun w => w.brushOf "" "")) ∧
    (∀ t1 t2 rest, args = t1 :: t2 :: rest → rest.length = numArgs →
      (FindBrush windowFinder args numArgs).brush =
        (windowFinder t1).bind (fun w =>
          match w.owner t2 with
          | some owner => owner.GetBrush ""
          | none => w.brushOf "" t2)) ∧
    (∀ t1 t2 t3 rest, args = t1 :: t2 :: t3 :: rest → rest.length = numArgs →
      (FindBrush windowFinder args numArgs).brush =
        (windowFinder t1).bind (fun w => w.brushOf t2 t3)) ∧
    ((args.length ≠ numArgs + 1 ∧ args.length ≠ numArgs + 2 ∧ args.length ≠ numArgs + 3) →
      (FindBrush windowFinder args numArgs).brush = none) ∧
    (∀ t1 rest, args = t1 :: rest → windowFinder t1 = none →
      (FindBrush windowFinder args numArgs).brush = none) ∧
    ((FindBrush windowFinder args numArgs).brush ≠ none →
      (FindBrush windowFinder args numArgs).args = args.drop (args.length - numArgs) ∧
      (FindBrush windowFinder args numArgs).args.length = numArgs) := by
  refine ⟨?_, ?_, ?_, ?_, ?_, ?_⟩
  · intro t1 rest ha hl
    subst ha
    unfold FindBrush CommandTokenize
    simp only [List.length_cons, hl, GetToken]
    cases hw : windowFinder t1 with
    | none => simp
    | some w =>
      simp only [DrawableWindow.brushOf, DrawableWindow.owner, DrawableWindow.GetBrushOwner]
      cases hb : valueAt "" w.mBrushOwners <;> simp [hb]
  · intro t1 t2 rest ha hl
    subst ha
    unfold FindBrush CommandTokenize
    simp only [List.length_cons, hl, GetToken]
    cases hw : windowFinder t1 with
    | none => simp
    | some w =>
      have hbase := valueAt_getBrushOwner w t2 ""
      simp only [DrawableWindow.brushOf, DrawableWindow.owner]
      cases ho : valueAt t2 w.mBrushOwners with
      | some owner => simp [DrawableWindow.GetBrushOwner, ho]
      | none =>
        cases hb : valueAt "" w.mBrushOwners with
        | none =>
          have hb2 : valueAt "" (w.GetBrushOwner t2).2.mBrushOwners = none := by
            rw [hbase, hb]
          simp [DrawableWindow.GetBrushOwner, ho, hb] at hb2 ⊢
          split <;> simp_all [DrawableWindow.GetBrushOwner]
        | some b =>
          have hb2 : valueAt "" (w.GetBrushOwner t2).2.mBrushOwners = some b := by
            rw [hbase, hb]
          simp [DrawableWindow.GetBrushOwner, ho, hb] at hb2 ⊢
          split <;> simp_all [DrawableWindow.GetBrushOwner]
  · intro t1 t2 t3 rest ha hl
    subst ha
    unfold FindBrush CommandTokenize
    simp only [List.length_cons, hl, GetToken]
    cases hw : windowFinder t1 with
    | none => simp
    | some w =>
      simp only [DrawableWindow.brushOf, DrawableWindow.owner]
      cases ho : valueAt t2 w.mBrushOwners <;> simp [DrawableWindow.GetBrushOwner, ho]
  · intro hn
    unfold FindBrush CommandTokenize
    simp [hn.1, hn.2.1, hn.2.2]
  · intro t1 rest ha hw
    subst ha
    unfold FindBrush CommandTokenize
    simp only [GetToken, hw]
    split <;> rfl
  · intro hb
    by_cases hlen : args.length = numArgs + 1 ∨ args.length = numArgs + 2 ∨
        args.length = numArgs + 3
    · have hfound : ∀ t1 rest, args = t1 :: rest → ∃ w, windowFinder t1 = some w := by
        intro t1 rest ha
        cases hw : windowFinder t1 with
        | some w => exact ⟨w, rfl⟩
        | none =>
          exfalso
          apply hb
          subst ha
          unfold FindBrush CommandTokenize
          simp only [GetToken, hw]
          split <;> rfl
      rcases hlen with h1 | h2 | h3
      · match args, h1, hb, hfound with
        | t1 :: rest, h1, hb, hfound =>
          have hl : rest.length = numArgs := by simpa using h1
          obtain ⟨w, hw⟩ := hfound t1 rest rfl
          have hargs : (FindBrush windowFinder (t1 :: rest) numArgs).args = rest := by
            unfold FindBrush CommandTokenize
            simp only [List.length_cons, hl, GetToken, hw]
            cases hv : (w.GetBrushOwner "").1 <;> simp [hv]
          rw [hargs]
          exact ⟨by simp [hl], hl⟩
      · match args, h2, hb, hfound with
        | t1 :: t2 :: rest, h2, hb, hfound =>
          have hl : rest.length = numArgs := by simpa using h2
          obtain ⟨w, hw⟩ := hfound t1 (t2 :: rest) rfl
          have hargs : (FindBrush windowFinder (t1 :: t2 :: rest) numArgs).args = rest := by
            unfold FindBrush CommandTokenize
            simp only [List.length_cons, hl, GetToken, hw]
            cases hv : (w.GetBrushOwner t2).1 with
            | some o => simp [hv]
            | none =>
              cases hv2 : ((w.GetBrushOwner t2).2.GetBrushOwner "").1 <;> simp [hv, hv2]
          rw [hargs]
          have hd : numArgs + 1 + 1 - numArgs = 2 := by omega
          exact ⟨by simp [hl, hd], hl⟩
        | [_], h2, _, _ => simp at h2
      · match args, h3, hb, hfound with
        | t1 :: t2 :: t3 :: rest, h3, hb, hfound =>
          have hl : rest.length = numArgs := by simpa using h3
          obtain ⟨w, hw⟩ := hfound t1 (t2 :: t3 :: rest) rfl
          have hargs :
              (FindBrush windowFinder (t1 :: t2 :: t3 :: rest) numArgs).brush ≠ none →
              (FindBrush windowFinder (t1 :: t2 :: t3 :: rest) numArgs).args = rest := by
            unfold FindBrush CommandTokenize
            simp only [List.length_cons, hl, GetToken, hw]
            cases hv : (w.GetBrushOwner t2).1 <;> simp [hv]
          rw [hargs hb]
          have hd : numArgs + 1 + 1 + 1 - numArgs = 3 := by omega
          exact ⟨by simp [hl, hd], hl⟩
        | [_], h3, _, _ => simp at h3
        | [_, _], h3, _, _ => simp at h3
    · exfalso
      apply hb
      unfold FindBrush CommandTokenize
      simp only [CommandTokenize] at hlen
      rw [if_neg hlen]

/-- C24, an instance: the command `SetColor label hover text red`, with one trailing
argument, finds the brush `text` of the owner `hover` and leaves the colour; `SetColor
label hover red` finds the default brush of the owner `hover`, which takes precedence
over the brush `hover` of the base owner. -/
theorem C24_witness_setColor :
    (FindBrush sampleFinder ["label", "hover", "text", "red"] 1).brush = some 4 ∧
    (FindBrush sampleFinder ["label", "hover", "text", "red"] 1).args = ["red"] ∧
    (FindBrush sampleFinder ["label", "hover", "red"] 1).brush = some 3 := by
  have h := C24_findBrush_resolves_target sampleFinder ["label", "hover", "text", "red"] 1
  have h2 := C24_findBrush_resolves_target sampleFinder ["label", "hover", "red"] 1
  refine ⟨?_, ?_, ?_⟩
  · rw [h.2.2.1 "label" "hover" "text" ["red"] rfl rfl]
    rfl
  · have hb : (FindBrush sampleFinder ["label", "hover", "text", "red"] 1).brush ≠ none := by
      rw [h.2.2.1 "label" "hover" "text" ["red"] rfl rfl]
      exact fun hx => nomatch hx
    exact (h.2.2.2.2.2 hb).1
  · rw [h2.2.1 "label" "hover" ["red"] rfl rfl]
    rfl

end Brushes

namespace Animation

theorem stepTo_one (start target : Int) (h : (target - start).natAbs < 2 ^ 24) :
    stepTo (Float32.ofInt 1) start target = target := by
  unfold stepTo Float32.ofInt Float32.mul
  rw [round_small 1 0 (by decide), round_small (target - start) 0 h]
  simp only [one_mul, add_zero]
  rw [round_small (target - start) 0 h]
  simp [Float32.toLong]

theorem stepTo_zero (start target : Int) :
    stepTo (Float32.ofInt 0) start target = start := by
  unfold stepTo Float32.ofInt Float32.mul
  rw [round_small 0 0 (by decide)]
  simp only [zero_mul]
  rw [round_small 0 _ (by decide)]
  simp [Float32.toLong]

theorem animate_settings (w : Window) (parent : Option RectF) (progress : Float32) :
    (w.Animate parent progress).1.window.drawingSettings =
      ⟨stepTo progress w.animationStart.left w.animationTarget.left,
       stepTo progress w.animationStart.top w.animationTarget.top,
       stepTo progress w.animationStart.right w.animationTarget.right -
         stepTo progress w.animationStart.left w.animationTarget.left,
       stepTo progress w.animationStart.bottom w.animationTarget.bottom -
         stepTo progress w.animationStart.top w.animationTarget.top⟩ := by
  obtain ⟨⟨self, handler, isChild, settings, area, children⟩, an, ea, du, st, ta⟩ := w
  simp [Window.Animate, Tree.Window.SetPosition, Tree.Window.drawingSettings]

theorem steps_keep (parent : Option RectF) (ps : List Float32) :
    ∀ w : Window, (w.steps parent ps).animationStart = w.animationStart ∧
      (w.steps parent ps).animationTarget = w.animationTarget ∧
      (w.animating = true → (∀ p ∈ ps, p.geOne = false) →
        (w.steps parent ps).animating = true) := by
  induction ps with
  | nil => intro w; exact ⟨rfl, rfl, fun h _ => h⟩
  | cons p rest ih =>
    intro w
    obtain ⟨h1, h2, h3⟩ := ih (w.Animate parent p).1
    refine ⟨h1, h2, ?_⟩
    intro ha hp
    apply h3
    · have hp1 : p.geOne = false := hp p (by simp)
      simp [Window.Animate, hp1, ha]
    · exact fun q hq => hp q (by simp [hq])

/-- C21 (as amended): `SetAnimation(x, y, width, height, duration, easing)` is called on
a window with the stored rectangle `(x0, y0, w0, h0)`, and any animation steps follow.
When each of the four edges of the rectangle moves by less than 2 ^ 24, so that the
distance is exact in single precision, a step that samples the progress 1 sets the
position to `(x, y, width, height)` and clears the animating flag.  A step that samples
the progress 0 sets the position to `(x0, y0, w0, h0)`, whatever the distances, and
leaves the animating flag set when no earlier step sampled a progress of 1 or more. -/
theorem C21_animation_step_at_progress_0_and_1 (w : Window) (parent : Option RectF)
    (x y width height duration : Int) (easing : Nat) (earlier : List Float32)
    (hleft : (x - w.window.drawingSettings.x).natAbs < 2 ^ 24)
    (htop : (y - w.window.drawingSettings.y).natAbs < 2 ^ 24)
    (hright : (x + width -
      (w.window.drawingSettings.x + w.window.drawingSettings.width)).natAbs < 2 ^ 24)
    (hbottom : (y + height -
      (w.window.drawingSettings.y + w.window.drawingSettings.height)).natAbs < 2 ^ 24) :
    ((((w.SetAnimation x y width height duration easing).1.steps parent earlier).Animate
        parent (Float32.ofInt 1)).1.window.drawingSettings = ⟨x, y, width, height⟩ ∧
      (((w.SetAnimation x y width height duration easing).1.steps parent earlier).Animate
        parent (Float32.ofInt 1)).1.animating = false) ∧
    ((((w.SetAnimation x y width height duration easing).1.steps parent earlier).Animate
        parent (Float32.ofInt 0)).1.window.drawingSettings = w.window.drawingSettings ∧
      ((∀ p ∈ earlier, p.geOne = false) →
        (((w.SetAnimation x y width height duration easing).1.steps parent earlier).Animate
          parent (Float32.ofInt 0)).1.animating = true)) := by
  obtain ⟨hs, ht, ha⟩ := steps_keep parent earlier
    (w.SetAnimation x y width height duration easing).1
  have hs2 : (w.SetAnimation x y width height duration easing).1.animationStart =
      ⟨w.window.drawingSettings.x, w.window.drawingSettings.y,
       w.window.drawingSettings.x + w.window.drawingSettings.width,
       w.window.drawingSettings.y + w.window.drawingSettings.height⟩ := rfl
  have ht2 : (w.SetAnimation x y width height duration easing).1.animationTarget =
      ⟨x, y, x + width, y + height⟩ := rfl
  refine ⟨⟨?_, ?_⟩, ?_, ?_⟩
  · rw [animate_settings, hs, ht, hs2, ht2]
    simp only
    rw [stepTo_one _ _ hleft, stepTo_one _ _ htop, stepTo_one _ _ hright,
      stepTo_one _ _ hbottom]
    simp
  · simp [Window.Animate, Float32.ofInt, round_small, Float32.geOne]
  · rw [animate_settings, hs, ht, hs2, ht2]
    simp only [stepTo_zero]
    cases hd : w.window.drawingSettings
    simp
  · intro hp
    have h1 := ha rfl hp
    simp [Window.Animate, Float32.ofInt, round_small, Float32.geOne, h1]

/-- C21, the instance from (0, 0, 100, 100) to (100, 100, 100, 100): a step at the
progress 0.5 puts the window at (50, 50), a step at 1 after it puts it at the target
and clears the flag, and a step at 0 puts it back at the start with the flag set. -/
theorem C21_witness_from_origin_to_100 :
    ((still.SetAnimation 100 100 100 100 200 0).1.steps none [half]).window.drawingSettings =
      ⟨50, 50, 100, 100⟩ ∧
    ((((still.SetAnimation 100 100 100 100 200 0).1.steps none [half]).Animate none
        (Float32.ofInt 1)).1.window.drawingSettings = ⟨100, 100, 100, 100⟩ ∧
      (((still.SetAnimation 100 100 100 100 200 0).1.steps none [half]).Animate none
        (Float32.ofInt 1)).1.animating = false) ∧
    ((((still.SetAnimation 100 100 100 100 200 0).1.steps none [half]).Animate none
        (Float32.ofInt 0)).1.window.drawingSettings = ⟨0, 0, 100, 100⟩ ∧
      (((still.SetAnimation 100 100 100 100 200 0).1.steps none [half]).Animate none
        (Float32.ofInt 0)).1.animating = true) := by
  have h := C21_animation_step_at_progress_0_and_1 still none 100 100 100 100 200 0 [half]
    (by decide) (by decide) (by decide) (by decide)
  exact ⟨by decide, h.1, h.2.1, h.2.2 (by decide)⟩

/-- C21 as stated fails: from (0, 0, 100, 100) to (16777217, 0, 100, 100) the distance
2 ^ 24 + 1 is not a value of type `float`; the step that samples the progress 1 puts
the window at x = 16777216 and not at the target. -/
theorem C21_counterexample_beyond_float_range :
    ((still.SetAnimation 16777217 0 100 100 200 0).1.Animate none
        (Float32.ofInt 1)).1.window.drawingSettings = ⟨16777216, 0, 100, 100⟩ ∧
    Float32.ofInt 16777217 = ⟨8388608, 1⟩ := by
  decide

end Animation

namespace Family

mutual
theorem discard_regions : ∀ w : Window,
    w.DiscardDeviceResources.regions =
      w.regions.map (fun r => { r with renderTarget := none })
  | .mk m children => by
    simp only [Window.DiscardDeviceResources, Window.regions, List.map_cons]
    rw [discardAll_regions children]
theorem discardAll_regions : ∀ l : List Window,
    regionsOf (discardAll l) = (regionsOf l).map (fun r => { r with renderTarget := none })
  | [] => rfl
  | child :: rest => by
    simp only [discardAll, regionsOf, List.map_append]
    rw [discard_regions child, discardAll_regions rest]
end

mutual
theorem update_null_regions : ∀ w : Window,
    (w.UpdateParentVariables none none).regions =
      w.regions.map (fun r => { r with monitorInfo := none, window := none })
  | .mk m children => by
    unfold Window.UpdateParentVariables
    split <;>
      (simp only [Window.regions, List.map_cons]
       rw [updateAll_null_regions children])
theorem updateAll_null_regions : ∀ l : List Window,
    regionsOf (updateAll none none l) =
      (regionsOf l).map (fun r => { r with monitorInfo := none, window := none })
  | [] => rfl
  | child :: rest => by
    simp only [updateAll, regionsOf, List.map_append]
    rw [update_null_regions child, updateAll_null_regions rest]
end

theorem notifications_append (msg data : Nat) (a b : List Members) :
    notifications msg data (a ++ b) = notifications msg data a ++ notifications msg data b := by
  induction a with
  | nil => rfl
  | cons r rest ih =>
    simp only [List.cons_append, notifications]
    split <;> simp [ih]

mutual
theorem sendToAll_eq (msg data : Nat) : ∀ w : Window,
    (∀ r ∈ w.regions, r.msgHandler ≠ none) →
      w.SendToAll msg data = some (notifications msg data w.regions)
  | .mk m children => by
    intro h
    have hm : m.msgHandler ≠ none := h m (by simp [Window.regions])
    have hc := sendAll_eq msg data children
      (fun r hr => h r (by simp [Window.regions, hr]))
    unfold Window.SendToAll
    cases hh : m.msgHandler with
    | none => exact absurd hh hm
    | some handler => simp [hc, Window.regions, notifications, hh]
theorem sendAll_eq (msg data : Nat) : ∀ l : List Window,
    (∀ r ∈ regionsOf l, r.msgHandler ≠ none) →
      sendAll msg data l = some (notifications msg data (regionsOf l))
  | [] => fun _ => rfl
  | child :: rest => by
    intro h
    have h1 := sendToAll_eq msg data child (fun r hr => h r (by simp [regionsOf, hr]))
    have h2 := sendAll_eq msg data rest (fun r hr => h r (by simp [regionsOf, hr]))
    simp [sendAll, h1, h2, regionsOf, notifications_append]
end

theorem notifications_map (msg data : Nat) (f : Members → Members)
    (hf : ∀ r, (f r).msgHandler = r.msgHandler) (l : List Members) :
    notifications msg data (l.map f) = notifications msg data l := by
  induction l with
  | nil => rfl
  | cons r rest ih => simp only [List.map_cons, notifications, hf, ih]

theorem messages_append (a b : List Event) : messages (a ++ b) = messages a ++ messages b := by
  induction a with
  | nil => rfl
  | cons e rest ih => cases e <;> simp [messages, ih]

theorem messages_notifications (msg data : Nat) (l : List Members) :
    messages (notifications msg data l) = notifications msg data l := by
  induction l with
  | nil => rfl
  | cons r rest ih =>
    simp only [notifications]
    split
    · simp [messages, ih]
    · exact ih

theorem notifications_length (msg data : Nat) (l : List Members)
    (h : ∀ r ∈ l, r.msgHandler ≠ none) : (notifications msg data l).length = l.length := by
  induction l with
  | nil => rfl
  | cons r rest ih =>
    have hr : r.msgHandler ≠ none := h r (by simp)
    have ih2 := ih (fun x hx => h x (by simp [hx]))
    simp only [notifications]
    cases hh : r.msgHandler with
    | none => exact absurd hh hr
    | some handler => simp [ih2]

theorem parentLeft_after_discard (m : Members) (children : List Window)
    (hh : ∀ r ∈ (Window.mk m children).regions, r.msgHandler ≠ none) :
    ∃ orphan log, (Window.mk m children).DiscardDeviceResources.ParentLeft = some (orphan, log) ∧
      orphan.regions =
        detached { m with mParent := none } :: (regionsOf children).map detached ∧
      messages log = notifications WM_TOPPARENTLOST m.self (Window.mk m children).regions := by
  have hregions : ((Window.mk { m with renderTarget := none, mParent := none }
      (discardAll children)).UpdateParentVariables none none).regions =
      detached { m with mParent := none } :: (regionsOf children).map detached := by
    rw [update_null_regions]
    simp only [Window.regions, List.map_cons, discardAll_regions, List.map_map]
    rfl
  have hsend := sendToAll_eq WM_TOPPARENTLOST m.self
    ((Window.mk { m with renderTarget := none, mParent := none }
      (discardAll children)).UpdateParentVariables none none)
    (by
      rw [hregions]
      intro r hr
      simp only [List.mem_cons, List.mem_map] at hr
      rcases hr with rfl | ⟨x, hx, rfl⟩
      · exact hh m (by simp [Window.regions])
      · exact hh x (by simp [Window.regions, hx]))
  have hnote : notifications WM_TOPPARENTLOST m.self
      (detached { m with mParent := none } :: (regionsOf children).map detached) =
      notifications WM_TOPPARENTLOST m.self (Window.mk m children).regions := by
    have h1 := notifications_map WM_TOPPARENTLOST m.self
      (fun r => detached r) (fun _ => rfl) (regionsOf children)
    have h2 : (detached { m with mParent := none }).msgHandler = m.msgHandler := rfl
    simp only [Window.regions, notifications, h1, h2]
  simp only [Window.DiscardDeviceResources, Window.ParentLeft]
  rw [hsend, hregions]
  refine ⟨_, _, rfl, hregions, ?_⟩
  rw [messages_append, messages_notifications, hnote]
  split <;> simp [messages]

theorem parentLeftAll_after_discard (l : List Window)
    (hh : ∀ r ∈ regionsOf l, r.msgHandler ≠ none) :
    ∃ orphans log, parentLeftAll (discardAll l) = some (orphans, log) ∧
      List.Forall₂ (fun child orphan =>
        orphan.regions =
          detached { child.m with mParent := none } :: child.regions.tail.map detached)
        l orphans ∧
      messages log = lostNotifications l := by
  induction l with
  | nil => exact ⟨[], [], rfl, List.Forall₂.nil, rfl⟩
  | cons child rest ih =>
    obtain ⟨m, children⟩ := child
    obtain ⟨orphans, log, h1, h2, h3⟩ := ih (fun r hr => hh r (by simp [regionsOf, hr]))
    obtain ⟨orphan, log1, g1, g2, g3⟩ := parentLeft_after_discard m children
      (fun r hr => hh r (by simp [regionsOf, hr]))
    refine ⟨orphan :: orphans, log1 ++ log, ?_, List.Forall₂.cons ?_ h2, ?_⟩
    · simp only [discardAll, parentLeftAll, g1, h1]
    · simpa [Window.regions, Window.m] using g2
    · rw [messages_append, g3, h3]
      rfl

theorem lostNotifications_length (l : List Window)
    (hh : ∀ r ∈ regionsOf l, r.msgHandler ≠ none) :
    (lostNotifications l).length = (regionsOf l).length := by
  induction l with
  | nil => rfl
  | cons child rest ih =>
    simp only [lostNotifications, regionsOf, List.length_append]
    rw [ih (fun r hr => hh r (by simp [regionsOf, hr])),
      notifications_length _ _ _ (fun r hr => hh r (by simp [regionsOf, hr]))]

theorem forall₂_mem_right {α β : Type} {R : α → β → Prop} {l1 : List α} {l2 : List β}
    (h : List.Forall₂ R l1 l2) {b : β} (hb : b ∈ l2) : ∃ a ∈ l1, R a b := by
  induction h with
  | nil => cases hb
  | cons hab _ ih =>
    rcases List.mem_cons.1 hb with rfl | hb2
    · exact ⟨_, by simp, hab⟩
    · obtain ⟨a, ha, hr⟩ := ih hb2
      exact ⟨a, by simp [ha], hr⟩

theorem destroy_log (m : Members) (children orphans : List Window) (log : List Event)
    (h : parentLeftAll (discardAll children) = some (orphans, log)) :
    ∃ pre post, (Window.mk m children).destroy = some (orphans, pre ++ log ++ post) ∧
      messages pre = [] ∧ messages post = [] := by
  refine ⟨(match m.mParent with
      | some parent => [Event.removeChild parent m.self]
      | none =>
        if m.mIsChild then [Event.removeWindowRegistrationListener m.mParentName m.self]
        else []) ++
      (if m.registerWithCore then [Event.unRegisterWindow m.self] else []) ++
      (if !m.mIsChild then
        match m.window with
        | some hwnd => [Event.destroyWindow hwnd]
        | none => []
      else []),
    (if !m.mIsChild then
      match m.monitorInfo with
      | some monitorInfo => [Event.deleteMonitorInfo monitorInfo]
      | none => []
    else []), ?_, ?_, ?_⟩
  · simp only [Window.destroy, Window.DiscardDeviceResources, Window.children, h]
  · obtain ⟨self, mh, ic, mp, pn, rc, mi, wi, rt⟩ := m
    cases ic <;> cases mp <;> cases rc <;> cases wi <;> simp [messages]
  · obtain ⟨self, mh, ic, mp, pn, rc, mi, wi, rt⟩ := m
    cases ic <;> cases mi <;> simp [messages]

/-- C22: a window whose children, and the windows below them, all have a message
handler is destroyed.  The destructor returns, and every former child ends with a null
parent link and null `monitorInfo`, `window` and `renderTarget`; every window below a
former child ends with null `monitorInfo`, `window` and `renderTarget`, and is unchanged
otherwise.  The messages handed to handlers are the `WM_TOPPARENTLOST` notifications,
one for every window of the subtree of each child, the child first and then the
windows below it, with the child as the sender. -/
theorem C22_destroy_detaches_children (m : Members) (children : List Window)
    (hh : ∀ r ∈ regionsOf children, r.msgHandler ≠ none) :
    ∃ orphans log, (Window.mk m children).destroy = some (orphans, log) ∧
      List.Forall₂ (fun child orphan =>
        orphan.regions =
          detached { child.m with mParent := none } :: child.regions.tail.map detached)
        children orphans ∧
      (∀ orphan ∈ orphans, orphan.m.mParent = none ∧
        ∀ r ∈ orphan.regions,
          r.monitorInfo = none ∧ r.window = none ∧ r.renderTarget = none) ∧
      messages log = lostNotifications children ∧
      (messages log).length = (regionsOf children).length := by
  obtain ⟨orphans, log, h1, h2, h3⟩ := parentLeftAll_after_discard children hh
  obtain ⟨pre, post, hd, hpre, hpost⟩ := destroy_log m children orphans log h1
  have hmsg : messages (pre ++ log ++ post) = lostNotifications children := by
    rw [messages_append, messages_append, hpre, hpost, h3]
    simp
  refine ⟨orphans, pre ++ log ++ post, hd, h2, ?_, hmsg, ?_⟩
  · intro orphan ho
    obtain ⟨child, _, hc⟩ := forall₂_mem_right h2 ho
    constructor
    · obtain ⟨om, och⟩ := orphan
      simp only [Window.regions, List.cons.injEq] at hc
      simp only [Window.m]
      rw [hc.1]
      rfl
    · intro r hr
      rw [hc] at hr
      simp only [List.mem_cons, List.mem_map] at hr
      rcases hr with rfl | ⟨x, _, rfl⟩ <;> exact ⟨rfl, rfl, rfl⟩
  · rw [hmsg, lostNotifications_length children hh]

/-- C22, an instance: the parent 0 with the children 1, which has the child 2, and 3 is
destroyed; the notifications go to the handlers of 1, 2 and 3, in this order, and all
three windows end without monitor information, window handle and render target. -/
theorem C22_witness_parent_with_grandchild :
    ∃ orphans log, sampleParent.destroy = some (orphans, log) ∧
      messages log =
        [Event.message (MessageHandler.object 11) WM_TOPPARENTLOST 1,
         Event.message (MessageHandler.object 12) WM_TOPPARENTLOST 1,
         Event.message (MessageHandler.object 13) WM_TOPPARENTLOST 3] ∧
      (∀ orphan ∈ orphans, orphan.m.mParent = none ∧
        ∀ r ∈ orphan.regions,
          r.monitorInfo = none ∧ r.window = none ∧ r.renderTarget = none) := by
  obtain ⟨orphans, log, h1, _, h3, h4, _⟩ :=
    C22_destroy_detaches_children sampleParent.m sampleParent.children (by decide)
  exact ⟨orphans, log, h1, by rw [h4]; decide, h3⟩

end Family

namespace Family

theorem recreate_eq (created up : Option Nat) (m : Members) (children : List Window) :
    (Window.mk m children).ReCreateDeviceResources created up =
      match m.renderTarget with
      | some _ => .mk m children
      | none =>
        if !m.mIsChild then
          match created with
          | some target =>
            .mk { m with renderTarget := some target }
              (recreateAll created (some target) children)
          | none => .mk m children
        else
          match m.mParent with
          | none => .mk m children
          | some _ => .mk { m with renderTarget := up } (recreateAll created up children) := by
  rfl

theorem Aliases.weaken (rt : Option Nat) (d : Members) (h : Aliases none d) : Aliases rt d :=
  ⟨h.1, h.2.1, Or.inl (h.2.2.elim id id)⟩

mutual
theorem recreate_keeps (created up rt : Option Nat) (hup : up = none ∨ up = rt) :
    ∀ w : Window, (∀ d ∈ w.regions, Aliases rt d) →
      ∀ d ∈ (w.ReCreateDeviceResources created up).regions, Aliases rt d
  | .mk m children => by
    intro h
    have hm := h m (by simp [Window.regions])
    have hc := recreateAll_keeps created up rt hup children
      (fun d hd => h d (by simp [Window.regions, hd]))
    rw [recreate_eq]
    split
    · exact h
    · rw [if_neg (by simp [hm.1])]
      split
      · exact h
      · intro d hd
        simp only [Window.regions, List.mem_cons] at hd
        rcases hd with rfl | hd
        · exact ⟨hm.1, hm.2.1, hup⟩
        · exact hc d hd
theorem recreateAll_keeps (created up rt : Option Nat) (hup : up = none ∨ up = rt) :
    ∀ l : List Window, (∀ d ∈ regionsOf l, Aliases rt d) →
      ∀ d ∈ regionsOf (recreateAll created up l), Aliases rt d
  | [] => fun _ d hd => by cases hd
  | child :: rest => by
    intro h d hd
    simp only [recreateAll, regionsOf, List.mem_append] at hd
    rcases hd with hd | hd
    · exact recreate_keeps created up rt hup child
        (fun x hx => h x (by simp [regionsOf, hx])) d hd
    · exact recreateAll_keeps created up rt hup rest
        (fun x hx => h x (by simp [regionsOf, hx])) d hd
end

mutual
theorem update_keeps (rt : Option Nat) (a b : Option Nat) :
    ∀ w : Window, (∀ d ∈ w.regions, Aliases rt d) →
      ∀ d ∈ (w.UpdateParentVariables a b).regions, Aliases rt d
  | .mk m children => by
    intro h
    have hm := h m (by simp [Window.regions])
    unfold Window.UpdateParentVariables
    split
    · intro d hd
      simp only [Window.regions, List.mem_cons] at hd
      rcases hd with rfl | hd
      · exact hm
      · exact updateAll_keeps rt a b children
          (fun x hx => h x (by simp [Window.regions, hx])) d hd
    · intro d hd
      simp only [Window.regions, List.mem_cons] at hd
      rcases hd with rfl | hd
      · exact hm
      · exact updateAll_keeps rt none none children
          (fun x hx => h x (by simp [Window.regions, hx])) d hd
theorem updateAll_keeps (rt : Option Nat) (a b : Option Nat) :
    ∀ l : List Window, (∀ d ∈ regionsOf l, Aliases rt d) →
      ∀ d ∈ regionsOf (updateAll a b l), Aliases rt d
  | [] => fun _ d hd => by cases hd
  | child :: rest => by
    intro h d hd
    simp only [updateAll, regionsOf, List.mem_append] at hd
    rcases hd with hd | hd
    · exact update_keeps rt a b child (fun x hx => h x (by simp [regionsOf, hx])) d hd
    · exact updateAll_keeps rt a b rest (fun x hx => h x (by simp [regionsOf, hx])) d hd
end

mutual
theorem update_top (a b : Option Nat) : ∀ w : Window,
    (w.UpdateParentVariables a b).m.mIsChild = w.m.mIsChild ∧
    (w.UpdateParentVariables a b).m.mParent = w.m.mParent ∧
    (w.UpdateParentVariables a b).m.renderTarget = w.m.renderTarget ∧
    (w.UpdateParentVariables a b).m.self = w.m.self
  | .mk m children => by
    unfold Window.UpdateParentVariables
    split <;> exact ⟨rfl, rfl, rfl, rfl⟩
end

mutual
theorem pushChildAt_regions (child : Window) : ∀ (path : List Nat) (w : Window) (d : Members),
    d ∈ (pushChildAt child path w).regions → d ∈ w.regions ∨ d ∈ child.regions
  | [], .mk m children, d => by
    intro hd
    have happ : ∀ l : List Window, regionsOf (l ++ [child]) = regionsOf l ++ child.regions := by
      intro l
      induction l with
      | nil => simp [regionsOf]
      | cons c cs ih => simp [regionsOf, ih]
    simp only [pushChildAt, Window.regions, List.mem_cons, happ, List.mem_append] at hd ⊢
    tauto
  | i :: rest, .mk m children, d => by
    intro hd
    simp only [pushChildAt, Window.regions, List.mem_cons] at hd ⊢
    rcases hd with hd | hd
    · exact Or.inl (Or.inl hd)
    · rcases pushChildAtOf_regions child i rest children d hd with h | h
      · exact Or.inl (Or.inr h)
      · exact Or.inr h
theorem pushChildAtOf_regions (child : Window) :
    ∀ (i : Nat) (rest : List Nat) (l : List Window) (d : Members),
      d ∈ regionsOf (pushChildAtOf child i rest l) → d ∈ regionsOf l ∨ d ∈ child.regions
  | _, _, [], d => by
    intro hd
    simp [pushChildAtOf, regionsOf] at hd
  | 0, rest, first :: others, d => by
    intro hd
    simp only [pushChildAtOf, regionsOf, List.mem_append] at hd ⊢
    rcases hd with hd | hd
    · rcases pushChildAt_regions child rest first d hd with h | h
      · exact Or.inl (Or.inl h)
      · exact Or.inr h
    · exact Or.inl (Or.inr hd)
  | i + 1, rest, first :: others, d => by
    intro hd
    simp only [pushChildAtOf, regionsOf, List.mem_append] at hd ⊢
    rcases hd with hd | hd
    · exact Or.inl (Or.inl hd)
    · rcases pushChildAtOf_regions child i rest others d hd with h | h
      · exact Or.inl (Or.inr h)
      · exact Or.inr h
end

theorem pushChildAt_top (child : Window) (path : List Nat) (w : Window) :
    (pushChildAt child path w).m = w.m := by
  obtain ⟨m, children⟩ := w
  cases path <;> rfl

mutual
theorem memberAt_mem : ∀ (path : List Nat) (w : Window) (n : Members),
    w.memberAt path = some n → n ∈ w.regions
  | [], .mk m children, n => by
    intro h
    simp only [Window.memberAt, Option.some.injEq] at h
    simp [Window.regions, h]
  | i :: rest, .mk m children, n => by
    intro h
    simp only [Window.memberAt] at h
    simp only [Window.regions, List.mem_cons]
    exact Or.inr (memberAtOf_mem i rest children n h)
theorem memberAtOf_mem : ∀ (i : Nat) (rest : List Nat) (l : List Window) (n : Members),
    memberAtOf i rest l = some n → n ∈ regionsOf l
  | _, _, [], n => by
    intro h
    simp [memberAtOf] at h
  | 0, rest, first :: others, n => by
    intro h
    simp only [memberAtOf] at h
    simp only [regionsOf, List.mem_append]
    exact Or.inl (memberAt_mem rest first n h)
  | i + 1, rest, first :: others, n => by
    intro h
    simp only [memberAtOf] at h
    simp only [regionsOf, List.mem_append]
    exact Or.inr (memberAtOf_mem i rest others n h)
end

mutual
theorem initializeAt_keeps (created rt : Option Nat) :
    ∀ (path : List Nat) (w : Window) (up : Option Nat), (up = none ∨ up = rt) →
      (∀ d ∈ w.regions, Aliases rt d) →
      ∀ d ∈ (w.initializeAt created up path).regions, Aliases rt d
  | [], .mk m children, up => by
    intro hup h
    simp only [Window.initializeAt]
    exact recreate_keeps created up rt hup _ h
  | i :: rest, .mk m children, up => by
    intro _ h d hd
    have hm := h m (by simp [Window.regions])
    simp only [Window.initializeAt, Window.regions, List.mem_cons] at hd
    rcases hd with rfl | hd
    · exact hm
    · exact initializeAtOf_keeps created rt i rest children m.renderTarget hm.2.2
        (fun x hx => h x (by simp [Window.regions, hx])) d hd
theorem initializeAtOf_keeps (created rt : Option Nat) :
    ∀ (i : Nat) (rest : List Nat) (l : List Window) (up : Option Nat), (up = none ∨ up = rt) →
      (∀ d ∈ regionsOf l, Aliases rt d) →
      ∀ d ∈ regionsOf (initializeAtOf created up i rest l), Aliases rt d
  | _, _, [], _ => by
    intro _ _ d hd
    simp [initializeAtOf, regionsOf] at hd
  | 0, rest, first :: others, up => by
    intro hup h d hd
    simp only [initializeAtOf, regionsOf, List.mem_append] at hd
    rcases hd with hd | hd
    · exact initializeAt_keeps created rt rest first up hup
        (fun x hx => h x (by simp [regionsOf, hx])) d hd
    · exact h d (by simp [regionsOf, hd])
  | i + 1, rest, first :: others, up => by
    intro hup h d hd
    simp only [initializeAtOf, regionsOf, List.mem_append] at hd
    rcases hd with hd | hd
    · exact h d (by simp [regionsOf, hd])
    · exact initializeAtOf_keeps created rt i rest others up hup
        (fun x hx => h x (by simp [regionsOf, hx])) d hd
end

theorem pushChildAt_children (child : Window) (path : List Nat) (w : Window) (d : Members)
    (hd : d ∈ regionsOf (pushChildAt child path w).children) :
    d ∈ regionsOf w.children ∨ d ∈ child.regions := by
  obtain ⟨m, children⟩ := w
  cases path with
  | nil =>
    have happ : ∀ l : List Window, regionsOf (l ++ [child]) = regionsOf l ++ child.regions := by
      intro l
      induction l with
      | nil => simp [regionsOf]
      | cons c cs ih => simp [regionsOf, ih]
    simpa [pushChildAt, Window.children, happ] using hd
  | cons i rest =>
    exact pushChildAtOf_regions child i rest children d
      (by simpa [pushChildAt, Window.children] using hd)

theorem reachable_aliases (t : Window) (h : Reachable t) :
    t.m.mParent = none ∧ (t.m.mIsChild = true → t.m.renderTarget = none) ∧
      ∀ d ∈ regionsOf t.children, Aliases t.m.renderTarget d := by
  have hrecreate : ∀ (t : Window) (created : Option Nat),
      (t.m.mParent = none ∧ (t.m.mIsChild = true → t.m.renderTarget = none) ∧
        ∀ d ∈ regionsOf t.children, Aliases t.m.renderTarget d) →
      (t.ReCreateDeviceResources created none).m.mParent = none ∧
      ((t.ReCreateDeviceResources created none).m.mIsChild = true →
        (t.ReCreateDeviceResources created none).m.renderTarget = none) ∧
      ∀ d ∈ regionsOf (t.ReCreateDeviceResources created none).children,
        Aliases (t.ReCreateDeviceResources created none).m.renderTarget d := by
    intro t created ih
    obtain ⟨m, children⟩ := t
    obtain ⟨h1, h2, h3⟩ := ih
    simp only [Window.m, Window.children] at h1 h2 h3
    rw [recreate_eq]
    split
    · exact ⟨h1, h2, h3⟩
    · rename_i hrt
      split
      · rename_i hroot
        split
        · rename_i target
          refine ⟨h1, ?_, ?_⟩
          · intro hc
            have hc2 : m.mIsChild = true := hc
            simp [hc2] at hroot
          · intro d hd
            simp only [Window.children] at hd
            exact recreateAll_keeps _ (some target) (some target) (Or.inr rfl) children
              (fun x hx => Aliases.weaken _ x (by simpa [hrt] using h3 x hx)) d hd
        · exact ⟨h1, h2, h3⟩
      · rw [h1]
        exact ⟨h1, h2, h3⟩
  induction h with
  | constructed m hp hr =>
    exact ⟨hp, fun _ => hr, fun d hd => by simp [Window.children, regionsOf] at hd⟩
  | createChild t path parent self msgHandler _ hmem ih =>
    obtain ⟨h1, h2, h3⟩ := ih
    rw [pushChildAt_top]
    refine ⟨h1, h2, ?_⟩
    intro d hd
    rcases pushChildAt_children _ _ _ d hd with hd | hd
    · exact h3 d hd
    · simp only [newChild, Window.regions, regionsOf, List.mem_singleton] at hd
      subst hd
      unfold Aliases
      exact ⟨rfl, by simp, Or.inl rfl⟩
  | initializeWindow t path created _ ih =>
    cases path with
    | nil =>
      obtain ⟨m, children⟩ := t
      exact hrecreate _ created ih
    | cons i rest =>
      obtain ⟨m, children⟩ := t
      obtain ⟨h1, h2, h3⟩ := ih
      refine ⟨h1, h2, ?_⟩
      intro d hd
      simp only [Window.initializeAt, Window.children, Window.m] at hd ⊢
      exact initializeAtOf_keeps created m.renderTarget i rest children m.renderTarget
        (Or.inr rfl) h3 d hd
  | setParent t orphan adopted path newParent created log _ _ hchild hnull hmem hset ih1 ih2 =>
    obtain ⟨h1, h2, h3⟩ := ih1
    obtain ⟨_, g2, g3⟩ := ih2
    rw [pushChildAt_top]
    refine ⟨h1, h2, ?_⟩
    have hnp : newParent.renderTarget = none ∨ newParent.renderTarget = t.m.renderTarget := by
      have hin := memberAt_mem path t newParent hmem
      obtain ⟨m, children⟩ := t
      simp only [Window.regions, List.mem_cons] at hin
      rcases hin with rfl | hin
      · exact Or.inr rfl
      · exact (h3 _ hin).2.2
    have hadopted : ∀ d ∈ adopted.regions, Aliases t.m.renderTarget d := by
      obtain ⟨om, och⟩ := orphan
      simp only [Window.m, Window.children] at hchild hnull g2 g3
      have hlinked : ∀ d ∈ ((Window.mk { om with mParent := some newParent.self }
          och).UpdateParentVariables newParent.monitorInfo newParent.window).regions,
          Aliases t.m.renderTarget d := by
        apply update_keeps
        intro d hd
        simp only [Window.regions, List.mem_cons] at hd
        rcases hd with rfl | hd
        · unfold Aliases
          exact ⟨hchild, by simp, Or.inl (g2 hchild)⟩
        · exact Aliases.weaken _ d (by simpa [g2 hchild] using g3 d hd)
      simp only [Window.SetParent] at hset
      split at hset
      · simp only [Option.some.injEq, Prod.mk.injEq] at hset
        rw [← hset.1]
        exact recreate_keeps created newParent.renderTarget t.m.renderTarget hnp _ hlinked
      · exact absurd hset (by simp)
    intro d hd
    rcases pushChildAt_children _ _ _ d hd with hd | hd
    · exact h3 d hd
    · exact hadopted d hd
  | reCreateDeviceResources t created _ ih => exact hrecreate t created ih
  | discardDeviceResources t _ ih =>
    obtain ⟨m, children⟩ := t
    obtain ⟨h1, h2, h3⟩ := ih
    simp only [Window.m, Window.children] at h1 h2 h3
    refine ⟨h1, fun _ => rfl, ?_⟩
    intro d hd
    simp only [Window.DiscardDeviceResources, Window.children, discardAll_regions,
      List.mem_map] at hd
    obtain ⟨x, hx, rfl⟩ := hd
    exact ⟨(h3 x hx).1, (h3 x hx).2.1, Or.inl rfl⟩

/-- C28: in every tree reached from a window just constructed by `CreateChild` and
`Initialize` on any of its windows, `SetParent` of the top of another such tree, a
child whose parent link is null, to any of its windows, and `ReCreateDeviceResources`
(which may fail) and `DiscardDeviceResources` on its top: the render target of every
window below the top is null or the render target that the top holds; a top that
holds a render target creates no other, `ReCreateDeviceResources` changes nothing then;
and after `DiscardDeviceResources` on the top every window of the tree has a null
render target. -/
theorem C28_render_targets_aliased (t : Window) (h : Reachable t) :
    (∀ d ∈ regionsOf t.children,
      d.renderTarget = none ∨ d.renderTarget = t.m.renderTarget) ∧
    (∀ created, t.m.renderTarget ≠ none → t.ReCreateDeviceResources created none = t) ∧
    (∀ r ∈ t.DiscardDeviceResources.regions, r.renderTarget = none) := by
  obtain ⟨_, _, h3⟩ := reachable_aliases t h
  refine ⟨fun d hd => (h3 d hd).2.2, ?_, ?_⟩
  · intro created hrt
    obtain ⟨m, children⟩ := t
    rw [recreate_eq]
    cases hm : m.renderTarget with
    | none => exact absurd hm hrt
    | some target => rfl
  · intro r hr
    rw [discard_regions, List.mem_map] at hr
    obtain ⟨x, _, rfl⟩ := hr
    rfl

/-- C28, an instance: a top-level window gets a child, creates the render target 7,
the child gets a child of its own, which is initialized; all three windows have the
render target 7, and none after `DiscardDeviceResources`. -/
theorem C28_witness_three_windows_one_target :
    sampleTree.regions.map (fun r => r.renderTarget) = [some 7, some 7, some 7] ∧
    (∀ d ∈ regionsOf sampleTree.children,
      d.renderTarget = none ∨ d.renderTarget = sampleTree.m.renderTarget) ∧
    (∀ r ∈ sampleTree.DiscardDeviceResources.regions, r.renderTarget = none) := by
  have h := C28_render_targets_aliased sampleTree
    (Reachable.initializeWindow _ [0, 0] none
      (Reachable.createChild _ [0] _ 2 none
        (Reachable.reCreateDeviceResources _ (some 7)
          (Reachable.createChild _ [] newTop 1 none
            (Reachable.constructed newTop rfl rfl) rfl))
        rfl))
  exact ⟨by decide, h.1, h.2.2⟩

end Family

end nModules
